import Mathlib

/-!
# createdump: memory-region aggregation and module-mapping resolution

A shallow embedding of `src/coreclr/debug/createdump/crashinfo.cpp`.

* `uint64_t` values are natural numbers; every addition or subtraction the
  source performs in 64 bits is reduced modulo `U64` here.
* `std::set<MemoryRegion>` is the list of its elements in iteration order.
  The comparator is a strict partial order, so the iteration order of any
  such set is a chain for it (`SetOrdered`), and on a chain the tree searches
  of `find` and `insert` are the list searches `setFind` and `setInsert`.
* What lies outside the file (page size, permission mask, the target-memory
  probe, `GetMemoryRegionFlags`) is a field of `Platform`.
* `ULONG_PTR` and `size_t` are taken as 64 bits wide. The page counts that
  `InsertMemoryRegion` returns as `int` are natural numbers here: the
  conversion to `int` is not modelled, and the theorems on the number returned
  are stated for sizes below `UINT_MAX`, as the source asserts, where the
  number is at most `INT_MAX` and the `int` returned is that number.
* An assertion of the source is a precondition of the theorems, not a branch
  of the model, except the non-emptiness asserted by `CombineMemoryRegions`,
  whose failure is the result `none`.
* The Module Registry, a `std::set` of `ModuleInfo*` under `ModuleInfoCompare`,
  is the list of its records in the order of their base addresses
  (`ModulesOrdered`); a pointer to a record is the record.
* The reads of image headers in the target are the fields of `ImageReader`,
  the constants of the PAL and Windows headers those of `Constants`, and the
  threads, the platform's enumeration stages, the loader and the debug-data
  provider those of `Collaborators`, `DataProcess`, `DataModule` and
  `EnumRegions`. The threads of `m_threads` are a list of thread ids.
* A run of `GatherCrashInfo` carries, besides the state, the record of the
  stages it enters (`Run.trace`), which the source does not have. In the same
  way `combineCommits` is the record of the regions that the scan of
  `CombineMemoryRegions` inserts, each with the new set it is inserted into.
* In the found branch of `AddOrReplaceModuleMapping` the source reads
  `found->Size()` after `erase(found)`, through an invalidated iterator; the
  value read is a field of `Platform` (`erasedSize`), not the size of the
  entry.
* A `std::string` is the string of its characters, one `Char` for each `char`;
  `rfind` and `substr` follow the C++ standard library, an exception thrown by
  `substr` being the result `none`. The separator `DIRECTORY_SEPARATOR_STR_A`
  is defined outside the file and is a parameter.
-/

namespace CreateDump

/-- Number of values of a `uint64_t`. -/
def U64 : Nat := 18446744073709551616

/-- Modelled from the spec: the Page Interval value type `MemoryRegion`
(declared in `memoryregion.h`): flags, half-open address range, offset and
optional file name. -/
structure MemoryRegion where
  flags : Nat
  startAddress : Nat
  endAddress : Nat
  offset : Nat := 0
  fileName : String := ""
deriving DecidableEq, Repr

namespace MemoryRegion

/-- Modelled from the spec: the ordering of `MemoryRegion` used by the region
sets (`operator<` of `memoryregion.h`). Regions are ordered by start address
and a region is below another only when it ends at or before the other's
start, so that two regions neither of which is below the other collide; a
zero-length probe at an address collides with the region containing it. -/
def lt (a b : MemoryRegion) : Bool :=
  decide (a.startAddress < b.startAddress) && decide (a.endAddress ≤ b.startAddress)

/-- Modelled from the spec: `MemoryRegion::Size`, the byte length of the
range, computed in 64 bits. -/
def Size (r : MemoryRegion) : Nat :=
  (r.endAddress + U64 - r.startAddress) % U64

/-- Modelled from the spec: `MemoryRegion::SizeInPages`, the size divided by
the page size. -/
def SizeInPages (pageSize : Nat) (r : MemoryRegion) : Nat :=
  r.Size / pageSize

/-- Modelled from the spec: `MemoryRegion::Contains`, true when `rhs` is
wholly contained in `r`. -/
def Contains (r rhs : MemoryRegion) : Bool :=
  decide (r.startAddress ≤ rhs.startAddress) && decide (rhs.endAddress ≤ r.endAddress)

/-- Two regions collide when neither is below the other: the equivalence the
region sets use for membership. -/
def Collides (a b : MemoryRegion) : Prop :=
  a.lt b = false ∧ b.lt a = false

instance (a b : MemoryRegion) : Decidable (Collides a b) := by
  unfold Collides; infer_instance

end MemoryRegion

/-- The elements of a `std::set<MemoryRegion>` in iteration order. -/
abbrev RegionSet := List MemoryRegion

/-- Iteration-order invariant of a `std::set<MemoryRegion>`: every element
is below every later one. -/
def SetOrdered (s : RegionSet) : Prop :=
  s.Pairwise (fun a b => a.lt b = true)

instance (s : RegionSet) : Decidable (SetOrdered s) := by
  unfold SetOrdered; infer_instance

/-- The call `std::set::find`: the first element not below the key, when the
key is not below it either. -/
def setFind : RegionSet → MemoryRegion → Option MemoryRegion
  | [], _ => none
  | e :: rest, k =>
    if e.lt k then setFind rest k
    else if k.lt e then none
    else some e

/-- The call `std::set::insert`: the key is placed in order unless an element
collides with it, in which case the set is left as it is. -/
def setInsert : RegionSet → MemoryRegion → RegionSet
  | [], k => [k]
  | e :: rest, k =>
    if k.lt e then k :: e :: rest
    else if e.lt k then e :: setInsert rest k
    else e :: rest

/-- The call `std::set::erase` on the iterator of a stored element. -/
def setErase (s : RegionSet) (e : MemoryRegion) : RegionSet :=
  s.erase e

/-- Modelled from the spec: the Module Info record (`ModuleInfo`, declared
in `moduleinfo.h`), with the members that the constructor call in
`AddModuleInfo` sets. -/
structure ModuleInfo where
  isManaged : Bool
  baseAddress : Nat
  timeStamp : Nat
  imageSize : Nat
  versionId : Nat
  moduleName : String
deriving DecidableEq, Repr

/-- What a module handle of the debug-data provider (`IXCLRDataModule`)
answers: the flags and the version id when the call returns `S_OK`, the
module data of `DacpGetModuleData::Request` (`IsDynamic`, `LoadedPEAddress`,
`LoadedPESize`) and the file name when the call succeeds. -/
structure DataModule where
  GetFlags : Option Nat
  GetVersionId : Option Nat
  Request : Option (Bool × Nat × Nat)
  GetFileName : Option String
deriving DecidableEq, Repr

/-- What the process interface of the debug-data provider
(`IXCLRDataProcess`) answers: whether `StartEnumModules` succeeds and the
modules that `EnumModule` then yields, in order. -/
structure DataProcess where
  StartEnumModules : Bool
  modules : List DataModule
deriving DecidableEq, Repr

/-- What the region interface of the debug-data provider
(`ICLRDataEnumMemoryRegions`) does on `EnumMemoryRegions` for a dump type:
whether the call succeeds and the `(address, size)` regions it reports to the
callback, in order. -/
structure EnumRegions where
  EnumMemoryRegions : Nat → Bool × List (Nat × Nat)

/-- The members of `CrashInfo` that the operations use. The counters of type
`int` are natural numbers. -/
structure CrashInfo where
  m_memoryRegions : RegionSet := []
  m_moduleMappings : RegionSet := []
  m_cbModuleMappings : Nat := 0
  m_otherMappings : RegionSet := []
  m_moduleAddresses : RegionSet := []
  m_moduleInfos : List ModuleInfo := []
  m_mainModule : Option ModuleInfo := none
  m_coreclrPath : String := ""
  m_hdac : Option Nat := none
  m_pClrDataEnumRegions : Option EnumRegions := none
  m_pClrDataProcess : Option DataProcess := none
  m_enumMemoryPagesAdded : Nat := 0

/-- What the operations take from outside `crashinfo.cpp`: the page size, the
permission mask of the flags, the one-byte read probe of the target at an
address, `GetMemoryRegionFlags`, and what `Size()` yields when it is read
through the iterator of an entry that `std::set::erase` has just removed: the
language leaves that value undefined, so it is whatever the heap holds. -/
structure Platform where
  PAGE_SIZE : Nat
  MEMORY_REGION_FLAG_PERMISSIONS_MASK : Nat
  ReadProcessMemory : Nat → Bool
  GetMemoryRegionFlags : CrashInfo → Nat → Nat
  erasedSize : MemoryRegion → Nat

/-- The constant `UINT_MAX` of `<climits>`, for a 32-bit `unsigned int`:
`InsertMemoryRegion(address, size)` asserts `size < UINT_MAX`. -/
def UINT_MAX : Nat := 4294967295

/-- The constant `INT_MAX` of `<climits>`, for a 32-bit `int`: the greatest
page count that `InsertMemoryRegion` can return as it is. -/
def INT_MAX : Nat := 2147483647

/-- Modelled from the spec: `x & PAGE_MASK` (the macro is not in the file)
rounds `x` down to a page boundary. -/
def pageFloor (pf : Platform) (x : Nat) : Nat :=
  x / pf.PAGE_SIZE * pf.PAGE_SIZE

/-- The loop of `ValidRegion`: probe one byte of each of `numberPages` pages
from `start`, stopping at the first failure. -/
def validLoop (pf : Platform) : Nat → Nat → Bool
  | 0, _ => true
  | n + 1, start =>
    if !pf.ReadProcessMemory start then false
    else validLoop pf n ((start + pf.PAGE_SIZE) % U64)

/-- The function `CrashInfo::ValidRegion`. -/
def ValidRegion (pf : Platform) (region : MemoryRegion) : Bool :=
  validLoop pf (region.SizeInPages pf.PAGE_SIZE) region.startAddress

/-- The three-argument constructor `MemoryRegion(flags, start, end)`. -/
def mkRegion (flags start stop : Nat) : MemoryRegion :=
  { flags := flags, startAddress := start, endAddress := stop }

/-- The per-page loop of `InsertMemoryRegion`: for each of the remaining
pages, insert it as a one-page entry when nothing in the set collides with it
and it is readable. Returns the pages added and the set. -/
def insertPages (pf : Platform) (flags : Nat) :
    Nat → Nat → RegionSet → Nat → Nat × RegionSet
  | 0, _, s, pagesAdded => (pagesAdded, s)
  | n + 1, start, s, pagesAdded =>
    let memoryRegionPage := mkRegion flags start ((start + pf.PAGE_SIZE) % U64)
    match setFind s memoryRegionPage with
    | none =>
      if ValidRegion pf memoryRegionPage then
        insertPages pf flags n ((start + pf.PAGE_SIZE) % U64)
          (setInsert s memoryRegionPage) (pagesAdded + 1)
      else
        insertPages pf flags n ((start + pf.PAGE_SIZE) % U64) s pagesAdded
    | some _ =>
      insertPages pf flags n ((start + pf.PAGE_SIZE) % U64) s pagesAdded

/-- The function `CrashInfo::InsertMemoryRegion(const MemoryRegion&)` on the
region set: the number of pages added and the new set. The source returns the
number as an `int`; the two agree up to `INT_MAX`, and what the theorems say
of the number returned they say within that bound. -/
def insertRegion (pf : Platform) (s : RegionSet) (region : MemoryRegion) :
    Nat × RegionSet :=
  let fallback :=
    insertPages pf region.flags (region.SizeInPages pf.PAGE_SIZE) region.startAddress s 0
  match setFind s region with
  | none =>
    if ValidRegion pf region then
      (region.SizeInPages pf.PAGE_SIZE, setInsert s region)
    else fallback
  | some found =>
    if found.Contains region then (0, s) else fallback

/-- The function `CrashInfo::InsertMemoryRegion(const MemoryRegion&)`:
returns the number of pages added, which is the `int` of the source up to
`INT_MAX`, and the new state. -/
def InsertMemoryRegion (pf : Platform) (ci : CrashInfo) (region : MemoryRegion) :
    Nat × CrashInfo :=
  let r := insertRegion pf ci.m_memoryRegions region
  (r.1, { ci with m_memoryRegions := r.2 })

/-- The function `CrashInfo::InsertMemoryRegion(uint64_t address, size_t size)`.
Its assertions (`size < UINT_MAX`, non-zero rounded bounds) are preconditions
of the theorems. -/
def InsertMemoryRegionBytes (pf : Platform) (ci : CrashInfo) (address size : Nat) :
    Nat × CrashInfo :=
  let start := pageFloor pf address
  let stop := pageFloor pf ((address + size + (pf.PAGE_SIZE - 1)) % U64)
  InsertMemoryRegion pf ci (mkRegion (pf.GetMemoryRegionFlags ci start) start stop)

/-- The scan of `CombineMemoryRegions`: the accumulator `(flags, start, end)`
is extended by a contiguous region with the same masked flags and otherwise
committed to the new set and restarted from the region. -/
def combineLoop (mask : Nat) :
    List MemoryRegion → Nat → Nat → Nat → RegionSet → (Nat × Nat × Nat) × RegionSet
  | [], flags, start, stop, memoryRegionsNew => ((flags, start, stop), memoryRegionsNew)
  | region :: rest, flags, start, stop, memoryRegionsNew =>
    if stop = region.startAddress ∧ flags = region.flags &&& mask then
      combineLoop mask rest flags start region.endAddress memoryRegionsNew
    else
      combineLoop mask rest (region.flags &&& mask) region.startAddress region.endAddress
        (setInsert memoryRegionsNew (mkRegion flags start stop))

/-- The function `CrashInfo::CombineMemoryRegions` on the region set; `none`
is the failed assertion that the set is not empty. -/
def combineRegions (mask : Nat) (s : RegionSet) : Option RegionSet :=
  match s with
  | [] => none
  | first :: _ =>
    let r := combineLoop mask s (first.flags &&& mask) first.startAddress first.startAddress []
    some (setInsert r.2 (mkRegion r.1.1 r.1.2.1 r.1.2.2))

/-- The function `CrashInfo::CombineMemoryRegions`. -/
def CombineMemoryRegions (pf : Platform) (ci : CrashInfo) : Option CrashInfo :=
  (combineRegions pf.MEMORY_REGION_FLAG_PERMISSIONS_MASK ci.m_memoryRegions).map
    (fun s => { ci with m_memoryRegions := s })

/-- The function `CrashInfo::AddOrReplaceModuleMapping`. In the replace branch
the source subtracts `found->Size()` after `m_moduleMappings.erase(found)`:
the value read is `pf.erasedSize found`, as a 64-bit number. -/
def AddOrReplaceModuleMapping (pf : Platform) (ci : CrashInfo)
    (baseAddress size : Nat) (name : String) : CrashInfo :=
  let start := pageFloor pf baseAddress
  let stop := pageFloor pf ((baseAddress + size + (pf.PAGE_SIZE - 1)) % U64)
  let flags := pf.GetMemoryRegionFlags ci baseAddress
  let header := mkRegion flags start ((start + pf.PAGE_SIZE) % U64)
  let ci1 := (InsertMemoryRegion pf ci header).2
  match setFind ci1.m_moduleMappings header with
  | none =>
    let newRegion : MemoryRegion :=
      { flags := flags, startAddress := start, endAddress := stop, offset := 0, fileName := name }
    { ci1 with
      m_moduleMappings := setInsert ci1.m_moduleMappings newRegion
      m_cbModuleMappings := (ci1.m_cbModuleMappings + newRegion.Size) % U64 }
  | some found =>
    if found.fileName ≠ name then
      let newRegion : MemoryRegion := { found with fileName := name }
      { ci1 with
        m_moduleMappings := setInsert (setErase ci1.m_moduleMappings found) newRegion
        m_cbModuleMappings :=
          ((ci1.m_cbModuleMappings + U64 - pf.erasedSize found % U64) % U64
            + newRegion.Size) % U64 }
    else ci1

/-- An address is covered by a set when some entry's range holds it. -/
def Covered (s : RegionSet) (a : Nat) : Prop :=
  ∃ e ∈ s, e.startAddress ≤ a ∧ a < e.endAddress

instance (s : RegionSet) (a : Nat) : Decidable (Covered s a) := by
  unfold Covered; infer_instance

/-- Every entry of the set is page-aligned. -/
def PageAligned (pf : Platform) (s : RegionSet) : Prop :=
  ∀ e ∈ s, e.startAddress % pf.PAGE_SIZE = 0 ∧ e.endAddress % pf.PAGE_SIZE = 0

instance (pf : Platform) (s : RegionSet) : Decidable (PageAligned pf s) := by
  unfold PageAligned; infer_instance

/-- Every entry of the set is non-empty. -/
def NonEmptyEntries (s : RegionSet) : Prop :=
  ∀ e ∈ s, e.startAddress < e.endAddress

instance (s : RegionSet) : Decidable (NonEmptyEntries s) := by
  unfold NonEmptyEntries; infer_instance

/-- The ranges of two regions share an address. -/
def RangesOverlap (a b : MemoryRegion) : Prop :=
  ∃ x, (a.startAddress ≤ x ∧ x < a.endAddress) ∧ (b.startAddress ≤ x ∧ x < b.endAddress)

/-- The pages added by an insertion according to the contract: the pages of
the `n`-page range from `start` that are readable and not covered by `s`. -/
def newPages (pf : Platform) (s : RegionSet) (start n : Nat) : List Nat :=
  (List.range n).filter (fun i =>
    pf.ReadProcessMemory (start + i * pf.PAGE_SIZE) &&
      !decide (Covered s (start + i * pf.PAGE_SIZE)))

/-- The invariants of a Memory Region Set before coalescing: ordered (hence
pairwise non-overlapping), page-aligned, non-empty entries. -/
def PageSet (pf : Platform) (s : RegionSet) : Prop :=
  SetOrdered s ∧ PageAligned pf s ∧ NonEmptyEntries s

instance (pf : Platform) (s : RegionSet) : Decidable (PageSet pf s) := by
  unfold PageSet; infer_instance

/-- A well-formed region: page-aligned bounds, start not above end, inside the
64-bit address space. -/
def WellFormed (pf : Platform) (r : MemoryRegion) : Prop :=
  r.startAddress % pf.PAGE_SIZE = 0 ∧ r.endAddress % pf.PAGE_SIZE = 0 ∧
    r.startAddress ≤ r.endAddress ∧ r.endAddress < U64

instance (pf : Platform) (r : MemoryRegion) : Decidable (WellFormed pf r) := by
  unfold WellFormed; infer_instance

/-- A target with 4 KiB pages all of whose pages are readable, on a heap that
keeps the content of an erased entry. -/
def readablePlatform : Platform :=
  { PAGE_SIZE := 0x1000
    MEMORY_REGION_FLAG_PERMISSIONS_MASK := 7
    ReadProcessMemory := fun _ => true
    GetMemoryRegionFlags := fun _ _ => 5
    erasedSize := fun r => r.Size }

/-- A target with 4 KiB pages whose pages from `0x3000` on are unreadable. -/
def raggedPlatform : Platform :=
  { PAGE_SIZE := 0x1000
    MEMORY_REGION_FLAG_PERMISSIONS_MASK := 7
    ReadProcessMemory := fun a => decide (a < 0x3000)
    GetMemoryRegionFlags := fun _ _ => 5
    erasedSize := fun r => r.Size }

/-- A state whose Memory Region Set holds the single page `[0x2000, 0x3000)`. -/
def onePageState : CrashInfo :=
  { m_memoryRegions := [mkRegion 5 0x2000 0x3000] }

/-- The state of a freshly constructed `CrashInfo`: empty sets, zero total. -/
def emptyState : CrashInfo := {}

/-- A state whose Memory Region Set holds the single page `[0x1000, 0x2000)`. -/
def lowPageState : CrashInfo :=
  { m_memoryRegions := [mkRegion 5 0x1000 0x2000] }

/-- Two output entries could still be merged: contiguous, with equal
permission bits. -/
def Mergeable (mask : Nat) (a b : MemoryRegion) : Prop :=
  a.endAddress = b.startAddress ∧ a.flags &&& mask = b.flags &&& mask

instance (mask : Nat) (a b : MemoryRegion) : Decidable (Mergeable mask a b) := by
  unfold Mergeable; infer_instance

/-- A state with three adjacent pages, the first two with equal permission
bits (differing in an internal bit), the third with other permissions. -/
def threePageState : CrashInfo :=
  { m_memoryRegions := [mkRegion 5 0x1000 0x2000, mkRegion 13 0x2000 0x3000,
      mkRegion 6 0x3000 0x4000] }

/-- The set `CombineMemoryRegions` ends with when the scan is at accumulator
`(flags, start, stop)` with `rest` still to visit: the new set of the scan with
its final accumulator committed. -/
def combineOut (mask : Nat) (rest : List MemoryRegion) (flags start stop : Nat)
    (memoryRegionsNew : RegionSet) : RegionSet :=
  setInsert (combineLoop mask rest flags start stop memoryRegionsNew).2
    (mkRegion (combineLoop mask rest flags start stop memoryRegionsNew).1.1
      (combineLoop mask rest flags start stop memoryRegionsNew).1.2.1
      (combineLoop mask rest flags start stop memoryRegionsNew).1.2.2)

/-- The state of the scan of `CombineMemoryRegions` on a set of ordered,
non-empty entries: a non-empty accumulator with masked flags, above a new set
of ordered, non-empty, masked entries none of which can be merged with another
or with the accumulator, and below the regions still to visit. -/
def CombineInv (mask : Nat) (memoryRegionsNew : RegionSet) (flags start stop : Nat)
    (rest : List MemoryRegion) : Prop :=
  start < stop ∧ flags &&& mask = flags ∧
  SetOrdered memoryRegionsNew ∧ NonEmptyEntries memoryRegionsNew ∧
  (∀ x ∈ memoryRegionsNew, x.flags &&& mask = x.flags) ∧
  (∀ x ∈ memoryRegionsNew, x.endAddress ≤ start) ∧
  (∀ x ∈ memoryRegionsNew, ∀ y ∈ memoryRegionsNew, ¬ Mergeable mask x y) ∧
  (∀ x ∈ memoryRegionsNew, ¬ (x.endAddress = start ∧ x.flags = flags)) ∧
  SetOrdered rest ∧ NonEmptyEntries rest ∧ (∀ r ∈ rest, stop ≤ r.startAddress)

/-- The probe `AddOrReplaceModuleMapping` builds for the page that holds the
image header of the module at `baseAddress`. -/
def headerPage (pf : Platform) (flags baseAddress : Nat) : MemoryRegion :=
  mkRegion flags (pageFloor pf baseAddress) ((pageFloor pf baseAddress + pf.PAGE_SIZE) % U64)

/-- The entry `AddOrReplaceModuleMapping` builds for a module that the
mapping table does not hold: its page-rounded range under the given name. -/
def moduleRange (pf : Platform) (flags baseAddress size : Nat) (name : String) :
    MemoryRegion :=
  { flags := flags
    startAddress := pageFloor pf baseAddress
    endAddress := pageFloor pf ((baseAddress + size + (pf.PAGE_SIZE - 1)) % U64)
    offset := 0
    fileName := name }

/-- A state whose Module Mapping Table holds the four-page mapping
`[0x5000, 0x9000)` under the placeholder name `/dev/zero`. -/
def devZeroState : CrashInfo :=
  { m_moduleMappings :=
      [{ flags := 5, startAddress := 0x5000, endAddress := 0x9000, fileName := "/dev/zero" }] }

/-- The constants that `crashinfo.cpp` takes from headers outside the file:
segment permission bits, dump types, provider module flags, the magic numbers
and the sizes and offset of the image headers, and the file name of the
provider library (`MAKEDLLNAME_A("mscordaccore")`). -/
structure Constants where
  PF_R : Nat
  PF_W : Nat
  PF_X : Nat
  MiniDumpNormal : Nat
  MiniDumpWithFullMemory : Nat
  MiniDumpWithPrivateReadWriteMemory : Nat
  CLRDATA_MODULE_IS_DYNAMIC : Nat
  CLRDATA_MODULE_IS_MAIN_MODULE : Nat
  IMAGE_NT_OPTIONAL_HDR32_MAGIC : Nat
  IMAGE_NT_OPTIONAL_HDR64_MAGIC : Nat
  sizeofDosHeader : Nat
  sizeofMagic : Nat
  sizeofNtHeaders32 : Nat
  sizeofNtHeaders64 : Nat
  offsetofOptionalHeaderMagic : Nat
  dacLibraryName : String

/-- What `ReadProcessMemory` gives `AddModuleInfo` in the target: at an
address, the `e_lfanew` field of a DOS header (converted to 64 bits), the magic
word, and the `(SizeOfImage, TimeDateStamp)` fields of 32-bit and of 64-bit NT
headers, each `none` when the read fails; and the indeterminate content of
the local `mvid` that no call has written. -/
structure ImageReader where
  dosHeader : Nat → Option Nat
  magic : Nat → Option Nat
  ntHeaders32 : Nat → Option (Nat × Nat)
  ntHeaders64 : Nat → Option (Nat × Nat)
  uninitializedGuid : Nat

/-- Iteration-order invariant of the Module Registry, a `std::set` ordered by
`ModuleInfoCompare`: base addresses strictly increase. -/
def ModulesOrdered (l : List ModuleInfo) : Prop :=
  l.Pairwise (fun a b => a.baseAddress < b.baseAddress)

instance (l : List ModuleInfo) : Decidable (ModulesOrdered l) := by
  unfold ModulesOrdered; infer_instance

/-- The call `m_moduleInfos.find` with a key of the given base address, under
`ModuleInfoCompare`. -/
def moduleFind : List ModuleInfo → Nat → Option ModuleInfo
  | [], _ => none
  | m :: rest, baseAddress =>
    if m.baseAddress < baseAddress then moduleFind rest baseAddress
    else if baseAddress < m.baseAddress then none
    else some m

/-- The call `m_moduleInfos.insert`, under `ModuleInfoCompare`. -/
def moduleInsert : List ModuleInfo → ModuleInfo → List ModuleInfo
  | [], k => [k]
  | m :: rest, k =>
    if k.baseAddress < m.baseAddress then k :: m :: rest
    else if m.baseAddress < k.baseAddress then m :: moduleInsert rest k
    else m :: rest

/-- The function `CrashInfo::GetModuleInfoFromBaseAddress`. -/
def GetModuleInfoFromBaseAddress (ci : CrashInfo) (baseAddress : Nat) : Option ModuleInfo :=
  moduleFind ci.m_moduleInfos baseAddress

/-- The function `CrashInfo::ReadMemory`, given what `ReadProcessMemory`
reads at the address (`none` when it fails): a successful read adds the bytes
read to the Memory Region Set. -/
def ReadMemory {α : Type} (pf : Platform) (ci : CrashInfo) (address size : Nat)
    (data : Option α) : Option α × CrashInfo :=
  match data with
  | none => (none, ci)
  | some d => (some d, (InsertMemoryRegionBytes pf ci address size).2)

/-- The header reads of `AddModuleInfo` for a managed module: the DOS
header, the magic word at `baseAddress + e_lfanew + offsetof(IMAGE_NT_HEADERS,
OptionalHeader.Magic)`, then the 32-bit or 64-bit NT headers at
`baseAddress + e_lfanew`. Returns `(timeStamp, imageSize)` and the state. -/
def readImageHeader (pf : Platform) (k : Constants) (img : ImageReader) (ci : CrashInfo)
    (baseAddress : Nat) : (Nat × Nat) × CrashInfo :=
  match ReadMemory pf ci baseAddress k.sizeofDosHeader (img.dosHeader baseAddress) with
  | (none, ci1) => ((0, 0), ci1)
  | (some e_lfanew, ci1) =>
    match ReadMemory pf ci1 ((baseAddress + e_lfanew + k.offsetofOptionalHeaderMagic) % U64)
        k.sizeofMagic
        (img.magic ((baseAddress + e_lfanew + k.offsetofOptionalHeaderMagic) % U64)) with
    | (none, ci2) => ((0, 0), ci2)
    | (some magic, ci2) =>
      if magic = k.IMAGE_NT_OPTIONAL_HDR32_MAGIC then
        match ReadMemory pf ci2 ((baseAddress + e_lfanew) % U64) k.sizeofNtHeaders32
            (img.ntHeaders32 ((baseAddress + e_lfanew) % U64)) with
        | (none, ci3) => ((0, 0), ci3)
        | (some header, ci3) => ((header.2, header.1), ci3)
      else if magic = k.IMAGE_NT_OPTIONAL_HDR64_MAGIC then
        match ReadMemory pf ci2 ((baseAddress + e_lfanew) % U64) k.sizeofNtHeaders64
            (img.ntHeaders64 ((baseAddress + e_lfanew) % U64)) with
        | (none, ci3) => ((0, 0), ci3)
        | (some header, ci3) => ((header.2, header.1), ci3)
      else ((0, 0), ci2)

/-- The function `CrashInfo::AddModuleInfo`. -/
def AddModuleInfo (pf : Platform) (k : Constants) (img : ImageReader) (ci : CrashInfo)
    (isManaged : Bool) (baseAddress : Nat) (pClrDataModule : Option DataModule)
    (moduleName : String) : CrashInfo :=
  match moduleFind ci.m_moduleInfos baseAddress with
  | some _ => ci
  | none =>
    let header :=
      if isManaged then readImageHeader pf k img ci baseAddress else ((0, 0), ci)
    let isMainModule :=
      match isManaged, pClrDataModule with
      | true, some m => decide ((m.GetFlags.getD 0) &&& k.CLRDATA_MODULE_IS_MAIN_MODULE ≠ 0)
      | _, _ => false
    let mvid :=
      match isManaged, pClrDataModule with
      | true, some m => m.GetVersionId.getD img.uninitializedGuid
      | _, _ => img.uninitializedGuid
    let moduleInfo : ModuleInfo :=
      { isManaged := isManaged, baseAddress := baseAddress, timeStamp := header.1.1,
        imageSize := header.1.2, versionId := mvid, moduleName := moduleName }
    { header.2 with
      m_mainModule := if isMainModule then some moduleInfo else header.2.m_mainModule
      m_moduleInfos := moduleInsert header.2.m_moduleInfos moduleInfo }

/-- The four-argument constructor `MemoryRegion(flags, start, end,
baseAddress)` of the module address table, which keeps the base address in
the offset. -/
def mkAddressRegion (flags start stop baseAddress : Nat) : MemoryRegion :=
  { flags := flags, startAddress := start, endAddress := stop, offset := baseAddress }

/-- The function `CrashInfo::AddModuleAddressRange`. -/
def AddModuleAddressRange (ci : CrashInfo) (startAddress endAddress baseAddress : Nat) :
    CrashInfo :=
  { ci with m_moduleAddresses :=
      setInsert ci.m_moduleAddresses (mkAddressRegion 0 startAddress endAddress baseAddress) }

/-- The position `std::set::find` returns, as the elements from it to the end
of the set (none when it returns `end()`). -/
def setFindFrom : RegionSet → MemoryRegion → RegionSet
  | [], _ => []
  | e :: rest, k =>
    if e.lt k then setFindFrom rest k
    else if k.lt e then []
    else e :: rest

/-- The function `CrashInfo::SearchMemoryRegions`: from the position found,
the first region that holds the start address of the probe. -/
def SearchMemoryRegions (regions : RegionSet) (search : MemoryRegion) : Option MemoryRegion :=
  (setFindFrom regions search).find? (fun found =>
    decide (found.startAddress ≤ search.startAddress) &&
      decide (search.startAddress < found.endAddress))

/-- The function `CrashInfo::GetBaseAddressFromAddress`. -/
def GetBaseAddressFromAddress (ci : CrashInfo) (address : Nat) : Nat :=
  match SearchMemoryRegions ci.m_moduleAddresses (mkAddressRegion 0 address address 0) with
  | none => 0
  | some found => found.offset

/-- The arguments of one call of `AddModuleInfo`. -/
structure ModuleCall where
  isManaged : Bool
  baseAddress : Nat
  pClrDataModule : Option DataModule
  moduleName : String
deriving DecidableEq, Repr

/-- A sequence of calls of `AddModuleInfo`, in order. -/
def addModuleInfos (pf : Platform) (k : Constants) (img : ImageReader) (ci : CrashInfo)
    (calls : List ModuleCall) : CrashInfo :=
  calls.foldl
    (fun st c => AddModuleInfo pf k img st c.isManaged c.baseAddress c.pClrDataModule
      c.moduleName) ci

/-- The call registers a managed module with a provider handle whose flags
carry the main-module bit: the condition under which `AddModuleInfo` computes
`isMainModule` as true. -/
def carriesMain (k : Constants) (c : ModuleCall) : Bool :=
  match c.isManaged, c.pClrDataModule with
  | true, some m => decide ((m.GetFlags.getD 0) &&& k.CLRDATA_MODULE_IS_MAIN_MODULE ≠ 0)
  | _, _ => false

/-- The constants with the values of the Windows and ELF headers. -/
def palConstants : Constants :=
  { PF_R := 4, PF_W := 2, PF_X := 1
    MiniDumpNormal := 0, MiniDumpWithFullMemory := 2
    MiniDumpWithPrivateReadWriteMemory := 0x200
    CLRDATA_MODULE_IS_DYNAMIC := 1, CLRDATA_MODULE_IS_MAIN_MODULE := 4
    IMAGE_NT_OPTIONAL_HDR32_MAGIC := 0x10b, IMAGE_NT_OPTIONAL_HDR64_MAGIC := 0x20b
    sizeofDosHeader := 64, sizeofMagic := 2
    sizeofNtHeaders32 := 248, sizeofNtHeaders64 := 264
    offsetofOptionalHeaderMagic := 24
    dacLibraryName := "libmscordaccore.so" }

/-- A target in which no image header can be read. -/
def blindReader : ImageReader :=
  { dosHeader := fun _ => none, magic := fun _ => none
    ntHeaders32 := fun _ => none, ntHeaders64 := fun _ => none
    uninitializedGuid := 0 }

/-- A target whose image at `0x10000` has 64-bit headers at offset `0x80`
with `SizeOfImage = 0x4000` and `TimeDateStamp = 0x5eadbeef`. -/
def pe64Reader : ImageReader :=
  { dosHeader := fun a => if a = 0x10000 then some 0x80 else none
    magic := fun a => if a = 0x10098 then some 0x20b else none
    ntHeaders32 := fun _ => none
    ntHeaders64 := fun a => if a = 0x10080 then some (0x4000, 0x5eadbeef) else none
    uninitializedGuid := 0 }

/-- A provider handle of a module flagged as main module. -/
def mainHandle : DataModule :=
  { GetFlags := some 4, GetVersionId := some 77, Request := some (false, 0x10000, 0x4000)
    GetFileName := some "app.dll" }

/-- A provider handle of a module that is not flagged. -/
def plainHandle : DataModule :=
  { GetFlags := some 0, GetVersionId := some 78, Request := some (false, 0x20000, 0x4000)
    GetFileName := some "lib.dll" }

/-- What the image header at `baseAddress` gives as `(timeStamp, imageSize)`:
the `TimeDateStamp` and `SizeOfImage` of the NT headers when the DOS header,
the magic word and the NT headers of the kind the magic word names can all be
read, and zero otherwise. -/
def headerFields (k : Constants) (img : ImageReader) (baseAddress : Nat) : Nat × Nat :=
  match img.dosHeader baseAddress with
  | none => (0, 0)
  | some l =>
    match img.magic ((baseAddress + l + k.offsetofOptionalHeaderMagic) % U64) with
    | none => (0, 0)
    | some m =>
      if m = k.IMAGE_NT_OPTIONAL_HDR32_MAGIC then
        match img.ntHeaders32 ((baseAddress + l) % U64) with
        | none => (0, 0)
        | some header => (header.2, header.1)
      else if m = k.IMAGE_NT_OPTIONAL_HDR64_MAGIC then
        match img.ntHeaders64 ((baseAddress + l) % U64) with
        | none => (0, 0)
        | some header => (header.2, header.1)
      else (0, 0)

/-- The registry entry that a call of `AddModuleInfo` creates for a base
address that is not registered yet. -/
def newModuleInfo (k : Constants) (img : ImageReader) (c : ModuleCall) : ModuleInfo :=
  { isManaged := c.isManaged
    baseAddress := c.baseAddress
    timeStamp := if c.isManaged then (headerFields k img c.baseAddress).1 else 0
    imageSize := if c.isManaged then (headerFields k img c.baseAddress).2 else 0
    versionId :=
      match c.isManaged, c.pClrDataModule with
      | true, some m => m.GetVersionId.getD img.uninitializedGuid
      | _, _ => img.uninitializedGuid
    moduleName := c.moduleName }

/-- A sequence of calls of `AddModuleAddressRange`, each with
`(startAddress, endAddress, baseAddress)`, in order. -/
def addModuleAddressRanges (ci : CrashInfo) (ranges : List (Nat × Nat × Nat)) : CrashInfo :=
  ranges.foldl (fun st r => AddModuleAddressRange st r.1 r.2.1 r.2.2) ci

/-- A state whose Module Mapping Table holds the one-page mapping
`[0x6000, 0x7000)` of another image. -/
def neighbourState : CrashInfo :=
  { m_moduleMappings :=
      [{ flags := 5, startAddress := 0x6000, endAddress := 0x7000, fileName := "libx.so" }] }

/-- The stages of `GatherCrashInfo`, as tags for the record of a run. -/
inductive Stage where
  | ThreadInitialize (tid : Nat)
  | GetAuxvEntries
  | EnumerateMemoryRegions
  | GetDSOInfo
  | InitializeDAC
  | EnumerateManagedModules
  | InitializeOtherMappings
  | UnwindThread (tid : Nat)
  | RegionSelection
deriving DecidableEq, Repr

/-- The collaborators of `crashinfo.cpp` outside the file, each as the state
it leaves and, where it reports one, its success: the per-thread operations
(by thread id), the platform's enumeration stages, the loading of the provider
library and the creation of its two interfaces (`none` when the call fails),
and the environment. `isApple` is the `__APPLE__` build. -/
structure Collaborators where
  isApple : Bool
  ThreadInitialize : Nat → CrashInfo → Bool × CrashInfo
  GetAuxvEntries : CrashInfo → Bool × CrashInfo
  EnumerateMemoryRegions : CrashInfo → Bool × CrashInfo
  GetDSOInfo : CrashInfo → Bool × CrashInfo
  InitializeOtherMappings : CrashInfo → CrashInfo
  UnwindThread : Nat → CrashInfo → Bool × CrashInfo
  GetThreadStack : Nat → CrashInfo → CrashInfo
  LoadLibraryA : String → Option Nat
  GetProcAddress : Nat → String → Bool
  CreateEnumRegions : Option EnumRegions
  CreateDataProcess : Option DataProcess
  getenv : String → Option String

/-- The state of a run of `GatherCrashInfo` together with the record of the
stages entered so far and what each returned, oldest first. The record is not
a member of the source: it is kept to state which stages a run enters. -/
structure Run where
  ci : CrashInfo
  trace : List (Stage × Bool) := []

/-- Enter a stage that reports success or failure. -/
def runStage (s : Stage) (f : CrashInfo → Bool × CrashInfo) (st : Run) : Bool × Run :=
  ((f st.ci).1, { ci := (f st.ci).2, trace := st.trace ++ [(s, (f st.ci).1)] })

/-- Enter a stage that returns nothing. -/
def runVoid (s : Stage) (f : CrashInfo → CrashInfo) (st : Run) : Run :=
  { ci := f st.ci, trace := st.trace ++ [(s, true)] }

/-- The function `CrashInfo::InitializeDAC`. -/
def InitializeDAC (k : Constants) (c : Collaborators) (ci : CrashInfo) : Bool × CrashInfo :=
  if ci.m_coreclrPath ≠ "" then
    match c.LoadLibraryA (ci.m_coreclrPath ++ k.dacLibraryName) with
    | none => (false, { ci with m_hdac := none })
    | some hdac =>
      if !c.GetProcAddress hdac "CLRDataCreateInstance" then
        (false, { ci with m_hdac := some hdac })
      else
        match c.CreateEnumRegions with
        | none => (false, { ci with m_hdac := some hdac })
        | some regions =>
          match c.CreateDataProcess with
          | none =>
            (false, { ci with m_hdac := some hdac, m_pClrDataEnumRegions := some regions })
          | some process =>
            (true, { ci with m_hdac := some hdac, m_pClrDataEnumRegions := some regions
                             m_pClrDataProcess := some process })
  else (true, ci)

/-- The callback `CrashInfo::EnumMemoryRegion`. -/
def EnumMemoryRegion (pf : Platform) (ci : CrashInfo) (address size : Nat) : CrashInfo :=
  { (InsertMemoryRegionBytes pf ci address size).2 with
    m_enumMemoryPagesAdded :=
      ci.m_enumMemoryPagesAdded + (InsertMemoryRegionBytes pf ci address size).1 }

/-- The function `CrashInfo::EnumerateMemoryRegionsWithDAC`. -/
def EnumerateMemoryRegionsWithDAC (pf : Platform) (k : Constants) (c : Collaborators)
    (ci : CrashInfo) (minidumpType : Nat) : Bool × CrashInfo :=
  match ci.m_pClrDataEnumRegions with
  | some regions =>
    if minidumpType &&& k.MiniDumpWithFullMemory = 0 then
      let minidumpType2 :=
        if minidumpType &&& k.MiniDumpWithPrivateReadWriteMemory ≠ 0 ∧
            c.getenv "COMPlus_DbgEnableFastHeapDumps" = some "1" then k.MiniDumpNormal
        else minidumpType
      let ci1 :=
        (regions.EnumMemoryRegions minidumpType2).2.foldl
          (fun st r => EnumMemoryRegion pf st r.1 r.2) ci
      if !(regions.EnumMemoryRegions minidumpType2).1 then (false, ci1) else (true, ci1)
    else (true, ci)
  | none => (true, ci)

/-- The body of the loop of `EnumerateManagedModules` for one module that
`EnumModule` yields. -/
def enumerateModule (pf : Platform) (k : Constants) (img : ImageReader) (ci : CrashInfo)
    (m : DataModule) : CrashInfo :=
  match m.GetFlags with
  | none => ci
  | some flags =>
    if flags &&& k.CLRDATA_MODULE_IS_DYNAMIC ≠ 0 then ci
    else
      match m.Request with
      | none => ci
      | some moduleData =>
        if moduleData.1 = false ∧ moduleData.2.1 ≠ 0 then
          match m.GetFileName with
          | none => ci
          | some moduleName =>
            AddModuleInfo pf k img
              (AddOrReplaceModuleMapping pf ci moduleData.2.1 moduleData.2.2 moduleName)
              true moduleData.2.1 (some m) moduleName
        else ci

/-- The function `CrashInfo::EnumerateManagedModules`. -/
def EnumerateManagedModules (pf : Platform) (k : Constants) (img : ImageReader)
    (ci : CrashInfo) : Bool × CrashInfo :=
  match ci.m_pClrDataProcess with
  | some process =>
    if !process.StartEnumModules then (false, ci)
    else (true, process.modules.foldl (enumerateModule pf k img) ci)
  | none => (true, ci)

/-- The function `CrashInfo::UnwindAllThreads`, over the thread ids of
`m_threads`. -/
def UnwindAllThreads (c : Collaborators) : List Nat → Run → Bool × Run
  | [], st => (true, st)
  | tid :: rest, st =>
    if !(runStage (.UnwindThread tid) (c.UnwindThread tid) st).1 then
      (false, (runStage (.UnwindThread tid) (c.UnwindThread tid) st).2)
    else UnwindAllThreads c rest (runStage (.UnwindThread tid) (c.UnwindThread tid) st).2

/-- The first loop of `GatherCrashInfo`: initialize every thread of
`m_threads`. -/
def initializeThreads (c : Collaborators) : List Nat → Run → Bool × Run
  | [], st => (true, st)
  | tid :: rest, st =>
    if !(runStage (.ThreadInitialize tid) (c.ThreadInitialize tid) st).1 then
      (false, (runStage (.ThreadInitialize tid) (c.ThreadInitialize tid) st).2)
    else
      initializeThreads c rest (runStage (.ThreadInitialize tid) (c.ThreadInitialize tid) st).2

/-- The platform block of `GatherCrashInfo`: the mapping enumeration alone in
the `__APPLE__` build, otherwise the auxv entries, the mapping enumeration and
the shared module info. -/
def enumerateTarget (c : Collaborators) (st : Run) : Bool × Run :=
  if c.isApple then
    runStage .EnumerateMemoryRegions c.EnumerateMemoryRegions st
  else
    if !(runStage .GetAuxvEntries c.GetAuxvEntries st).1 then
      (false, (runStage .GetAuxvEntries c.GetAuxvEntries st).2)
    else
      if !(runStage .EnumerateMemoryRegions c.EnumerateMemoryRegions
          (runStage .GetAuxvEntries c.GetAuxvEntries st).2).1 then
        (false, (runStage .EnumerateMemoryRegions c.EnumerateMemoryRegions
          (runStage .GetAuxvEntries c.GetAuxvEntries st).2).2)
      else
        runStage .GetDSOInfo c.GetDSOInfo
          (runStage .EnumerateMemoryRegions c.EnumerateMemoryRegions
            (runStage .GetAuxvEntries c.GetAuxvEntries st).2).2

/-- The mappings loop of the `__APPLE__` build of `GatherCrashInfo`. -/
def otherMappingsStep (c : Collaborators) (st : Run) : Run :=
  if c.isApple then runVoid .InitializeOtherMappings c.InitializeOtherMappings st else st

/-- The part of `GatherCrashInfo` before the region selection: every stage
in order, returning at the first that fails. -/
def gatherStages (pf : Platform) (k : Constants) (img : ImageReader) (c : Collaborators)
    (threads : List Nat) (st : Run) : Bool × Run :=
  if !(initializeThreads c threads st).1 then (false, (initializeThreads c threads st).2)
  else
    let st1 := (initializeThreads c threads st).2
    if !(enumerateTarget c st1).1 then (false, (enumerateTarget c st1).2)
    else
      let st2 := (enumerateTarget c st1).2
      if !(runStage .InitializeDAC (InitializeDAC k c) st2).1 then
        (false, (runStage .InitializeDAC (InitializeDAC k c) st2).2)
      else
        let st3 := (runStage .InitializeDAC (InitializeDAC k c) st2).2
        if !(runStage .EnumerateManagedModules (EnumerateManagedModules pf k img) st3).1 then
          (false, (runStage .EnumerateManagedModules (EnumerateManagedModules pf k img) st3).2)
        else
          let st4 :=
            (runStage .EnumerateManagedModules (EnumerateManagedModules pf k img) st3).2
          UnwindAllThreads c threads (otherMappingsStep c st4)

/-- The test `(region.Permissions() & (PF_R | PF_W | PF_X)) != 0`. -/
def hasPermission (pf : Platform) (k : Constants) (region : MemoryRegion) : Bool :=
  decide ((region.flags &&& pf.MEMORY_REGION_FLAG_PERMISSIONS_MASK) &&&
    (k.PF_R ||| k.PF_W ||| k.PF_X) ≠ 0)

/-- The test of the private-read-write tier on the permissions of a region:
read and write, or outside the `__APPLE__` build also read, write and
execute. -/
def isReadWrite (pf : Platform) (k : Constants) (c : Collaborators) (region : MemoryRegion) :
    Bool :=
  decide (region.flags &&& pf.MEMORY_REGION_FLAG_PERMISSIONS_MASK = k.PF_R ||| k.PF_W) ||
    (!c.isApple &&
      decide (region.flags &&& pf.MEMORY_REGION_FLAG_PERMISSIONS_MASK =
        k.PF_R ||| k.PF_W ||| k.PF_X))

/-- A loop of `GatherCrashInfo` over a mapping table: insert, in order, each
region that passes the test. -/
def insertRegionsIf (pf : Platform) (test : MemoryRegion → Bool) (ci : CrashInfo)
    (regions : List MemoryRegion) : CrashInfo :=
  regions.foldl
    (fun st region => if test region then (InsertMemoryRegion pf st region).2 else st) ci

/-- The region selection of `GatherCrashInfo`, by the dump type. -/
def regionSelection (pf : Platform) (k : Constants) (c : Collaborators) (threads : List Nat)
    (minidumpType : Nat) (ci : CrashInfo) : CrashInfo :=
  if minidumpType &&& k.MiniDumpWithFullMemory ≠ 0 then
    insertRegionsIf pf (hasPermission pf k)
      (insertRegionsIf pf (fun _ => true) ci ci.m_moduleMappings) ci.m_otherMappings
  else
    threads.foldl (fun st tid => c.GetThreadStack tid st)
      (if minidumpType &&& k.MiniDumpWithPrivateReadWriteMemory ≠ 0 then
        insertRegionsIf pf (isReadWrite pf k c) ci ci.m_otherMappings
      else ci)

/-- The function `CrashInfo::GatherCrashInfo`. -/
def GatherCrashInfo (pf : Platform) (k : Constants) (img : ImageReader) (c : Collaborators)
    (threads : List Nat) (minidumpType : Nat) (st : Run) : Bool × Run :=
  if !(gatherStages pf k img c threads st).1 then
    (false, (gatherStages pf k img c threads st).2)
  else
    (true, runVoid .RegionSelection (regionSelection pf k c threads minidumpType)
      (gatherStages pf k img c threads st).2)

/-- The stages that `GatherCrashInfo` goes through before the region
selection, in the order of the state machine: the threads, the platform's
enumeration, the provider, the managed modules, and the unwinding. -/
def stagePlan (isApple : Bool) (threads : List Nat) : List Stage :=
  threads.map Stage.ThreadInitialize ++
    (if isApple then [Stage.EnumerateMemoryRegions]
      else [Stage.GetAuxvEntries, Stage.EnumerateMemoryRegions, Stage.GetDSOInfo]) ++
    [Stage.InitializeDAC, Stage.EnumerateManagedModules] ++
    (if isApple then [Stage.InitializeOtherMappings] else []) ++
    threads.map Stage.UnwindThread

/-- A block of stages run in sequence and left at the first failure: on every
state it extends the record either by all of its stages `p`, each successful,
and succeeds, or by those up to the first failing one, and fails. -/
def Block (p : List Stage) (f : Run → Bool × Run) : Prop :=
  ∀ st, ∃ d, (f st).2.trace = st.trace ++ d ∧
    (((f st).1 = true ∧ d.map Prod.fst = p ∧ ∀ e ∈ d, e.2 = true) ∨
     ((f st).1 = false ∧ ∃ pre s, d = pre ++ [(s, false)] ∧ (∀ e ∈ pre, e.2 = true) ∧
        (pre.map Prod.fst ++ [s]) <+: p))

/-- Run `g` after `f` when `f` succeeds. -/
def andThen (f g : Run → Bool × Run) (st : Run) : Bool × Run :=
  if (f st).1 then g (f st).2 else (false, (f st).2)

/-- Collaborators of a Linux build for two threads: every stage succeeds and
leaves the state as it is, except that the mapping enumeration records the
runtime directory, a module mapping and two other mappings, and that loading
the provider library fails. -/
def noProviderCollaborators : Collaborators :=
  { isApple := false
    ThreadInitialize := fun _ ci => (true, ci)
    GetAuxvEntries := fun ci => (true, ci)
    EnumerateMemoryRegions := fun ci =>
      (true, { ci with
        m_coreclrPath := "/usr/share/dotnet/"
        m_moduleMappings := [mkRegion 5 0x1000 0x3000]
        m_otherMappings := [mkRegion 6 0x5000 0x6000, mkRegion 0 0x8000 0x9000] })
    GetDSOInfo := fun ci => (true, ci)
    InitializeOtherMappings := fun ci => ci
    UnwindThread := fun _ ci => (true, ci)
    GetThreadStack := fun _ ci => ci
    LoadLibraryA := fun _ => none
    GetProcAddress := fun _ _ => false
    CreateEnumRegions := none
    CreateDataProcess := none
    getenv := fun _ => none }

/-- The same collaborators for a target whose runtime directory is not
found: the mapping enumeration records the mappings only. -/
def noRuntimeCollaborators : Collaborators :=
  { noProviderCollaborators with
    EnumerateMemoryRegions := fun ci =>
      (true, { ci with
        m_moduleMappings := [mkRegion 5 0x1000 0x3000]
        m_otherMappings := [mkRegion 6 0x5000 0x6000, mkRegion 0 0x8000 0x9000] }) }

/-- The same collaborators when the shared module info cannot be
collected. -/
def failingDsoCollaborators : Collaborators :=
  { noRuntimeCollaborators with GetDSOInfo := fun ci => (false, ci) }

/-- The same collaborators when the unwinding of a thread reads zero bytes at
`0x1000` through `CrashInfo::ReadMemory`, on the target `readablePlatform`. -/
def zeroReadCollaborators : Collaborators :=
  { noRuntimeCollaborators with
    UnwindThread := fun _ ci =>
      (true, (ReadMemory readablePlatform ci 0x1000 0 (some ())).2) }

/-- The commits of the scan of `CombineMemoryRegions`, in order: each region
`MemoryRegion(flags, start, end)` that is built from the accumulator and
inserted, in the loop and after it, paired with the new set at that point,
which is the set that the assertion before the insertion searches. The source
keeps no such record. -/
def combineCommits (mask : Nat) :
    List MemoryRegion → Nat → Nat → Nat → RegionSet → List (MemoryRegion × RegionSet)
  | [], flags, start, stop, memoryRegionsNew => [(mkRegion flags start stop, memoryRegionsNew)]
  | region :: rest, flags, start, stop, memoryRegionsNew =>
    if stop = region.startAddress ∧ flags = region.flags &&& mask then
      combineCommits mask rest flags start region.endAddress memoryRegionsNew
    else
      (mkRegion flags start stop, memoryRegionsNew) ::
        combineCommits mask rest (region.flags &&& mask) region.startAddress
          region.endAddress (setInsert memoryRegionsNew (mkRegion flags start stop))

/-- The commits of `CombineMemoryRegions` on a region set, from the initial
accumulator `(flags of the first entry, its start, its start)` and the empty
new set; none when the set is empty. -/
def combineMemoryRegionsCommits (mask : Nat) (s : RegionSet) :
    List (MemoryRegion × RegionSet) :=
  match s with
  | [] => []
  | first :: _ =>
    combineCommits mask s (first.flags &&& mask) first.startAddress first.startAddress []

/-- What is to hold at a commit of `CombineMemoryRegions`: `start != end`
(which the source asserts after the loop), the lookup
`memoryRegionsNew.find(memoryRegion) == memoryRegionsNew.end()` (which the
source asserts before every insertion), and the absence of a colliding entry
in the new set. -/
def CommitAsserts (c : MemoryRegion × RegionSet) : Prop :=
  c.1.startAddress ≠ c.1.endAddress ∧ setFind c.2 c.1 = none ∧
    ∀ r ∈ c.2, ¬ r.Collides c.1

instance (c : MemoryRegion × RegionSet) : Decidable (CommitAsserts c) := by
  unfold CommitAsserts; infer_instance


/-- A target like `readablePlatform` on a heap that clears an erased entry:
its size then reads as zero. -/
def scrubbingPlatform : Platform :=
  { readablePlatform with erasedSize := fun _ => 0 }

/-- A state whose Module Mapping Table holds the four-page mapping
`[0x5000, 0x9000)` under the placeholder name `/dev/zero`, with the byte total
of that table. -/
def devZeroTotalState : CrashInfo :=
  { m_moduleMappings :=
      [{ flags := 5, startAddress := 0x5000, endAddress := 0x9000, fileName := "/dev/zero" }]
    m_cbModuleMappings := 0x4000 }

/-- The sum of the sizes of the entries of a Module Mapping Table, which the
byte total `m_cbModuleMappings` is to track. -/
def mappingBytes (s : RegionSet) : Nat :=
  (s.map MemoryRegion.Size).sum

/-- A state whose Module Mapping Table holds the one-page mapping
`[0x6000, 0x7000)` of another image, with the byte total of that table. -/
def neighbourTotalState : CrashInfo :=
  { m_moduleMappings :=
      [{ flags := 5, startAddress := 0x6000, endAddress := 0x7000, fileName := "libx.so" }]
    m_cbModuleMappings := 0x1000 }

/-- The descending search of `std::string::rfind`: the highest position not
above the given one at which `str` starts in `s`. -/
def rfindFrom (s str : List Char) : Nat → Option Nat
  | 0 => if str.isPrefixOf s then some 0 else none
  | pos + 1 =>
    if str.isPrefixOf (s.drop (pos + 1)) then some (pos + 1) else rfindFrom s str pos

/-- The call `std::string::rfind(str)` of the C++ standard library, with the
default position: the highest position at which `str` occurs in `s`; `none`
is `npos`. A `std::string` is the string of its characters. -/
def rfind (s str : String) : Option Nat :=
  if str.length ≤ s.length then rfindFrom s.data str.data (s.length - str.length)
  else none

/-- The call `std::string::substr(pos, count)` of the C++ standard library,
`count` being `none` for the default `npos`: the characters from `pos`, at
most `count` of them; `none` is the exception thrown when `pos` is beyond the
end of the string. -/
def substr (s : String) (pos : Nat) (count : Option Nat) : Option String :=
  if s.length < pos then none
  else
    match count with
    | none => some ⟨s.data.drop pos⟩
    | some n => some ⟨(s.data.drop pos).take n⟩

/-- The function `GetFileName`; the separator string `DIRECTORY_SEPARATOR_STR_A`
is defined outside the file. -/
def GetFileName (DIRECTORY_SEPARATOR_STR_A : String) (fileName : String) : Option String :=
  let last :=
    match rfind fileName DIRECTORY_SEPARATOR_STR_A with
    | some last => last + 1
    | none => 0
  substr fileName last none

/-- The function `GetDirectory`; the separator string `DIRECTORY_SEPARATOR_STR_A`
is defined outside the file. -/
def GetDirectory (DIRECTORY_SEPARATOR_STR_A : String) (fileName : String) : Option String :=
  let last :=
    match rfind fileName DIRECTORY_SEPARATOR_STR_A with
    | some last => last + 1
    | none => 0
  substr fileName 0 (some last)


/-! ## The ordering and the set operations -/

theorem lt_iff (a b : MemoryRegion) :
    a.lt b = true ↔ a.startAddress < b.startAddress ∧ a.endAddress ≤ b.startAddress := by
  simp [MemoryRegion.lt]

theorem lt_false_iff (a b : MemoryRegion) :
    a.lt b = false ↔ ¬ (a.startAddress < b.startAddress ∧ a.endAddress ≤ b.startAddress) := by
  rw [← lt_iff]; simp

theorem lt_trans {a b c : MemoryRegion} (h1 : a.lt b = true) (h2 : b.lt c = true) :
    a.lt c = true := by
  rw [lt_iff] at *; omega

theorem lt_irrefl (a : MemoryRegion) : a.lt a = false := by
  rw [lt_false_iff]; omega

/-- For non-empty regions, colliding in the set's ordering is sharing an
address. -/
theorem collides_iff_rangesOverlap {a b : MemoryRegion}
    (ha : a.startAddress < a.endAddress) (hb : b.startAddress < b.endAddress) :
    a.Collides b ↔ RangesOverlap a b := by
  unfold MemoryRegion.Collides RangesOverlap
  rw [lt_false_iff, lt_false_iff]
  constructor
  · intro h
    exact ⟨max a.startAddress b.startAddress, by omega⟩
  · rintro ⟨x, h1, h2⟩
    omega

theorem setOrdered_cons {e : MemoryRegion} {s : RegionSet} :
    SetOrdered (e :: s) ↔ (∀ x ∈ s, e.lt x = true) ∧ SetOrdered s := by
  simp [SetOrdered, List.pairwise_cons]

theorem setFind_some {s : RegionSet} {k e : MemoryRegion} (h : setFind s k = some e) :
    e ∈ s ∧ e.lt k = false ∧ k.lt e = false := by
  induction s with
  | nil => simp [setFind] at h
  | cons x rest ih =>
    unfold setFind at h
    by_cases h1 : x.lt k = true
    · simp only [h1, if_true] at h
      obtain ⟨hm, h2⟩ := ih h
      exact ⟨List.mem_cons_of_mem _ hm, h2⟩
    · by_cases h2 : k.lt x = true
      · simp [h1, h2] at h
      · simp only [h1, h2, if_false] at h
        cases h
        refine ⟨List.mem_cons_self _ _, ?_, ?_⟩
        · simpa using h1
        · simpa using h2

theorem setFind_none_iff {s : RegionSet} (hs : SetOrdered s) (k : MemoryRegion) :
    setFind s k = none ↔ ∀ e ∈ s, e.lt k = true ∨ k.lt e = true := by
  induction s with
  | nil => simp [setFind]
  | cons x rest ih =>
    obtain ⟨hx, hr⟩ := setOrdered_cons.mp hs
    unfold setFind
    by_cases h1 : x.lt k = true
    · simp only [h1, if_true, ih hr, List.mem_cons, forall_eq_or_imp, true_or, true_and]
    · by_cases h2 : k.lt x = true
      · have h1' : x.lt k = false := by simpa using h1
        simp only [h1', h2, Bool.false_eq_true, if_false, if_true, true_iff]
        intro e he
        rcases List.mem_cons.mp he with rfl | he
        · exact Or.inr h2
        · exact Or.inr (lt_trans h2 (hx e he))
      · simp [h1, h2]

theorem setFind_isSome_iff {s : RegionSet} (hs : SetOrdered s) (k : MemoryRegion) :
    (∃ f, setFind s k = some f) ↔ ∃ e ∈ s, e.Collides k := by
  constructor
  · rintro ⟨f, hf⟩
    obtain ⟨hm, h1, h2⟩ := setFind_some hf
    exact ⟨f, hm, h1, h2⟩
  · rintro ⟨e, he, h1, h2⟩
    cases hf : setFind s k with
    | some f => exact ⟨f, rfl⟩
    | none =>
      rcases (setFind_none_iff hs k).mp hf e he with h | h
      · rw [h1] at h; cases h
      · rw [h2] at h; cases h

theorem setFind_mem {s : RegionSet} (hs : SetOrdered s) {k : MemoryRegion} (hk : k ∈ s) :
    setFind s k = some k := by
  induction s with
  | nil => cases hk
  | cons x rest ih =>
    obtain ⟨hx, hr⟩ := setOrdered_cons.mp hs
    unfold setFind
    rcases List.mem_cons.mp hk with rfl | hk
    · simp [lt_irrefl]
    · have h1 : x.lt k = true := hx k hk
      simp only [h1, if_true]
      exact ih hr hk

theorem mem_setInsert {s : RegionSet} {k x : MemoryRegion} (h : x ∈ setInsert s k) :
    x = k ∨ x ∈ s := by
  induction s with
  | nil => simpa [setInsert] using h
  | cons e rest ih =>
    unfold setInsert at h
    split_ifs at h with h1 h2
    · simpa using h
    · rcases List.mem_cons.mp h with rfl | h
      · exact Or.inr (List.mem_cons_self _ _)
      · rcases ih h with h | h
        · exact Or.inl h
        · exact Or.inr (List.mem_cons_of_mem _ h)
    · exact Or.inr h

theorem subset_setInsert {s : RegionSet} {k x : MemoryRegion} (h : x ∈ s) :
    x ∈ setInsert s k := by
  induction s with
  | nil => cases h
  | cons e rest ih =>
    unfold setInsert
    split_ifs with h1 h2
    · exact List.mem_cons_of_mem _ h
    · rcases List.mem_cons.mp h with rfl | h
      · exact List.mem_cons_self _ _
      · exact List.mem_cons_of_mem _ (ih h)
    · exact h

theorem setOrdered_setInsert {s : RegionSet} (hs : SetOrdered s) (k : MemoryRegion) :
    SetOrdered (setInsert s k) := by
  induction s with
  | nil => simp [setInsert, SetOrdered]
  | cons e rest ih =>
    obtain ⟨hx, hr⟩ := setOrdered_cons.mp hs
    unfold setInsert
    split_ifs with h1 h2
    · refine setOrdered_cons.mpr ⟨?_, hs⟩
      intro x hx2
      rcases List.mem_cons.mp hx2 with rfl | hx2
      · exact h1
      · exact lt_trans h1 (hx x hx2)
    · refine setOrdered_cons.mpr ⟨?_, ih hr⟩
      intro x hx2
      rcases mem_setInsert hx2 with rfl | hx2
      · exact h2
      · exact hx x hx2
    · exact hs

/-- Inserting a key that collides with no element places it between the
elements below it and those above it, and changes nothing else. -/
theorem setInsert_split {s : RegionSet} {k : MemoryRegion}
    (h : ∀ e ∈ s, e.lt k = true ∨ k.lt e = true) :
    ∃ pre post, s = pre ++ post ∧ setInsert s k = pre ++ k :: post := by
  induction s with
  | nil => exact ⟨[], [], rfl, rfl⟩
  | cons e rest ih =>
    unfold setInsert
    split_ifs with h1 h2
    · exact ⟨[], e :: rest, rfl, rfl⟩
    · obtain ⟨pre, post, hp, hq⟩ := ih (fun x hx => h x (List.mem_cons_of_mem _ hx))
      exact ⟨e :: pre, post, by simp [hp], by simp [hq]⟩
    · rcases h e (List.mem_cons_self _ _) with h3 | h3
      · exact absurd h3 h2
      · exact absurd h3 h1

theorem mem_setInsert_iff {s : RegionSet} {k : MemoryRegion}
    (h : ∀ e ∈ s, e.lt k = true ∨ k.lt e = true) (x : MemoryRegion) :
    x ∈ setInsert s k ↔ x = k ∨ x ∈ s := by
  obtain ⟨pre, post, hp, hq⟩ := setInsert_split h
  rw [hq, hp]
  simp only [List.mem_append, List.mem_cons]
  tauto

/-- A key that collides with an element is not inserted. -/
theorem setInsert_collides {s : RegionSet} (hs : SetOrdered s) {k e : MemoryRegion}
    (he : e ∈ s) (hc : e.Collides k) : setInsert s k = s := by
  induction s with
  | nil => cases he
  | cons x rest ih =>
    obtain ⟨hx, hr⟩ := setOrdered_cons.mp hs
    unfold setInsert
    split_ifs with h1 h2
    · exfalso
      rcases List.mem_cons.mp he with rfl | he
      · rw [hc.2] at h1; cases h1
      · have := lt_trans h1 (hx e he)
        rw [hc.2] at this; cases this
    · rcases List.mem_cons.mp he with rfl | he
      · rw [hc.1] at h2; cases h2
      · rw [ih hr he]
    · rfl

/-! ## Pages of an aligned set -/

theorem aligned_next {P a b : Nat} (ha : a % P = 0) (hb : b % P = 0) (h : a < b) :
    a + P ≤ b := by
  obtain ⟨x, rfl⟩ := Nat.dvd_of_mod_eq_zero ha
  obtain ⟨y, rfl⟩ := Nat.dvd_of_mod_eq_zero hb
  have hxy : x < y := by
    by_contra hc
    have : P * y ≤ P * x := Nat.mul_le_mul_left P (Nat.le_of_not_lt hc)
    omega
  calc P * x + P = P * (x + 1) := by ring
    _ ≤ P * y := Nat.mul_le_mul_left P hxy

theorem pageFloor_mod (pf : Platform) (x : Nat) : pageFloor pf x % pf.PAGE_SIZE = 0 := by
  simp [pageFloor]

theorem pageFloor_le (pf : Platform) (x : Nat) : pageFloor pf x ≤ x :=
  Nat.div_mul_le_self x pf.PAGE_SIZE

theorem pageFloor_mono (pf : Platform) {x y : Nat} (h : x ≤ y) :
    pageFloor pf x ≤ pageFloor pf y :=
  Nat.mul_le_mul_right _ (Nat.div_le_div_right h)

/-- An address inside the page that starts at the aligned address `p` rounds
down to `p`. -/
theorem pageFloor_of_mem (pf : Platform) {p a : Nat}
    (hp : p % pf.PAGE_SIZE = 0) (h1 : p ≤ a) (h2 : a < p + pf.PAGE_SIZE) :
    pageFloor pf a = p := by
  obtain ⟨x, rfl⟩ := Nat.dvd_of_mod_eq_zero hp
  unfold pageFloor
  have hdiv : a / pf.PAGE_SIZE = x := by
    apply Nat.div_eq_of_lt_le
    · rw [Nat.mul_comm]; exact h1
    · calc a < pf.PAGE_SIZE * x + pf.PAGE_SIZE := h2
        _ = (x + 1) * pf.PAGE_SIZE := by ring
  rw [hdiv, Nat.mul_comm]

theorem page_size_in_pages (pf : Platform) (hP : 0 < pf.PAGE_SIZE) (flags p : Nat)
    (h : p + pf.PAGE_SIZE < U64) :
    (mkRegion flags p ((p + pf.PAGE_SIZE) % U64)).SizeInPages pf.PAGE_SIZE = 1 := by
  have h1 : (p + pf.PAGE_SIZE) % U64 = p + pf.PAGE_SIZE := Nat.mod_eq_of_lt h
  have h2 : (p + pf.PAGE_SIZE + U64 - p) % U64 = pf.PAGE_SIZE := by
    have : p + pf.PAGE_SIZE + U64 - p = pf.PAGE_SIZE + U64 := by omega
    rw [this, Nat.add_mod_right]
    exact Nat.mod_eq_of_lt (by omega)
  simp only [MemoryRegion.SizeInPages, MemoryRegion.Size, mkRegion, h1, h2]
  exact Nat.div_self hP

theorem validRegion_page (pf : Platform) (hP : 0 < pf.PAGE_SIZE) (flags p : Nat)
    (h : p + pf.PAGE_SIZE < U64) :
    ValidRegion pf (mkRegion flags p ((p + pf.PAGE_SIZE) % U64)) = pf.ReadProcessMemory p := by
  unfold ValidRegion
  rw [page_size_in_pages pf hP flags p h]
  simp [validLoop, mkRegion]

/-- An aligned, non-empty entry collides with an aligned page exactly when it
holds the page's start. -/
theorem page_collides_iff (pf : Platform) {e : MemoryRegion} {flags p : Nat}
    (he1 : e.startAddress % pf.PAGE_SIZE = 0) (he3 : e.startAddress < e.endAddress)
    (hp : p % pf.PAGE_SIZE = 0) :
    (e.lt (mkRegion flags p (p + pf.PAGE_SIZE)) = true ∨
      (mkRegion flags p (p + pf.PAGE_SIZE)).lt e = true) ↔
    ¬ (e.startAddress ≤ p ∧ p < e.endAddress) := by
  simp only [lt_iff, mkRegion]
  constructor
  · rintro (h | h) <;> omega
  · intro h
    by_cases h1 : p < e.startAddress
    · exact Or.inr ⟨h1, aligned_next hp he1 h1⟩
    · exact Or.inl (by omega)

theorem setFind_page_none_iff (pf : Platform) {s : RegionSet} (hs : SetOrdered s)
    (ha : PageAligned pf s) (hn : NonEmptyEntries s) (flags : Nat) {p : Nat}
    (hp : p % pf.PAGE_SIZE = 0) (h : p + pf.PAGE_SIZE < U64) :
    setFind s (mkRegion flags p ((p + pf.PAGE_SIZE) % U64)) = none ↔ ¬ Covered s p := by
  rw [Nat.mod_eq_of_lt h, setFind_none_iff hs]
  unfold Covered
  constructor
  · rintro h1 ⟨e, he, h2⟩
    exact (page_collides_iff pf (ha e he).1 (hn e he) hp).mp (h1 e he) h2
  · intro h1 e he
    exact (page_collides_iff pf (ha e he).1 (hn e he) hp).mpr (fun h2 => h1 ⟨e, he, h2⟩)

/-- In an aligned set, an entry that holds the start of a page holds the whole
page. -/
theorem covered_page (pf : Platform) {s : RegionSet} (ha : PageAligned pf s) {p a : Nat}
    (hp : p % pf.PAGE_SIZE = 0) (h1 : p ≤ a) (h2 : a < p + pf.PAGE_SIZE) :
    Covered s a ↔ Covered s p := by
  unfold Covered
  constructor
  · rintro ⟨e, he, h3, h4⟩
    refine ⟨e, he, ?_, by omega⟩
    by_contra hc
    have := aligned_next hp (ha e he).1 (by omega)
    omega
  · rintro ⟨e, he, h3, h4⟩
    refine ⟨e, he, by omega, ?_⟩
    have := aligned_next hp (ha e he).2 h4
    omega

theorem covered_setInsert {s : RegionSet} {k : MemoryRegion}
    (h : ∀ e ∈ s, e.lt k = true ∨ k.lt e = true) (a : Nat) :
    Covered (setInsert s k) a ↔ Covered s a ∨ (k.startAddress ≤ a ∧ a < k.endAddress) := by
  unfold Covered
  constructor
  · rintro ⟨e, he, h1⟩
    rcases (mem_setInsert_iff h e).mp he with rfl | he
    · exact Or.inr h1
    · exact Or.inl ⟨e, he, h1⟩
  · rintro (⟨e, he, h1⟩ | h1)
    · exact ⟨e, (mem_setInsert_iff h e).mpr (Or.inr he), h1⟩
    · exact ⟨k, (mem_setInsert_iff h k).mpr (Or.inl rfl), h1⟩

theorem newPages_congr (pf : Platform) {s t : RegionSet} (start n : Nat)
    (h : ∀ i, i < n → (Covered s (start + i * pf.PAGE_SIZE) ↔
      Covered t (start + i * pf.PAGE_SIZE))) :
    newPages pf s start n = newPages pf t start n := by
  unfold newPages
  apply List.filter_congr
  intro i hi
  rw [List.mem_range] at hi
  simp only [h i hi]

theorem newPages_succ (pf : Platform) (s : RegionSet) (start n : Nat) :
    (newPages pf s start (n + 1)).length =
      (if pf.ReadProcessMemory start = true ∧ ¬ Covered s start then 1 else 0) +
        (newPages pf s (start + pf.PAGE_SIZE) n).length := by
  unfold newPages
  rw [List.range_succ_eq_map, List.filter_cons, List.filter_map]
  have hfun : ((fun i => pf.ReadProcessMemory (start + i * pf.PAGE_SIZE) &&
        !decide (Covered s (start + i * pf.PAGE_SIZE))) ∘ Nat.succ) =
      (fun i => pf.ReadProcessMemory (start + pf.PAGE_SIZE + i * pf.PAGE_SIZE) &&
        !decide (Covered s (start + pf.PAGE_SIZE + i * pf.PAGE_SIZE))) := by
    funext i
    have : start + Nat.succ i * pf.PAGE_SIZE = start + pf.PAGE_SIZE + i * pf.PAGE_SIZE := by
      rw [Nat.succ_mul]; omega
    simp only [Function.comp, this]
  rw [hfun]
  have h0 : start + 0 * pf.PAGE_SIZE = start := by omega
  rw [h0]
  by_cases h1 : pf.ReadProcessMemory start = true <;> by_cases h2 : Covered s start <;>
    simp [h1, h2, List.length_map, Nat.add_comm]

/-! ## The per-page loop -/

theorem pageSet_setInsert_page (pf : Platform) (hP : 0 < pf.PAGE_SIZE) {s : RegionSet}
    (hs : PageSet pf s) (flags : Nat) {p : Nat} (hp : p % pf.PAGE_SIZE = 0) :
    PageSet pf (setInsert s (mkRegion flags p (p + pf.PAGE_SIZE))) := by
  obtain ⟨h1, h2, h3⟩ := hs
  refine ⟨setOrdered_setInsert h1 _, ?_, ?_⟩
  · intro e he
    rcases mem_setInsert he with rfl | he
    · simp [mkRegion, hp]
    · exact h2 e he
  · intro e he
    rcases mem_setInsert he with rfl | he
    · simp only [mkRegion]; omega
    · exact h3 e he

/-- What the per-page loop does on an ordered, aligned set of non-empty
entries: it keeps the invariants, covers exactly the readable pages of the
range in addition to what was covered, and counts the readable pages that
were not covered. -/
theorem insertPages_spec (pf : Platform) (hP : 0 < pf.PAGE_SIZE) (flags : Nat) :
    ∀ (n start : Nat) (s : RegionSet) (added : Nat), PageSet pf s →
      start % pf.PAGE_SIZE = 0 → start + n * pf.PAGE_SIZE < U64 →
      PageSet pf (insertPages pf flags n start s added).2 ∧
      (∀ a, Covered (insertPages pf flags n start s added).2 a ↔
        Covered s a ∨ (start ≤ a ∧ a < start + n * pf.PAGE_SIZE ∧
          pf.ReadProcessMemory (pageFloor pf a) = true)) ∧
      (insertPages pf flags n start s added).1 = added + (newPages pf s start n).length := by
  intro n
  induction n with
  | zero =>
    intro start s added hs _ _
    refine ⟨hs, ?_, ?_⟩
    · intro a
      simp only [insertPages]
      constructor
      · exact Or.inl
      · rintro (h | h)
        · exact h
        · omega
    · simp [insertPages, newPages]
  | succ n ih =>
    intro start s added hs hst hb
    have hb1 : start + pf.PAGE_SIZE < U64 := by
      have : start + (n + 1) * pf.PAGE_SIZE = start + pf.PAGE_SIZE + n * pf.PAGE_SIZE := by
        rw [Nat.succ_mul]; omega
      omega
    have hb2 : start + pf.PAGE_SIZE + n * pf.PAGE_SIZE < U64 := by
      have : start + (n + 1) * pf.PAGE_SIZE = start + pf.PAGE_SIZE + n * pf.PAGE_SIZE := by
        rw [Nat.succ_mul]; omega
      omega
    have hrange : start + (n + 1) * pf.PAGE_SIZE = start + pf.PAGE_SIZE + n * pf.PAGE_SIZE := by
      rw [Nat.succ_mul]; omega
    have hmod : (start + pf.PAGE_SIZE) % U64 = start + pf.PAGE_SIZE := Nat.mod_eq_of_lt hb1
    have hst1 : (start + pf.PAGE_SIZE) % pf.PAGE_SIZE = 0 := by
      rw [Nat.add_mod, hst]; simp
    have hfind := setFind_page_none_iff pf hs.1 hs.2.1 hs.2.2 flags hst hb1
    have hvalid := validRegion_page pf hP flags start hb1
    -- the pages after the first are outside the first page
    have hlater : ∀ i, ¬ (start ≤ start + pf.PAGE_SIZE + i * pf.PAGE_SIZE ∧
        start + pf.PAGE_SIZE + i * pf.PAGE_SIZE < start + pf.PAGE_SIZE) := by
      intro i; omega
    rw [hmod] at hfind hvalid
    rw [newPages_succ, hrange]
    unfold insertPages
    simp only [hmod, hvalid]
    by_cases hcov : Covered s start
    · -- the page is already present
      have hsome : ∃ f, setFind s (mkRegion flags start (start + pf.PAGE_SIZE)) = some f := by
        cases hf : setFind s (mkRegion flags start (start + pf.PAGE_SIZE)) with
        | none => exact absurd hcov (hfind.mp hf)
        | some f => exact ⟨f, rfl⟩
      obtain ⟨f, hf⟩ := hsome
      simp only [hf]
      obtain ⟨i1, i2, i3⟩ := ih (start + pf.PAGE_SIZE) s added hs hst1 hb2
      refine ⟨i1, ?_, ?_⟩
      · intro a
        rw [i2 a]
        constructor
        · rintro (h | ⟨h1, h2, h3⟩)
          · exact Or.inl h
          · exact Or.inr ⟨by omega, h2, h3⟩
        · rintro (h | ⟨h1, h2, h3⟩)
          · exact Or.inl h
          · by_cases h4 : a < start + pf.PAGE_SIZE
            · exact Or.inl ((covered_page pf hs.2.1 hst h1 h4).mpr hcov)
            · exact Or.inr ⟨by omega, h2, h3⟩
      · rw [i3]; simp [hcov]
    · have hnone := hfind.mpr hcov
      simp only [hnone]
      by_cases hrd : pf.ReadProcessMemory start = true
      · -- the page is inserted
        simp only [hrd, if_true]
        have hs1 := pageSet_setInsert_page pf hP hs flags hst
        have hnc := (setFind_none_iff hs.1 _).mp hnone
        obtain ⟨i1, i2, i3⟩ := ih (start + pf.PAGE_SIZE)
          (setInsert s (mkRegion flags start (start + pf.PAGE_SIZE))) (added + 1) hs1 hst1 hb2
        refine ⟨i1, ?_, ?_⟩
        · intro a
          rw [i2 a, covered_setInsert hnc a]
          simp only [mkRegion]
          constructor
          · rintro ((h | ⟨h1, h2⟩) | ⟨h1, h2, h3⟩)
            · exact Or.inl h
            · refine Or.inr ⟨h1, by omega, ?_⟩
              rw [pageFloor_of_mem pf hst h1 h2]; exact hrd
            · exact Or.inr ⟨by omega, h2, h3⟩
          · rintro (h | ⟨h1, h2, h3⟩)
            · exact Or.inl (Or.inl h)
            · by_cases h4 : a < start + pf.PAGE_SIZE
              · exact Or.inl (Or.inr ⟨h1, h4⟩)
              · exact Or.inr ⟨by omega, h2, h3⟩
        · rw [i3, newPages_congr pf (start + pf.PAGE_SIZE) n (t := s)]
          · simp [hrd, hcov]; omega
          · intro i _
            rw [covered_setInsert hnc]
            simp only [mkRegion]
            constructor
            · rintro (h | h)
              · exact h
              · exact absurd h (hlater i)
            · exact Or.inl
      · -- the page is unreadable
        have hrd' : pf.ReadProcessMemory start = false := by simpa using hrd
        simp only [hrd', Bool.false_eq_true, if_false]
        obtain ⟨i1, i2, i3⟩ := ih (start + pf.PAGE_SIZE) s added hs hst1 hb2
        refine ⟨i1, ?_, ?_⟩
        · intro a
          rw [i2 a]
          constructor
          · rintro (h | ⟨h1, h2, h3⟩)
            · exact Or.inl h
            · exact Or.inr ⟨by omega, h2, h3⟩
          · rintro (h | ⟨h1, h2, h3⟩)
            · exact Or.inl h
            · by_cases h4 : a < start + pf.PAGE_SIZE
              · rw [pageFloor_of_mem pf hst h1 h4, hrd'] at h3
                cases h3
              · exact Or.inr ⟨by omega, h2, h3⟩
        · rw [i3]; simp [hrd']

/-! ## The whole insertion on an ordered, aligned set -/

theorem size_of_wellFormed {pf : Platform} {r : MemoryRegion} (h : WellFormed pf r) :
    r.Size = r.endAddress - r.startAddress := by
  obtain ⟨_, _, h3, h4⟩ := h
  unfold MemoryRegion.Size
  have : r.endAddress + U64 - r.startAddress = (r.endAddress - r.startAddress) + U64 := by omega
  rw [this, Nat.add_mod_right]
  exact Nat.mod_eq_of_lt (by omega)

/-- The pages of a well-formed region tile it exactly. -/
theorem pages_tile {pf : Platform} {r : MemoryRegion} (h : WellFormed pf r) :
    r.startAddress + r.SizeInPages pf.PAGE_SIZE * pf.PAGE_SIZE = r.endAddress := by
  unfold MemoryRegion.SizeInPages
  rw [size_of_wellFormed h]
  obtain ⟨h1, h2, h3, _⟩ := h
  have hd : pf.PAGE_SIZE ∣ r.endAddress - r.startAddress :=
    Nat.dvd_sub' (Nat.dvd_of_mod_eq_zero h2) (Nat.dvd_of_mod_eq_zero h1)
  rw [Nat.div_mul_cancel hd]
  omega

/-- Every address of an `n`-page range from an aligned start rounds down to
the start of one of its pages. -/
theorem pageFloor_in_range (pf : Platform) (hP : 0 < pf.PAGE_SIZE) {start n a : Nat}
    (hst : start % pf.PAGE_SIZE = 0) (h1 : start ≤ a) (h2 : a < start + n * pf.PAGE_SIZE) :
    ∃ i, i < n ∧ pageFloor pf a = start + i * pf.PAGE_SIZE := by
  obtain ⟨x, rfl⟩ := Nat.dvd_of_mod_eq_zero hst
  have hx : x ≤ a / pf.PAGE_SIZE := by
    rw [Nat.le_div_iff_mul_le hP, Nat.mul_comm]; exact h1
  have hn : a / pf.PAGE_SIZE < x + n := by
    rw [Nat.div_lt_iff_lt_mul hP]
    calc a < pf.PAGE_SIZE * x + n * pf.PAGE_SIZE := h2
      _ = (x + n) * pf.PAGE_SIZE := by ring
  refine ⟨a / pf.PAGE_SIZE - x, by omega, ?_⟩
  unfold pageFloor
  have : a / pf.PAGE_SIZE = x + (a / pf.PAGE_SIZE - x) := by omega
  conv_lhs => rw [this]
  ring

theorem validLoop_iff (pf : Platform) :
    ∀ (n start : Nat), start + n * pf.PAGE_SIZE < U64 →
      (validLoop pf n start = true ↔
        ∀ i, i < n → pf.ReadProcessMemory (start + i * pf.PAGE_SIZE) = true) := by
  intro n
  induction n with
  | zero => intro start _; simp [validLoop]
  | succ n ih =>
    intro start hb
    have hrange : start + (n + 1) * pf.PAGE_SIZE = start + pf.PAGE_SIZE + n * pf.PAGE_SIZE := by
      rw [Nat.succ_mul]; omega
    have hmod : (start + pf.PAGE_SIZE) % U64 = start + pf.PAGE_SIZE :=
      Nat.mod_eq_of_lt (by omega)
    unfold validLoop
    rw [hmod]
    by_cases hrd : pf.ReadProcessMemory start = true
    · simp only [hrd, Bool.not_true, Bool.false_eq_true, if_false]
      rw [ih (start + pf.PAGE_SIZE) (by omega)]
      constructor
      · intro h i hi
        cases i with
        | zero => simpa using hrd
        | succ j =>
          have := h j (by omega)
          have he : start + (j + 1) * pf.PAGE_SIZE = start + pf.PAGE_SIZE + j * pf.PAGE_SIZE := by
            rw [Nat.succ_mul]; omega
          rw [he]; exact this
      · intro h i hi
        have := h (i + 1) (by omega)
        have he : start + (i + 1) * pf.PAGE_SIZE = start + pf.PAGE_SIZE + i * pf.PAGE_SIZE := by
          rw [Nat.succ_mul]; omega
        rw [← he]; exact this
    · have hrd' : pf.ReadProcessMemory start = false := by simpa using hrd
      simp only [hrd', Bool.not_false, if_true, Bool.false_eq_true, false_iff]
      intro h
      have := h 0 (by omega)
      simp [hrd'] at this

/-- An entry that holds an address of a region collides with the region. -/
theorem collides_of_common {e r : MemoryRegion} {x : Nat}
    (h1 : e.startAddress ≤ x ∧ x < e.endAddress) (h2 : r.startAddress ≤ x ∧ x < r.endAddress) :
    ¬ (e.lt r = true ∨ r.lt e = true) := by
  simp only [lt_iff]; omega

/-- The function `InsertMemoryRegion` on a set of ordered, aligned,
non-empty entries and a well-formed region: coverage grows by exactly the
readable pages of the region, and the result counts the readable pages that
were not covered. -/
theorem insertRegion_spec (pf : Platform) (hP : 0 < pf.PAGE_SIZE) {s : RegionSet}
    (hs : PageSet pf s) {r : MemoryRegion} (hr : WellFormed pf r) :
    (∀ a, Covered (insertRegion pf s r).2 a ↔
      Covered s a ∨ (r.startAddress ≤ a ∧ a < r.endAddress ∧
        pf.ReadProcessMemory (pageFloor pf a) = true)) ∧
    (insertRegion pf s r).1 =
      (newPages pf s r.startAddress (r.SizeInPages pf.PAGE_SIZE)).length := by
  have htile := pages_tile hr
  have hloop := insertPages_spec pf hP r.flags (r.SizeInPages pf.PAGE_SIZE) r.startAddress s 0
    hs hr.1 (by rw [htile]; exact hr.2.2.2)
  rw [htile] at hloop
  have hfall : (∀ a, Covered (insertPages pf r.flags (r.SizeInPages pf.PAGE_SIZE)
        r.startAddress s 0).2 a ↔
      Covered s a ∨ (r.startAddress ≤ a ∧ a < r.endAddress ∧
        pf.ReadProcessMemory (pageFloor pf a) = true)) ∧
      (insertPages pf r.flags (r.SizeInPages pf.PAGE_SIZE) r.startAddress s 0).1 =
        (newPages pf s r.startAddress (r.SizeInPages pf.PAGE_SIZE)).length :=
    ⟨hloop.2.1, by rw [hloop.2.2]; simp⟩
  unfold insertRegion
  cases hf : setFind s r with
  | none =>
    simp only
    by_cases hv : ValidRegion pf r = true
    · simp only [hv, if_true]
      have hnc := (setFind_none_iff hs.1 r).mp hf
      have hall := (validLoop_iff pf (r.SizeInPages pf.PAGE_SIZE) r.startAddress
        (by rw [htile]; exact hr.2.2.2)).mp hv
      refine ⟨?_, ?_⟩
      · intro a
        rw [covered_setInsert hnc a]
        constructor
        · rintro (h | ⟨h1, h2⟩)
          · exact Or.inl h
          · refine Or.inr ⟨h1, h2, ?_⟩
            obtain ⟨i, hi, he⟩ := pageFloor_in_range pf hP hr.1 h1 (by rw [htile]; exact h2)
            rw [he]; exact hall i hi
        · rintro (h | ⟨h1, h2, _⟩)
          · exact Or.inl h
          · exact Or.inr ⟨h1, h2⟩
      · have hfilter : newPages pf s r.startAddress (r.SizeInPages pf.PAGE_SIZE) =
            List.range (r.SizeInPages pf.PAGE_SIZE) := by
          unfold newPages
          rw [List.filter_eq_self]
          intro i hi
          rw [List.mem_range] at hi
          have hlt : r.startAddress + i * pf.PAGE_SIZE < r.endAddress := by
            have : (i + 1) * pf.PAGE_SIZE ≤ r.SizeInPages pf.PAGE_SIZE * pf.PAGE_SIZE :=
              Nat.mul_le_mul_right _ hi
            rw [Nat.succ_mul] at this
            omega
          have hnot : ¬ Covered s (r.startAddress + i * pf.PAGE_SIZE) := by
            rintro ⟨e, he, h1⟩
            exact collides_of_common h1 ⟨by omega, hlt⟩ (hnc e he)
          simp [hall i hi, hnot]
        rw [hfilter, List.length_range]
    · simp only [hv, if_false]
      exact hfall
  | some found =>
    simp only
    by_cases hc : found.Contains r = true
    · simp only [hc, if_true]
      obtain ⟨hm, _, _⟩ := setFind_some hf
      simp only [MemoryRegion.Contains, Bool.and_eq_true, decide_eq_true_eq] at hc
      refine ⟨?_, ?_⟩
      · intro a
        constructor
        · exact Or.inl
        · rintro (h | ⟨h1, h2, _⟩)
          · exact h
          · exact ⟨found, hm, by omega, by omega⟩
      · have hfilter : newPages pf s r.startAddress (r.SizeInPages pf.PAGE_SIZE) = [] := by
          unfold newPages
          rw [List.filter_eq_nil_iff]
          intro i hi
          rw [List.mem_range] at hi
          have hlt : r.startAddress + i * pf.PAGE_SIZE < r.endAddress := by
            have : (i + 1) * pf.PAGE_SIZE ≤ r.SizeInPages pf.PAGE_SIZE * pf.PAGE_SIZE :=
              Nat.mul_le_mul_right _ hi
            rw [Nat.succ_mul] at this
            omega
          have hcov : Covered s (r.startAddress + i * pf.PAGE_SIZE) :=
            ⟨found, hm, by omega, by omega⟩
          simp [hcov]
        rw [hfilter]; rfl
    · simp only [hc, if_false]
      exact hfall

/-! ## Insertion: the contract -/

theorem bytes_wellFormed (pf : Platform) (flags address size : Nat)
    (hb : address + size + (pf.PAGE_SIZE - 1) < U64) :
    WellFormed pf (mkRegion flags (pageFloor pf address)
      (pageFloor pf ((address + size + (pf.PAGE_SIZE - 1)) % U64))) := by
  rw [Nat.mod_eq_of_lt hb]
  refine ⟨pageFloor_mod pf _, pageFloor_mod pf _, ?_, ?_⟩
  · exact pageFloor_mono pf (by omega)
  · exact lt_of_le_of_lt (pageFloor_le pf _) hb

/-- The page-rounded range of a byte range of less than `UINT_MAX` bytes has
at most `INT_MAX` pages, when a page has at least four bytes. -/
theorem page_count_le_INT_MAX (pf : Platform) (address size : Nat)
    (hP : 4 ≤ pf.PAGE_SIZE) (hsize : size < UINT_MAX) :
    (pageFloor pf (address + size + (pf.PAGE_SIZE - 1)) - pageFloor pf address)
      / pf.PAGE_SIZE ≤ INT_MAX := by
  have h1 := pageFloor_le pf (address + size + (pf.PAGE_SIZE - 1))
  have h2 : address < pageFloor pf address + pf.PAGE_SIZE := by
    unfold pageFloor
    have h3 := Nat.div_add_mod address pf.PAGE_SIZE
    have h4 := Nat.mod_lt address (show 0 < pf.PAGE_SIZE by omega)
    have h5 : address / pf.PAGE_SIZE * pf.PAGE_SIZE = pf.PAGE_SIZE * (address / pf.PAGE_SIZE) :=
      Nat.mul_comm _ _
    omega
  apply Nat.le_of_lt_succ
  rw [Nat.div_lt_iff_lt_mul (show 0 < pf.PAGE_SIZE by omega)]
  unfold UINT_MAX at hsize
  unfold INT_MAX
  omega

/-- C1. On a Memory Region Set whose entries are ordered (pairwise
non-overlapping), page-aligned and non-empty, with a fixed readability oracle
and pages of at least four bytes, for every byte range `(address, size)` with
`size < UINT_MAX`, as the function asserts, that does not run past the 64-bit
address space, `InsertMemoryRegion(address, size)` returns exactly the number
of pages of the page-rounded range that are readable and were not covered by
an entry before the call; that number is at most `INT_MAX`, so that the `int`
returned is the number itself. The function is total: an unreadable page is
not an error, it is only not counted. (The statement holds whether or not the
rounded start is zero.) -/
theorem insertMemoryRegion_counts_new_readable_pages (pf : Platform) (ci : CrashInfo)
    (address size : Nat) (hP : 4 ≤ pf.PAGE_SIZE) (hs : PageSet pf ci.m_memoryRegions)
    (hb : address + size + (pf.PAGE_SIZE - 1) < U64) (hsize : size < UINT_MAX) :
    (InsertMemoryRegionBytes pf ci address size).1 =
      (newPages pf ci.m_memoryRegions (pageFloor pf address)
        ((pageFloor pf (address + size + (pf.PAGE_SIZE - 1)) - pageFloor pf address)
          / pf.PAGE_SIZE)).length ∧
    (InsertMemoryRegionBytes pf ci address size).1 ≤ INT_MAX := by
  have hP0 : 0 < pf.PAGE_SIZE := by omega
  have hw := bytes_wellFormed pf (pf.GetMemoryRegionFlags ci (pageFloor pf address)) address size hb
  have h := (insertRegion_spec pf hP0 hs hw).2
  have hcount : (InsertMemoryRegionBytes pf ci address size).1 =
      (newPages pf ci.m_memoryRegions (pageFloor pf address)
        ((pageFloor pf (address + size + (pf.PAGE_SIZE - 1)) - pageFloor pf address)
          / pf.PAGE_SIZE)).length := by
    unfold InsertMemoryRegionBytes InsertMemoryRegion
    simp only
    rw [h]
    unfold MemoryRegion.SizeInPages
    rw [size_of_wellFormed hw]
    simp only [mkRegion, Nat.mod_eq_of_lt hb]
  refine ⟨hcount, ?_⟩
  rw [hcount]
  refine le_trans ?_ (page_count_le_INT_MAX pf address size hP hsize)
  unfold newPages
  exact le_trans (List.length_filter_le _ _) (by rw [List.length_range])

theorem insertMemoryRegion_counts_new_readable_pages_witness :
    (InsertMemoryRegionBytes raggedPlatform onePageState 0x1800 0x3000).1 =
      (newPages raggedPlatform onePageState.m_memoryRegions
        (pageFloor raggedPlatform 0x1800)
        ((pageFloor raggedPlatform (0x1800 + 0x3000 + (raggedPlatform.PAGE_SIZE - 1))
          - pageFloor raggedPlatform 0x1800) / raggedPlatform.PAGE_SIZE)).length ∧
    (InsertMemoryRegionBytes raggedPlatform onePageState 0x1800 0x3000).1 ≤ INT_MAX :=
  insertMemoryRegion_counts_new_readable_pages raggedPlatform onePageState 0x1800 0x3000
    (by decide) (by decide) (by decide) (by decide)

/-- C2. On a Memory Region Set whose entries are ordered (pairwise
non-overlapping), page-aligned and non-empty, and for every well-formed
region R, the addresses covered after `InsertMemoryRegion(R)` are exactly
those covered before together with the readable pages of R: every readable
page of R is covered, no unreadable page is added and nothing covered is
lost. In particular inserting a one-page region whose page is unreadable
returns 0 and leaves the state unchanged. -/
theorem insertMemoryRegion_covers_readable_pages (pf : Platform) (ci : CrashInfo)
    (r : MemoryRegion) (hP : 0 < pf.PAGE_SIZE) (hs : PageSet pf ci.m_memoryRegions)
    (hr : WellFormed pf r) :
    (∀ a, Covered (InsertMemoryRegion pf ci r).2.m_memoryRegions a ↔
      Covered ci.m_memoryRegions a ∨
        (r.startAddress ≤ a ∧ a < r.endAddress ∧
          pf.ReadProcessMemory (pageFloor pf a) = true)) ∧
    (r.endAddress = r.startAddress + pf.PAGE_SIZE →
      pf.ReadProcessMemory r.startAddress = false →
      InsertMemoryRegion pf ci r = (0, ci)) := by
  have hspec := insertRegion_spec pf hP hs hr
  refine ⟨hspec.1, ?_⟩
  intro hone hrd
  have hb : r.startAddress + pf.PAGE_SIZE < U64 := by rw [← hone]; exact hr.2.2.2
  have hn : r.SizeInPages pf.PAGE_SIZE = 1 := by
    unfold MemoryRegion.SizeInPages
    rw [size_of_wellFormed hr, hone, Nat.add_sub_cancel_left]
    exact Nat.div_self hP
  have hv : ValidRegion pf r = false := by
    unfold ValidRegion; rw [hn]; simp [validLoop, hrd]
  have hpv := validRegion_page pf hP r.flags r.startAddress hb
  rw [hrd] at hpv
  have hfall : insertPages pf r.flags 1 r.startAddress ci.m_memoryRegions 0 =
      (0, ci.m_memoryRegions) := by
    unfold insertPages
    simp only [hpv]
    cases setFind ci.m_memoryRegions
        (mkRegion r.flags r.startAddress ((r.startAddress + pf.PAGE_SIZE) % U64)) <;>
      simp [insertPages]
  unfold InsertMemoryRegion insertRegion
  simp only [hn, hv, hfall]
  cases setFind ci.m_memoryRegions r with
  | none => simp
  | some f => by_cases hc : f.Contains r = true <;> simp [hc]

theorem insertMemoryRegion_covers_readable_pages_witness :
    (Covered (InsertMemoryRegion raggedPlatform onePageState
        (mkRegion 5 0x1000 0x5000)).2.m_memoryRegions 0x1234 ↔
      Covered onePageState.m_memoryRegions 0x1234 ∨
        ((mkRegion 5 0x1000 0x5000).startAddress ≤ 0x1234 ∧
          0x1234 < (mkRegion 5 0x1000 0x5000).endAddress ∧
          raggedPlatform.ReadProcessMemory (pageFloor raggedPlatform 0x1234) = true)) :=
  (insertMemoryRegion_covers_readable_pages raggedPlatform onePageState
    (mkRegion 5 0x1000 0x5000) (by decide) (by decide) (by decide)).1 0x1234

/-- An ordered set has no two entries whose ranges share an address. -/
theorem setOrdered_no_overlap {s : RegionSet} (hs : SetOrdered s) :
    s.Pairwise (fun a b => ¬ RangesOverlap a b) := by
  refine List.Pairwise.imp ?_ hs
  intro a b hab
  rw [lt_iff] at hab
  rintro ⟨x, h1, h2⟩
  omega

theorem setOrdered_insertPages (pf : Platform) (flags : Nat) :
    ∀ (n start : Nat) (s : RegionSet) (added : Nat), SetOrdered s →
      SetOrdered (insertPages pf flags n start s added).2 := by
  intro n
  induction n with
  | zero => intro start s added hs; exact hs
  | succ n ih =>
    intro start s added hs
    unfold insertPages
    simp only
    split
    · split
      · exact ih _ _ _ (setOrdered_setInsert hs _)
      · exact ih _ _ _ hs
    · exact ih _ _ _ hs

theorem setOrdered_insertRegion (pf : Platform) {s : RegionSet} (hs : SetOrdered s)
    (r : MemoryRegion) : SetOrdered (insertRegion pf s r).2 := by
  unfold insertRegion
  simp only
  split
  · split
    · exact setOrdered_setInsert hs _
    · exact setOrdered_insertPages pf _ _ _ _ _ hs
  · split
    · exact hs
    · exact setOrdered_insertPages pf _ _ _ _ _ hs

/-- C3. `InsertMemoryRegion` preserves the pre-coalescing invariant of the
Memory Region Set for every inserted region and every readability oracle: if
the stored entries are ordered without collision before the call (the state of
the `std::set`, in which no two entries overlap and adjacent entries are
allowed), they are so after it, and no two of them share an address. -/
theorem insertMemoryRegion_preserves_non_overlap (pf : Platform) (ci : CrashInfo)
    (r : MemoryRegion) (hs : SetOrdered ci.m_memoryRegions) :
    SetOrdered (InsertMemoryRegion pf ci r).2.m_memoryRegions ∧
    (InsertMemoryRegion pf ci r).2.m_memoryRegions.Pairwise
      (fun a b => ¬ RangesOverlap a b) := by
  have h : SetOrdered (InsertMemoryRegion pf ci r).2.m_memoryRegions :=
    setOrdered_insertRegion pf hs r
  exact ⟨h, setOrdered_no_overlap h⟩

theorem insertMemoryRegion_preserves_non_overlap_witness :
    SetOrdered (InsertMemoryRegion raggedPlatform onePageState
        (mkRegion 5 0x1000 0x5000)).2.m_memoryRegions ∧
    (InsertMemoryRegion raggedPlatform onePageState
        (mkRegion 5 0x1000 0x5000)).2.m_memoryRegions.Pairwise
      (fun a b => ¬ RangesOverlap a b) :=
  insertMemoryRegion_preserves_non_overlap raggedPlatform onePageState
    (mkRegion 5 0x1000 0x5000) (by decide)

/-! ## Insertion: idempotence and containment -/

/-- The searches look at the key's range only. -/
theorem setFind_congr (s : RegionSet) {k k2 : MemoryRegion}
    (h1 : k.startAddress = k2.startAddress) (h2 : k.endAddress = k2.endAddress) :
    setFind s k = setFind s k2 := by
  induction s with
  | nil => rfl
  | cons e rest ih =>
    unfold setFind
    simp only [MemoryRegion.lt, h1, h2, ih]

theorem validRegion_congr (pf : Platform) {k k2 : MemoryRegion}
    (h1 : k.startAddress = k2.startAddress) (h2 : k.endAddress = k2.endAddress) :
    ValidRegion pf k = ValidRegion pf k2 := by
  simp only [ValidRegion, MemoryRegion.SizeInPages, MemoryRegion.Size, h1, h2]

/-- An element found in a set is still found after the set has grown. -/
theorem setFind_some_mono {s t : RegionSet} (ht : SetOrdered t) (hst : ∀ x ∈ s, x ∈ t)
    {k f : MemoryRegion} (h : setFind s k = some f) : ∃ g, setFind t k = some g := by
  obtain ⟨hm, h1, h2⟩ := setFind_some h
  exact (setFind_isSome_iff ht k).mpr ⟨f, hst f hm, h1, h2⟩

/-- The per-page loop keeps the set ordered, only adds entries, and leaves a
set on which running the same loop again (with any flags) adds nothing. -/
theorem insertPages_again (pf : Platform) (flags : Nat) :
    ∀ (n start : Nat) (s : RegionSet) (added : Nat), SetOrdered s →
      (∀ x ∈ s, x ∈ (insertPages pf flags n start s added).2) ∧
      ∀ (t : RegionSet), SetOrdered t →
        (∀ x ∈ (insertPages pf flags n start s added).2, x ∈ t) →
        ∀ flags2 added2, insertPages pf flags2 n start t added2 = (added2, t) := by
  intro n
  induction n with
  | zero =>
    intro start s added _
    exact ⟨fun x hx => hx, fun t _ _ flags2 added2 => rfl⟩
  | succ n ih =>
    intro start s added hs
    have hcongr : ∀ (t : RegionSet) (flags2 : Nat),
        setFind t (mkRegion flags2 start ((start + pf.PAGE_SIZE) % U64)) =
          setFind t (mkRegion flags start ((start + pf.PAGE_SIZE) % U64)) :=
      fun t flags2 => setFind_congr t rfl rfl
    have hvcongr : ∀ (flags2 : Nat),
        ValidRegion pf (mkRegion flags2 start ((start + pf.PAGE_SIZE) % U64)) =
          ValidRegion pf (mkRegion flags start ((start + pf.PAGE_SIZE) % U64)) :=
      fun flags2 => validRegion_congr pf rfl rfl
    unfold insertPages
    simp only
    cases hf : setFind s (mkRegion flags start ((start + pf.PAGE_SIZE) % U64)) with
    | some f =>
      simp only
      obtain ⟨i1, i2⟩ := ih ((start + pf.PAGE_SIZE) % U64) s added hs
      refine ⟨i1, ?_⟩
      intro t ht hsub flags2 added2
      obtain ⟨g, hg⟩ := setFind_some_mono ht (fun x hx => hsub x (i1 x hx)) hf
      rw [hcongr t flags2, hg]
      exact i2 t ht hsub flags2 added2
    | none =>
      simp only
      by_cases hv : ValidRegion pf (mkRegion flags start ((start + pf.PAGE_SIZE) % U64)) = true
      · simp only [hv, if_true]
        have hs1 := setOrdered_setInsert hs (mkRegion flags start ((start + pf.PAGE_SIZE) % U64))
        obtain ⟨i1, i2⟩ := ih ((start + pf.PAGE_SIZE) % U64)
          (setInsert s (mkRegion flags start ((start + pf.PAGE_SIZE) % U64))) (added + 1) hs1
        refine ⟨fun x hx => i1 x (subset_setInsert hx), ?_⟩
        intro t ht hsub flags2 added2
        have hmem : mkRegion flags start ((start + pf.PAGE_SIZE) % U64) ∈ t := by
          apply hsub
          apply i1
          exact (mem_setInsert_iff ((setFind_none_iff hs _).mp hf) _).mpr (Or.inl rfl)
        rw [hcongr t flags2, setFind_mem ht hmem]
        exact i2 t ht hsub flags2 added2
      · simp only [hv, if_false]
        obtain ⟨i1, i2⟩ := ih ((start + pf.PAGE_SIZE) % U64) s added hs
        refine ⟨i1, ?_⟩
        intro t ht hsub flags2 added2
        rw [hcongr t flags2, hvcongr flags2]
        cases setFind t (mkRegion flags start ((start + pf.PAGE_SIZE) % U64)) with
        | none =>
          simp only [hv, if_false]
          exact i2 t ht hsub flags2 added2
        | some g =>
          simp only
          exact i2 t ht hsub flags2 added2

/-- Inserting a region again, whatever its flags, adds nothing. -/
theorem insertRegion_again (pf : Platform) {s : RegionSet} (hs : SetOrdered s)
    (r r2 : MemoryRegion) (h1 : r2.startAddress = r.startAddress)
    (h2 : r2.endAddress = r.endAddress) :
    insertRegion pf (insertRegion pf s r).2 r2 = (0, (insertRegion pf s r).2) := by
  have hord := setOrdered_insertRegion pf hs r
  have hfc : ∀ t : RegionSet, setFind t r2 = setFind t r := fun t => setFind_congr t h1 h2
  have hvc : ValidRegion pf r2 = ValidRegion pf r := validRegion_congr pf h1 h2
  have hpc : r2.SizeInPages pf.PAGE_SIZE = r.SizeInPages pf.PAGE_SIZE := by
    simp only [MemoryRegion.SizeInPages, MemoryRegion.Size, h1, h2]
  have hcc : ∀ f : MemoryRegion, f.Contains r2 = f.Contains r := by
    intro f; simp only [MemoryRegion.Contains, h1, h2]
  have hagain := insertPages_again pf r.flags (r.SizeInPages pf.PAGE_SIZE) r.startAddress s 0 hs
  -- the second call on the result of the per-page loop
  have hfallback : ∀ (hnv : (∃ f, setFind s r = some f) ∨ ValidRegion pf r = false),
      insertRegion pf (insertPages pf r.flags (r.SizeInPages pf.PAGE_SIZE) r.startAddress s 0).2 r2
        = (0, (insertPages pf r.flags (r.SizeInPages pf.PAGE_SIZE) r.startAddress s 0).2) := by
    intro hnv
    have hordp := setOrdered_insertPages pf r.flags (r.SizeInPages pf.PAGE_SIZE)
      r.startAddress s 0 hs
    have hskip := hagain.2 _ hordp (fun x hx => hx) r2.flags 0
    unfold insertRegion
    simp only [hfc, hvc, hpc, hcc, h1, hskip]
    cases hf2 : setFind (insertPages pf r.flags (r.SizeInPages pf.PAGE_SIZE)
        r.startAddress s 0).2 r with
    | some g => by_cases hc : g.Contains r = true <;> simp [hc]
    | none =>
      rcases hnv with ⟨f, hf⟩ | hv
      · obtain ⟨g, hg⟩ := setFind_some_mono hordp hagain.1 hf
        rw [hg] at hf2; cases hf2
      · simp [hv]
  unfold insertRegion at hord ⊢
  simp only at hord ⊢
  cases hf : setFind s r with
  | none =>
    rw [hf] at hord
    simp only at hord ⊢
    by_cases hv : ValidRegion pf r = true
    · simp only [hv, if_true] at hord ⊢
      have hmem : r ∈ setInsert s r :=
        (mem_setInsert_iff ((setFind_none_iff hs r).mp hf) r).mpr (Or.inl rfl)
      have hc : r.Contains r = true := by simp [MemoryRegion.Contains]
      simp only [hfc, hcc, setFind_mem hord hmem, hc, if_true]
    · simp only [hv, if_false]
      have := hfallback (Or.inr (by simpa using hv))
      unfold insertRegion at this
      simpa using this
  | some f =>
    simp only
    by_cases hc : f.Contains r = true
    · simp only [hc, if_true, hfc, hcc, hf]
    · simp only [hc, if_false]
      have := hfallback (Or.inl ⟨f, hf⟩)
      unfold insertRegion at this
      simpa using this

theorem insertMemoryRegion_again (pf : Platform) (ci : CrashInfo)
    (hs : SetOrdered ci.m_memoryRegions) (r r2 : MemoryRegion)
    (h1 : r2.startAddress = r.startAddress) (h2 : r2.endAddress = r.endAddress) :
    InsertMemoryRegion pf (InsertMemoryRegion pf ci r).2 r2 =
      (0, (InsertMemoryRegion pf ci r).2) := by
  unfold InsertMemoryRegion
  simp only
  rw [insertRegion_again pf hs r r2 h1 h2]

/-- C4. Idempotence of insert: on every Memory Region Set whose entries are
ordered without collision, for every byte range `(address, size)` and a
readability oracle that does not change between the calls, a second
`InsertMemoryRegion(address, size)` right after the first returns 0 and leaves
the state unchanged, whichever path the first call took. -/
theorem insertMemoryRegion_twice (pf : Platform) (ci : CrashInfo) (address size : Nat)
    (hs : SetOrdered ci.m_memoryRegions) :
    InsertMemoryRegionBytes pf (InsertMemoryRegionBytes pf ci address size).2 address size =
      (0, (InsertMemoryRegionBytes pf ci address size).2) := by
  unfold InsertMemoryRegionBytes
  exact insertMemoryRegion_again pf ci hs _ _ rfl rfl

theorem insertMemoryRegion_twice_witness :
    InsertMemoryRegionBytes raggedPlatform
        (InsertMemoryRegionBytes raggedPlatform onePageState 0x1800 0x3000).2 0x1800 0x3000 =
      (0, (InsertMemoryRegionBytes raggedPlatform onePageState 0x1800 0x3000).2) :=
  insertMemoryRegion_twice raggedPlatform onePageState 0x1800 0x3000 (by decide)

theorem setFind_eq_of_mem {s : RegionSet} (hs : SetOrdered s) {k f : MemoryRegion}
    (hm : f ∈ s) (h1 : f.lt k = false) (h2 : k.lt f = false)
    (h3 : ∀ x : MemoryRegion, x.lt f = true → x.lt k = true) : setFind s k = some f := by
  induction s with
  | nil => cases hm
  | cons x rest ih =>
    obtain ⟨hx, hr⟩ := setOrdered_cons.mp hs
    unfold setFind
    rcases List.mem_cons.mp hm with rfl | hm
    · simp [h1, h2]
    · rw [h3 x (hx f hm)]
      simp only [if_true]
      exact ih hr hm

/-- C5 (the code at the failing input). The set holds R2 = `[0x1000, 0x2000)`
and R1 is the empty region `[0x2000, 0x2000)` (what
`InsertMemoryRegion(0x2000, 0)` builds): `R2.start <= R1.start` and
`R1.end <= R2.end` hold, the call returns 0, yet the set is changed: R1 is
stored as a new, empty entry. -/
theorem containment_fails_for_empty_region :
    SetOrdered lowPageState.m_memoryRegions ∧
    mkRegion 5 0x1000 0x2000 ∈ lowPageState.m_memoryRegions ∧
    (mkRegion 5 0x1000 0x2000).startAddress ≤ (mkRegion 5 0x2000 0x2000).startAddress ∧
    (mkRegion 5 0x2000 0x2000).endAddress ≤ (mkRegion 5 0x1000 0x2000).endAddress ∧
    (InsertMemoryRegion readablePlatform lowPageState (mkRegion 5 0x2000 0x2000)).1 = 0 ∧
    (InsertMemoryRegion readablePlatform lowPageState (mkRegion 5 0x2000 0x2000)).2.m_memoryRegions
      = [mkRegion 5 0x1000 0x2000, mkRegion 5 0x2000 0x2000] ∧
    (InsertMemoryRegionBytes readablePlatform lowPageState 0x2000 0).2.m_memoryRegions
      = [mkRegion 5 0x1000 0x2000, mkRegion 5 0x2000 0x2000] := by
  decide

/-- Where containment holds: when the Memory Region Set, ordered without
collision, holds an entry R2 and the range of R1 lies inside R2
(`R2.start <= R1.start`, `R1.end <= R2.end`) and starts below the end of R2
(as every non-empty R1 does, and every empty one but that at the end of R2),
`InsertMemoryRegion(R1)` returns 0 and leaves the state unchanged, for every
readability oracle, hence without consulting it. -/
theorem insertMemoryRegion_contained (pf : Platform) (ci : CrashInfo) (r1 r2 : MemoryRegion)
    (hs : SetOrdered ci.m_memoryRegions) (hm : r2 ∈ ci.m_memoryRegions)
    (h1 : r2.startAddress ≤ r1.startAddress) (h2 : r1.endAddress ≤ r2.endAddress)
    (h3 : r1.startAddress < r2.endAddress) :
    InsertMemoryRegion pf ci r1 = (0, ci) := by
  have hfind : setFind ci.m_memoryRegions r1 = some r2 := by
    apply setFind_eq_of_mem hs hm
    · rw [lt_false_iff]; omega
    · rw [lt_false_iff]; omega
    · intro x hx
      rw [lt_iff] at hx ⊢
      omega
  have hc : r2.Contains r1 = true := by
    simp [MemoryRegion.Contains, h1, h2]
  unfold InsertMemoryRegion insertRegion
  simp only [hfind, hc, if_true]

theorem insertMemoryRegion_contained_witness :
    InsertMemoryRegion raggedPlatform onePageState (mkRegion 3 0x2000 0x3000) =
      (0, onePageState) :=
  insertMemoryRegion_contained raggedPlatform onePageState (mkRegion 3 0x2000 0x3000)
    (mkRegion 5 0x2000 0x3000) (by decide) (by decide) (by decide) (by decide) (by decide)

/-! ## Insertion: the whole-region path -/

theorem setFind_none_of_free {s : RegionSet} {k : MemoryRegion}
    (h : ∀ e ∈ s, e.lt k = true ∨ k.lt e = true) : setFind s k = none := by
  induction s with
  | nil => rfl
  | cons x rest ih =>
    unfold setFind
    by_cases h1 : x.lt k = true
    · simp only [h1, if_true]
      exact ih (fun e he => h e (List.mem_cons_of_mem _ he))
    · rcases h x (List.mem_cons_self _ _) with h2 | h2
      · exact absurd h2 h1
      · simp [h1, h2]

/-- C6. Whole-region fast path: with pages of at least four bytes, for every
byte range `(address, size)` inside the 64-bit address space with
`size < UINT_MAX`, as the function asserts, whose page-rounded range
`[address & PAGE_MASK, (address+size+PAGE_SIZE-1) & PAGE_MASK)` overlaps no
stored entry (every entry lies below or above it in the set's ordering) and
all of whose pages are readable, `InsertMemoryRegion(address, size)` adds
exactly one new entry equal to that rounded range, changes nothing else in the
state, and returns its page count `(end - start) / PAGE_SIZE`, which is at
most `INT_MAX`, so that the `int` returned is the page count itself. -/
theorem insertMemoryRegion_whole_region (pf : Platform) (ci : CrashInfo) (address size : Nat)
    (hP : 4 ≤ pf.PAGE_SIZE) (hb : address + size + (pf.PAGE_SIZE - 1) < U64)
    (hsize : size < UINT_MAX)
    (hfree : ∀ e ∈ ci.m_memoryRegions,
      ¬ e.Collides (mkRegion (pf.GetMemoryRegionFlags ci (pageFloor pf address))
        (pageFloor pf address) (pageFloor pf (address + size + (pf.PAGE_SIZE - 1)))))
    (hread : ∀ i, i < (pageFloor pf (address + size + (pf.PAGE_SIZE - 1)) - pageFloor pf address)
        / pf.PAGE_SIZE →
      pf.ReadProcessMemory (pageFloor pf address + i * pf.PAGE_SIZE) = true) :
    ∃ pre post, ci.m_memoryRegions = pre ++ post ∧
      InsertMemoryRegionBytes pf ci address size =
        ((pageFloor pf (address + size + (pf.PAGE_SIZE - 1)) - pageFloor pf address)
            / pf.PAGE_SIZE,
          { ci with m_memoryRegions :=
              (pre ++ mkRegion (pf.GetMemoryRegionFlags ci (pageFloor pf address))
                (pageFloor pf address) (pageFloor pf (address + size + (pf.PAGE_SIZE - 1)))
                :: post) }) ∧
      (pageFloor pf (address + size + (pf.PAGE_SIZE - 1)) - pageFloor pf address)
        / pf.PAGE_SIZE ≤ INT_MAX := by
  have hw := bytes_wellFormed pf (pf.GetMemoryRegionFlags ci (pageFloor pf address)) address size hb
  rw [Nat.mod_eq_of_lt hb] at hw
  have hfree2 : ∀ e ∈ ci.m_memoryRegions,
      e.lt (mkRegion (pf.GetMemoryRegionFlags ci (pageFloor pf address))
        (pageFloor pf address) (pageFloor pf (address + size + (pf.PAGE_SIZE - 1)))) = true ∨
      (mkRegion (pf.GetMemoryRegionFlags ci (pageFloor pf address))
        (pageFloor pf address) (pageFloor pf (address + size + (pf.PAGE_SIZE - 1)))).lt e
          = true := by
    intro e he
    have := hfree e he
    unfold MemoryRegion.Collides at this
    by_cases h1 : e.lt (mkRegion (pf.GetMemoryRegionFlags ci (pageFloor pf address))
        (pageFloor pf address) (pageFloor pf (address + size + (pf.PAGE_SIZE - 1)))) = true
    · exact Or.inl h1
    · right
      by_contra h2
      exact this ⟨by simpa using h1, by simpa using h2⟩
  have hn : (mkRegion (pf.GetMemoryRegionFlags ci (pageFloor pf address))
        (pageFloor pf address)
        (pageFloor pf (address + size + (pf.PAGE_SIZE - 1)))).SizeInPages pf.PAGE_SIZE =
      (pageFloor pf (address + size + (pf.PAGE_SIZE - 1)) - pageFloor pf address)
        / pf.PAGE_SIZE := by
    unfold MemoryRegion.SizeInPages
    rw [size_of_wellFormed hw]
    rfl
  have hv : ValidRegion pf (mkRegion (pf.GetMemoryRegionFlags ci (pageFloor pf address))
        (pageFloor pf address)
        (pageFloor pf (address + size + (pf.PAGE_SIZE - 1)))) = true := by
    unfold ValidRegion
    rw [validLoop_iff pf _ _ (by rw [pages_tile hw]; exact hw.2.2.2), hn]
    exact hread
  obtain ⟨pre, post, hp, hq⟩ := setInsert_split hfree2
  refine ⟨pre, post, hp, ?_, page_count_le_INT_MAX pf address size hP hsize⟩
  unfold InsertMemoryRegionBytes InsertMemoryRegion insertRegion
  simp only [Nat.mod_eq_of_lt hb, setFind_none_of_free hfree2, hv, if_true, hn, hq]

theorem insertMemoryRegion_whole_region_witness :
    (InsertMemoryRegionBytes readablePlatform emptyState 0x1000 10).1 = 1 ∧
    (InsertMemoryRegionBytes readablePlatform emptyState 0x1000 10).2.m_memoryRegions =
      [mkRegion 5 0x1000 0x2000] ∧
    (InsertMemoryRegionBytes readablePlatform
      (InsertMemoryRegionBytes readablePlatform emptyState 0x1000 10).2 0x1004 4).1 = 0 := by
  obtain ⟨pre, post, hp, hq, _⟩ := insertMemoryRegion_whole_region readablePlatform emptyState
    0x1000 10 (by decide) (by decide) (by decide) (by decide) (by intro i _; rfl)
  have hnil : pre = [] ∧ post = [] := by
    have : pre ++ post = [] := hp.symm
    simpa using this
  obtain ⟨rfl, rfl⟩ := hnil
  rw [hq]
  decide

/-! ## Coalescing -/

theorem combineOut_nil (mask flags start stop : Nat) (new : RegionSet) :
    combineOut mask [] flags start stop new = setInsert new (mkRegion flags start stop) := rfl

theorem combineOut_cons (mask : Nat) (r : MemoryRegion) (rest : List MemoryRegion)
    (flags start stop : Nat) (new : RegionSet) :
    combineOut mask (r :: rest) flags start stop new =
      if stop = r.startAddress ∧ flags = r.flags &&& mask then
        combineOut mask rest flags start r.endAddress new
      else
        combineOut mask rest (r.flags &&& mask) r.startAddress r.endAddress
          (setInsert new (mkRegion flags start stop)) := by
  unfold combineOut
  by_cases h : stop = r.startAddress ∧ flags = r.flags &&& mask
  · simp only [combineLoop, h, and_self, if_true]
  · simp only [combineLoop, h, if_false]

theorem combineRegions_cons (mask : Nat) (first : MemoryRegion) (rest : List MemoryRegion) :
    combineRegions mask (first :: rest) =
      some (combineOut mask rest (first.flags &&& mask) first.startAddress
        first.endAddress []) := by
  simp [combineRegions, combineOut, combineLoop]

theorem land_mask_idem (x mask : Nat) : (x &&& mask) &&& mask = x &&& mask := by
  rw [Nat.and_assoc, Nat.and_self]

/-- What the scan of `CombineMemoryRegions` produces from a state that
satisfies its invariant: an ordered set of non-empty, masked entries no two of
which can be merged and which covers what the new set, the accumulator and the
remaining regions cover. -/
theorem combineOut_spec (mask : Nat) :
    ∀ (rest : List MemoryRegion) (flags start stop : Nat) (new : RegionSet),
      CombineInv mask new flags start stop rest →
      SetOrdered (combineOut mask rest flags start stop new) ∧
      NonEmptyEntries (combineOut mask rest flags start stop new) ∧
      (∀ x ∈ combineOut mask rest flags start stop new, x.flags &&& mask = x.flags) ∧
      (∀ x ∈ combineOut mask rest flags start stop new,
        ∀ y ∈ combineOut mask rest flags start stop new, ¬ Mergeable mask x y) ∧
      (∀ a, Covered (combineOut mask rest flags start stop new) a ↔
        Covered new a ∨ (start ≤ a ∧ a < stop) ∨ Covered rest a) := by
  intro rest
  induction rest with
  | nil =>
    intro flags start stop new ⟨h1, h2, h3, h4, h5, h6, h7, h8, _, _, _⟩
    rw [combineOut_nil]
    have hfree : ∀ e ∈ new, e.lt (mkRegion flags start stop) = true ∨
        (mkRegion flags start stop).lt e = true := by
      intro e he
      left
      rw [lt_iff]
      have := h6 e he
      have := h4 e he
      simp only [mkRegion]
      omega
    have hmem := mem_setInsert_iff hfree
    refine ⟨setOrdered_setInsert h3 _, ?_, ?_, ?_, ?_⟩
    · intro e he
      rcases (hmem e).mp he with rfl | he
      · exact h1
      · exact h4 e he
    · intro e he
      rcases (hmem e).mp he with rfl | he
      · exact h2
      · exact h5 e he
    · intro x hx y hy
      rcases (hmem x).mp hx with rfl | hx <;> rcases (hmem y).mp hy with rfl | hy
      · simp only [Mergeable, mkRegion]; omega
      · have := h6 y hy
        have := h4 y hy
        simp only [Mergeable, mkRegion]; omega
      · intro hm
        apply h8 x hx
        simp only [Mergeable, mkRegion] at hm
        rw [h5 x hx, h2] at hm
        exact hm
      · exact h7 x hx y hy
    · intro a
      rw [covered_setInsert hfree]
      simp [Covered, mkRegion]
  | cons r rest ih =>
    intro flags start stop new ⟨h1, h2, h3, h4, h5, h6, h7, h8, h9, h10, h11⟩
    obtain ⟨hr1, hr2⟩ := setOrdered_cons.mp h9
    have hrne : r.startAddress < r.endAddress := h10 r (List.mem_cons_self _ _)
    have hrb : stop ≤ r.startAddress := h11 r (List.mem_cons_self _ _)
    have hrest_ne : NonEmptyEntries rest := fun e he => h10 e (List.mem_cons_of_mem _ he)
    have hrest_above : ∀ e ∈ rest, r.endAddress ≤ e.startAddress := by
      intro e he
      have := hr1 e he
      rw [lt_iff] at this
      exact this.2
    have hcov_cons : ∀ a, Covered (r :: rest) a ↔
        (r.startAddress ≤ a ∧ a < r.endAddress) ∨ Covered rest a := by
      intro a; simp [Covered]
    rw [combineOut_cons]
    by_cases hc : stop = r.startAddress ∧ flags = r.flags &&& mask
    · -- the accumulator is extended
      rw [if_pos hc]
      have hinv : CombineInv mask new flags start r.endAddress rest :=
        ⟨by omega, h2, h3, h4, h5, h6, h7, h8, hr2, hrest_ne, hrest_above⟩
      obtain ⟨i1, i2, i3, i4, i5⟩ := ih flags start r.endAddress new hinv
      refine ⟨i1, i2, i3, i4, ?_⟩
      intro a
      rw [i5 a, hcov_cons a]
      have := hc.1
      constructor
      · rintro (h | h | h)
        · exact Or.inl h
        · by_cases hlt : a < stop
          · exact Or.inr (Or.inl ⟨h.1, hlt⟩)
          · exact Or.inr (Or.inr (Or.inl ⟨by omega, h.2⟩))
        · exact Or.inr (Or.inr (Or.inr h))
      · rintro (h | h | h | h)
        · exact Or.inl h
        · exact Or.inr (Or.inl ⟨h.1, by omega⟩)
        · exact Or.inr (Or.inl ⟨by omega, h.2⟩)
        · exact Or.inr (Or.inr h)
    · -- the accumulator is committed and restarted from the region
      rw [if_neg hc]
      have hfree : ∀ e ∈ new, e.lt (mkRegion flags start stop) = true ∨
          (mkRegion flags start stop).lt e = true := by
        intro e he
        left
        rw [lt_iff]
        have := h6 e he
        have := h4 e he
        simp only [mkRegion]
        omega
      have hmem := mem_setInsert_iff hfree
      have hinv : CombineInv mask (setInsert new (mkRegion flags start stop))
          (r.flags &&& mask) r.startAddress r.endAddress rest := by
        refine ⟨hrne, land_mask_idem _ _, setOrdered_setInsert h3 _, ?_, ?_, ?_, ?_, ?_,
          hr2, hrest_ne, hrest_above⟩
        · intro e he
          rcases (hmem e).mp he with rfl | he
          · exact h1
          · exact h4 e he
        · intro e he
          rcases (hmem e).mp he with rfl | he
          · exact h2
          · exact h5 e he
        · intro e he
          rcases (hmem e).mp he with rfl | he
          · exact hrb
          · have := h6 e he
            omega
        · intro x hx y hy
          rcases (hmem x).mp hx with rfl | hx <;> rcases (hmem y).mp hy with rfl | hy
          · simp only [Mergeable, mkRegion]; omega
          · have := h6 y hy
            have := h4 y hy
            simp only [Mergeable, mkRegion]; omega
          · intro hm
            apply h8 x hx
            simp only [Mergeable, mkRegion] at hm
            rw [h5 x hx, h2] at hm
            exact hm
          · exact h7 x hx y hy
        · intro e he
          rcases (hmem e).mp he with rfl | he
          · simp only [mkRegion]
            exact hc
          · have := h6 e he
            omega
      obtain ⟨i1, i2, i3, i4, i5⟩ := ih _ _ _ _ hinv
      refine ⟨i1, i2, i3, i4, ?_⟩
      intro a
      rw [i5 a, hcov_cons a, covered_setInsert hfree]
      simp only [mkRegion]
      tauto

/-- The function `CombineMemoryRegions` on a non-empty set of ordered,
non-empty entries returns a set, which is ordered, has non-empty entries with
masked flags, no two of which can be merged, and covers the same addresses. -/
theorem combineRegions_spec (mask : Nat) {s : RegionSet} (hne : s ≠ [])
    (hs : SetOrdered s) (hn : NonEmptyEntries s) :
    ∃ out, combineRegions mask s = some out ∧
      SetOrdered out ∧ NonEmptyEntries out ∧
      (∀ x ∈ out, x.flags &&& mask = x.flags) ∧
      (∀ x ∈ out, ∀ y ∈ out, ¬ Mergeable mask x y) ∧
      (∀ a, Covered out a ↔ Covered s a) := by
  cases s with
  | nil => exact absurd rfl hne
  | cons first rest =>
    obtain ⟨hr1, hr2⟩ := setOrdered_cons.mp hs
    have hinv : CombineInv mask [] (first.flags &&& mask) first.startAddress
        first.endAddress rest := by
      refine ⟨hn first (List.mem_cons_self _ _), land_mask_idem _ _, ?_, ?_, ?_, ?_, ?_, ?_,
        hr2, fun e he => hn e (List.mem_cons_of_mem _ he), ?_⟩
      · simp [SetOrdered]
      · intro e he; cases he
      · intro e he; cases he
      · intro e he; cases he
      · intro e he; cases he
      · intro e he; cases he
      · intro e he
        have := hr1 e he
        rw [lt_iff] at this
        exact this.2
    obtain ⟨i1, i2, i3, i4, i5⟩ := combineOut_spec mask rest _ _ _ _ hinv
    refine ⟨_, combineRegions_cons mask first rest, i1, i2, i3, i4, ?_⟩
    intro a
    rw [i5 a]
    simp [Covered]

/-- C7. Coalescing minimality: on every non-empty Memory Region Set of
non-empty entries ordered without collision (pairwise non-overlapping),
`CombineMemoryRegions` produces a set with no two entries A, B such that
`A.end == B.start` and the flags of A and B are equal on the permission
bits. -/
theorem combineMemoryRegions_minimal (pf : Platform) (ci : CrashInfo)
    (hne : ci.m_memoryRegions ≠ []) (hs : SetOrdered ci.m_memoryRegions)
    (hn : NonEmptyEntries ci.m_memoryRegions) :
    ∃ ci2, CombineMemoryRegions pf ci = some ci2 ∧
      ∀ A ∈ ci2.m_memoryRegions, ∀ B ∈ ci2.m_memoryRegions,
        ¬ (A.endAddress = B.startAddress ∧
          A.flags &&& pf.MEMORY_REGION_FLAG_PERMISSIONS_MASK =
            B.flags &&& pf.MEMORY_REGION_FLAG_PERMISSIONS_MASK) := by
  obtain ⟨out, h1, _, _, _, h5, _⟩ :=
    combineRegions_spec pf.MEMORY_REGION_FLAG_PERMISSIONS_MASK hne hs hn
  refine ⟨{ ci with m_memoryRegions := out }, ?_, ?_⟩
  · simp [CombineMemoryRegions, h1]
  · intro A hA B hB
    exact h5 A hA B hB

theorem combineMemoryRegions_minimal_witness :
    ∃ ci2, CombineMemoryRegions readablePlatform threePageState = some ci2 ∧
      ∀ A ∈ ci2.m_memoryRegions, ∀ B ∈ ci2.m_memoryRegions,
        ¬ (A.endAddress = B.startAddress ∧
          A.flags &&& readablePlatform.MEMORY_REGION_FLAG_PERMISSIONS_MASK =
            B.flags &&& readablePlatform.MEMORY_REGION_FLAG_PERMISSIONS_MASK) :=
  combineMemoryRegions_minimal readablePlatform threePageState (by decide) (by decide)
    (by decide)

/-- C8. Coalescing preserves coverage: on every non-empty Memory Region Set
of non-empty entries ordered without collision (pairwise non-overlapping), the
addresses covered by the entries after `CombineMemoryRegions` are exactly the
addresses covered before it, and the resulting entries are still ordered
without collision, so that no two of them share an address. -/
theorem combineMemoryRegions_preserves_coverage (pf : Platform) (ci : CrashInfo)
    (hne : ci.m_memoryRegions ≠ []) (hs : SetOrdered ci.m_memoryRegions)
    (hn : NonEmptyEntries ci.m_memoryRegions) :
    ∃ ci2, CombineMemoryRegions pf ci = some ci2 ∧
      (∀ a, Covered ci2.m_memoryRegions a ↔ Covered ci.m_memoryRegions a) ∧
      SetOrdered ci2.m_memoryRegions ∧
      ci2.m_memoryRegions.Pairwise (fun a b => ¬ RangesOverlap a b) := by
  obtain ⟨out, h1, h2, _, _, _, h6⟩ :=
    combineRegions_spec pf.MEMORY_REGION_FLAG_PERMISSIONS_MASK hne hs hn
  refine ⟨{ ci with m_memoryRegions := out }, ?_, h6, h2, setOrdered_no_overlap h2⟩
  simp [CombineMemoryRegions, h1]

theorem combineMemoryRegions_preserves_coverage_witness :
    ∃ ci2, CombineMemoryRegions readablePlatform threePageState = some ci2 ∧
      (∀ a, Covered ci2.m_memoryRegions a ↔ Covered threePageState.m_memoryRegions a) ∧
      SetOrdered ci2.m_memoryRegions ∧
      ci2.m_memoryRegions.Pairwise (fun a b => ¬ RangesOverlap a b) :=
  combineMemoryRegions_preserves_coverage readablePlatform threePageState (by decide)
    (by decide) (by decide)

/-! ## Module mapping resolution -/

theorem lt_asymm {a b : MemoryRegion} (h : a.lt b = true) : b.lt a = false := by
  rw [lt_iff] at h
  rw [lt_false_iff]
  omega

/-- Where `find` stops: the elements before the one found are below the key. -/
theorem setFind_some_split {s : RegionSet} {k e : MemoryRegion} (h : setFind s k = some e) :
    ∃ pre post, s = pre ++ e :: post ∧ (∀ x ∈ pre, x.lt k = true) ∧
      e.lt k = false ∧ k.lt e = false := by
  induction s with
  | nil => simp [setFind] at h
  | cons x rest ih =>
    unfold setFind at h
    by_cases h1 : x.lt k = true
    · simp only [h1, if_true] at h
      obtain ⟨pre, post, hp, hq, hr⟩ := ih h
      refine ⟨x :: pre, post, by simp [hp], ?_, hr⟩
      intro y hy
      rcases List.mem_cons.mp hy with rfl | hy
      · exact h1
      · exact hq y hy
    · by_cases h2 : k.lt x = true
      · simp [h1, h2] at h
      · simp only [h1, h2, if_false] at h
        cases h
        exact ⟨[], rest, rfl, by simp, by simpa using h1, by simpa using h2⟩

theorem setFind_at {pre post : RegionSet} {k e : MemoryRegion}
    (h1 : ∀ x ∈ pre, x.lt k = true) (h2 : e.lt k = false) (h3 : k.lt e = false) :
    setFind (pre ++ e :: post) k = some e := by
  induction pre with
  | nil => simp [setFind, h2, h3]
  | cons x pre ih =>
    have hx : x.lt k = true := h1 x (List.mem_cons_self _ _)
    simp only [List.cons_append, setFind, hx, if_true]
    exact ih (fun y hy => h1 y (List.mem_cons_of_mem _ hy))

theorem setInsert_between {pre post : RegionSet} {k : MemoryRegion}
    (h1 : ∀ x ∈ pre, x.lt k = true) (h2 : ∀ y ∈ post, k.lt y = true) :
    setInsert (pre ++ post) k = pre ++ k :: post := by
  induction pre with
  | nil =>
    cases post with
    | nil => rfl
    | cons y post =>
      simp [setInsert, h2 y (List.mem_cons_self _ _)]
  | cons x pre ih =>
    have hx : x.lt k = true := h1 x (List.mem_cons_self _ _)
    have ih2 := ih (fun y hy => h1 y (List.mem_cons_of_mem _ hy))
    rw [List.cons_append, List.cons_append]
    unfold setInsert
    rw [lt_asymm hx, hx, ih2]
    simp

/-- Where `insert` places a key that collides with nothing: after the
elements below it. -/
theorem setInsert_split_below {s : RegionSet} {k : MemoryRegion}
    (h : ∀ e ∈ s, e.lt k = true ∨ k.lt e = true) :
    ∃ pre post, s = pre ++ post ∧ setInsert s k = pre ++ k :: post ∧
      ∀ x ∈ pre, x.lt k = true := by
  induction s with
  | nil => exact ⟨[], [], rfl, rfl, by simp⟩
  | cons e rest ih =>
    unfold setInsert
    split_ifs with h1 h2
    · exact ⟨[], e :: rest, rfl, rfl, by simp⟩
    · obtain ⟨pre, post, hp, hq, hr⟩ := ih (fun x hx => h x (List.mem_cons_of_mem _ hx))
      refine ⟨e :: pre, post, by simp [hp], by simp [hq], ?_⟩
      intro y hy
      rcases List.mem_cons.mp hy with rfl | hy
      · exact h2
      · exact hr y hy
    · rcases h e (List.mem_cons_self _ _) with h3 | h3
      · exact absurd h3 h2
      · exact absurd h3 h1

/-- Replacing a stored entry by one with the same range but another name, as
the found branch of `AddOrReplaceModuleMapping` does (erase, then insert),
puts the renamed entry in the place of the old one. -/
theorem setInsert_setErase_rename {pre post : RegionSet} {e : MemoryRegion}
    (hs : SetOrdered (pre ++ e :: post)) (name : String) :
    setInsert (setErase (pre ++ e :: post) e) { e with fileName := name } =
      pre ++ { e with fileName := name } :: post := by
  unfold SetOrdered at hs
  rw [List.pairwise_append] at hs
  obtain ⟨_, h2, h3⟩ := hs
  rw [List.pairwise_cons] at h2
  have hbelow : ∀ x ∈ pre, x.lt e = true := fun x hx => h3 x hx e (List.mem_cons_self _ _)
  have hnot : e ∉ pre := by
    intro hm
    have := hbelow e hm
    rw [lt_irrefl] at this
    cases this
  have herase : setErase (pre ++ e :: post) e = pre ++ post := by
    unfold setErase
    rw [List.erase_append_right _ hnot, List.erase_cons_head]
  rw [herase]
  apply setInsert_between
  · intro x hx
    have := hbelow x hx
    rw [lt_iff] at this ⊢
    exact this
  · intro y hy
    have := h2.1 y hy
    rw [lt_iff] at this ⊢
    exact this

theorem setOrdered_rename {pre post : RegionSet} {e : MemoryRegion}
    (hs : SetOrdered (pre ++ e :: post)) (name : String) :
    SetOrdered (pre ++ { e with fileName := name } :: post) := by
  unfold SetOrdered at hs ⊢
  rw [List.pairwise_append] at hs ⊢
  obtain ⟨h1, h2, h3⟩ := hs
  rw [List.pairwise_cons] at h2 ⊢
  refine ⟨h1, ⟨?_, h2.2⟩, ?_⟩
  · intro y hy
    have := h2.1 y hy
    rw [lt_iff] at this ⊢
    exact this
  · intro x hx y hy
    rcases List.mem_cons.mp hy with rfl | hy
    · have := h3 x hx e (List.mem_cons_self _ _)
      rw [lt_iff] at this ⊢
      exact this
    · exact h3 x hx y (List.mem_cons_of_mem _ hy)

theorem insertMemoryRegion_moduleMappings (pf : Platform) (ci : CrashInfo) (r : MemoryRegion) :
    (InsertMemoryRegion pf ci r).2.m_moduleMappings = ci.m_moduleMappings := rfl

/-- The Module Mapping Table after `AddOrReplaceModuleMapping`, by what the
lookup of the header page in the table gives. -/
theorem addOrReplaceModuleMapping_moduleMappings (pf : Platform) (ci : CrashInfo)
    (baseAddress size : Nat) (name : String) :
    (AddOrReplaceModuleMapping pf ci baseAddress size name).m_moduleMappings =
      match setFind ci.m_moduleMappings (headerPage pf 0 baseAddress) with
      | none => setInsert ci.m_moduleMappings
          (moduleRange pf (pf.GetMemoryRegionFlags ci baseAddress) baseAddress size name)
      | some found =>
        if found.fileName ≠ name then
          setInsert (setErase ci.m_moduleMappings found) { found with fileName := name }
        else ci.m_moduleMappings := by
  have hc : setFind ci.m_moduleMappings
      (mkRegion (pf.GetMemoryRegionFlags ci baseAddress) (pageFloor pf baseAddress)
        ((pageFloor pf baseAddress + pf.PAGE_SIZE) % U64)) =
      setFind ci.m_moduleMappings (headerPage pf 0 baseAddress) :=
    setFind_congr _ rfl rfl
  unfold AddOrReplaceModuleMapping
  simp only [insertMemoryRegion_moduleMappings, hc]
  cases setFind ci.m_moduleMappings (headerPage pf 0 baseAddress) with
  | none => rfl
  | some found =>
    by_cases hn : found.fileName = name
    · simp [hn, insertMemoryRegion_moduleMappings]
    · simp [hn, insertMemoryRegion_moduleMappings]

/-- The found case: the entry at the header page is renamed in place. -/
theorem addOrReplaceModuleMapping_found (pf : Platform) (ci : CrashInfo)
    (baseAddress size : Nat) (name : String) {pre post : RegionSet} {e : MemoryRegion}
    (hs : SetOrdered ci.m_moduleMappings) (hsplit : ci.m_moduleMappings = pre ++ e :: post)
    (hfind : setFind ci.m_moduleMappings (headerPage pf 0 baseAddress) = some e) :
    (AddOrReplaceModuleMapping pf ci baseAddress size name).m_moduleMappings =
      pre ++ { e with fileName := name } :: post := by
  rw [addOrReplaceModuleMapping_moduleMappings, hfind]
  simp only
  by_cases hn : e.fileName = name
  · simp only [hn, ne_eq, not_true_eq_false, if_false]
    rw [hsplit, ← hn]
  · simp only [hn, ne_eq, not_false_eq_true, if_true]
    rw [hsplit] at hs ⊢
    exact setInsert_setErase_rename hs name

theorem not_collides_iff (e k : MemoryRegion) :
    ¬ e.Collides k ↔ e.lt k = true ∨ k.lt e = true := by
  unfold MemoryRegion.Collides
  cases e.lt k <;> cases k.lt e <;> simp

/-- C9 (as stated, refuted). The table holds the mapping `[0x5000, 0x9000)`
named `/dev/zero`; the module at base `0x5000` of size `0x800` is registered
as `A`, then as `B`. The page-rounded range of the module is
`[0x5000, 0x6000)`, but the table ends with the single entry
`[0x5000, 0x9000)` named `B`: the found entry keeps its own range and no entry
spans the page-rounded range. -/
theorem mapping_resolution_keeps_found_range :
    SetOrdered devZeroState.m_moduleMappings ∧
    pageFloor readablePlatform 0x5000 = 0x5000 ∧
    pageFloor readablePlatform ((0x5000 + 0x800 + (readablePlatform.PAGE_SIZE - 1)) % U64)
      = 0x6000 ∧
    (AddOrReplaceModuleMapping readablePlatform
      (AddOrReplaceModuleMapping readablePlatform devZeroState 0x5000 0x800 "A")
      0x5000 0x800 "B").m_moduleMappings =
      [{ flags := 5, startAddress := 0x5000, endAddress := 0x9000, fileName := "B" }] := by
  decide

/-- C9 (amended). Mapping resolution: on every Module Mapping Table ordered
without collision, for every base address, size and names A, B, after
`AddOrReplaceModuleMapping(base, size, A)` followed by
`AddOrReplaceModuleMapping(base, size, B)`:
* when the lookup of the header page finds an entry E in the table, the table
  is as before except that E, with its own flags, range and offset, carries
  the name B;
* when no entry collides with the header page or with the page-rounded range
  `[base rounded down, base+size rounded up)`, the table is as before with
  exactly one entry added, spanning that range and named B. -/
theorem addOrReplaceModuleMapping_twice (pf : Platform) (ci : CrashInfo)
    (baseAddress size : Nat) (A B : String) (hs : SetOrdered ci.m_moduleMappings) :
    (∀ E, setFind ci.m_moduleMappings (headerPage pf 0 baseAddress) = some E →
      ∃ pre post, ci.m_moduleMappings = pre ++ E :: post ∧
        (AddOrReplaceModuleMapping pf (AddOrReplaceModuleMapping pf ci baseAddress size A)
          baseAddress size B).m_moduleMappings = pre ++ { E with fileName := B } :: post) ∧
    ((∀ e ∈ ci.m_moduleMappings, ¬ e.Collides (headerPage pf 0 baseAddress)) →
      (∀ e ∈ ci.m_moduleMappings, ¬ e.Collides (moduleRange pf 0 baseAddress size "")) →
      ∃ pre post, ci.m_moduleMappings = pre ++ post ∧
        (AddOrReplaceModuleMapping pf (AddOrReplaceModuleMapping pf ci baseAddress size A)
          baseAddress size B).m_moduleMappings =
          pre ++ moduleRange pf (pf.GetMemoryRegionFlags ci baseAddress) baseAddress size B
            :: post) := by
  constructor
  · intro E hfind
    obtain ⟨pre, post, hsplit, hpre, hE1, hE2⟩ := setFind_some_split hfind
    refine ⟨pre, post, hsplit, ?_⟩
    have hfirst := addOrReplaceModuleMapping_found pf ci baseAddress size A hs hsplit hfind
    have hord : SetOrdered (AddOrReplaceModuleMapping pf ci baseAddress size A).m_moduleMappings := by
      rw [hfirst]
      rw [hsplit] at hs
      exact setOrdered_rename hs A
    have hfind2 : setFind (AddOrReplaceModuleMapping pf ci baseAddress size A).m_moduleMappings
        (headerPage pf 0 baseAddress) = some { E with fileName := A } := by
      rw [hfirst]
      apply setFind_at hpre
      · rw [lt_false_iff] at hE1 ⊢
        exact hE1
      · rw [lt_false_iff] at hE2 ⊢
        exact hE2
    exact @addOrReplaceModuleMapping_found pf _ baseAddress size B pre post
      { E with fileName := A } hord hfirst hfind2
  · intro hfreeH hfreeR
    have hnone : setFind ci.m_moduleMappings (headerPage pf 0 baseAddress) = none :=
      setFind_none_of_free (fun e he => (not_collides_iff _ _).mp (hfreeH e he))
    have hfree : ∀ e ∈ ci.m_moduleMappings,
        e.lt (moduleRange pf (pf.GetMemoryRegionFlags ci baseAddress) baseAddress size A) = true ∨
        (moduleRange pf (pf.GetMemoryRegionFlags ci baseAddress) baseAddress size A).lt e
          = true := by
      intro e he
      have := (not_collides_iff _ _).mp (hfreeR e he)
      simp only [lt_iff, moduleRange] at this ⊢
      exact this
    obtain ⟨pre, post, hsplit, hins, hpre⟩ := setInsert_split_below hfree
    refine ⟨pre, post, hsplit, ?_⟩
    have hfirst : (AddOrReplaceModuleMapping pf ci baseAddress size A).m_moduleMappings =
        pre ++ moduleRange pf (pf.GetMemoryRegionFlags ci baseAddress) baseAddress size A
          :: post := by
      rw [addOrReplaceModuleMapping_moduleMappings, hnone]
      exact hins
    have hord : SetOrdered (AddOrReplaceModuleMapping pf ci baseAddress size A).m_moduleMappings := by
      rw [hfirst, ← hins]
      exact setOrdered_setInsert hs _
    have hfind2 : setFind (AddOrReplaceModuleMapping pf ci baseAddress size A).m_moduleMappings
        (headerPage pf 0 baseAddress) =
        some (moduleRange pf (pf.GetMemoryRegionFlags ci baseAddress) baseAddress size A) := by
      rw [hfirst]
      apply setFind_at
      · intro x hx
        have := hpre x hx
        simp only [lt_iff, moduleRange, headerPage, mkRegion] at this ⊢
        exact this
      · rw [lt_false_iff]
        simp only [moduleRange, headerPage, mkRegion]
        omega
      · rw [lt_false_iff]
        simp only [moduleRange, headerPage, mkRegion]
        omega
    exact @addOrReplaceModuleMapping_found pf _ baseAddress size B pre post
      (moduleRange pf (pf.GetMemoryRegionFlags ci baseAddress) baseAddress size A)
      hord hfirst hfind2

theorem addOrReplaceModuleMapping_twice_witness :
    (∃ pre post, devZeroState.m_moduleMappings =
        pre ++ ({ flags := 5, startAddress := 0x5000, endAddress := 0x9000,
                  fileName := "/dev/zero" } : MemoryRegion) :: post ∧
      (AddOrReplaceModuleMapping readablePlatform
        (AddOrReplaceModuleMapping readablePlatform devZeroState 0x5000 0x800 "A")
        0x5000 0x800 "B").m_moduleMappings =
        pre ++ ({ flags := 5, startAddress := 0x5000, endAddress := 0x9000,
                  fileName := "B" } : MemoryRegion) :: post) ∧
    (∃ pre post, emptyState.m_moduleMappings = pre ++ post ∧
      (AddOrReplaceModuleMapping readablePlatform
        (AddOrReplaceModuleMapping readablePlatform emptyState 0x5000 0x800 "A")
        0x5000 0x800 "B").m_moduleMappings =
        pre ++ moduleRange readablePlatform
          (readablePlatform.GetMemoryRegionFlags emptyState 0x5000) 0x5000 0x800 "B" :: post) :=
  ⟨(addOrReplaceModuleMapping_twice readablePlatform devZeroState 0x5000 0x800 "A" "B"
      (by decide)).1 _ (by decide),
   (addOrReplaceModuleMapping_twice readablePlatform emptyState 0x5000 0x800 "A" "B"
      (by decide)).2 (by decide) (by decide)⟩

/-! ## Header page retention -/

theorem pageSet_insertRegion (pf : Platform) (hP : 0 < pf.PAGE_SIZE) {s : RegionSet}
    (hs : PageSet pf s) {r : MemoryRegion} (hr : WellFormed pf r)
    (hne : r.startAddress < r.endAddress) : PageSet pf (insertRegion pf s r).2 := by
  have hloop := (insertPages_spec pf hP r.flags (r.SizeInPages pf.PAGE_SIZE) r.startAddress s 0
    hs hr.1 (by rw [pages_tile hr]; exact hr.2.2.2)).1
  unfold insertRegion
  simp only
  split
  · split
    · refine ⟨setOrdered_setInsert hs.1 _, ?_, ?_⟩
      · intro e he
        rcases mem_setInsert he with rfl | he
        · exact ⟨hr.1, hr.2.1⟩
        · exact hs.2.1 e he
      · intro e he
        rcases mem_setInsert he with rfl | he
        · exact hne
        · exact hs.2.2 e he
    · exact hloop
  · split
    · exact hs
    · exact hloop

theorem modulesOrdered_cons {m : ModuleInfo} {l : List ModuleInfo} :
    ModulesOrdered (m :: l) ↔ (∀ x ∈ l, m.baseAddress < x.baseAddress) ∧ ModulesOrdered l := by
  simp [ModulesOrdered, List.pairwise_cons]

theorem moduleFind_some {l : List ModuleInfo} {b : Nat} {m : ModuleInfo}
    (h : moduleFind l b = some m) : m ∈ l ∧ m.baseAddress = b := by
  induction l with
  | nil => simp [moduleFind] at h
  | cons x rest ih =>
    unfold moduleFind at h
    split_ifs at h with h1 h2
    · exact ⟨List.mem_cons_of_mem _ (ih h).1, (ih h).2⟩
    · cases h
      exact ⟨List.mem_cons_self _ _, by omega⟩

theorem moduleFind_of_mem {l : List ModuleInfo} (hl : ModulesOrdered l) {m : ModuleInfo}
    (hm : m ∈ l) : moduleFind l m.baseAddress = some m := by
  induction l with
  | nil => cases hm
  | cons x rest ih =>
    obtain ⟨hx, hr⟩ := modulesOrdered_cons.mp hl
    unfold moduleFind
    rcases List.mem_cons.mp hm with rfl | hm
    · simp
    · rw [if_pos (hx m hm)]
      exact ih hr hm

theorem moduleFind_none_of_absent {l : List ModuleInfo} {b : Nat}
    (h : ∀ m ∈ l, m.baseAddress ≠ b) : moduleFind l b = none := by
  cases hf : moduleFind l b with
  | none => rfl
  | some m => exact absurd (moduleFind_some hf).2 (h m (moduleFind_some hf).1)

theorem mem_moduleInsert {l : List ModuleInfo} {k x : ModuleInfo} (h : x ∈ moduleInsert l k) :
    x = k ∨ x ∈ l := by
  induction l with
  | nil => simpa [moduleInsert] using h
  | cons m rest ih =>
    unfold moduleInsert at h
    split_ifs at h with h1 h2
    · simpa using h
    · rcases List.mem_cons.mp h with rfl | h
      · exact Or.inr (List.mem_cons_self _ _)
      · rcases ih h with h | h
        · exact Or.inl h
        · exact Or.inr (List.mem_cons_of_mem _ h)
    · exact Or.inr h

theorem subset_moduleInsert {l : List ModuleInfo} {k x : ModuleInfo} (h : x ∈ l) :
    x ∈ moduleInsert l k := by
  induction l with
  | nil => cases h
  | cons m rest ih =>
    unfold moduleInsert
    split_ifs with h1 h2
    · exact List.mem_cons_of_mem _ h
    · rcases List.mem_cons.mp h with rfl | h
      · exact List.mem_cons_self _ _
      · exact List.mem_cons_of_mem _ (ih h)
    · exact h

theorem mem_moduleInsert_self {l : List ModuleInfo} {k : ModuleInfo}
    (h : ∀ m ∈ l, m.baseAddress ≠ k.baseAddress) : k ∈ moduleInsert l k := by
  induction l with
  | nil => simp [moduleInsert]
  | cons m rest ih =>
    unfold moduleInsert
    split_ifs with h1 h2
    · exact List.mem_cons_self _ _
    · exact List.mem_cons_of_mem _ (ih (fun x hx => h x (List.mem_cons_of_mem _ hx)))
    · exact absurd (by omega) (h m (List.mem_cons_self _ _))

theorem modulesOrdered_moduleInsert {l : List ModuleInfo} (hl : ModulesOrdered l)
    (k : ModuleInfo) : ModulesOrdered (moduleInsert l k) := by
  induction l with
  | nil => simp [moduleInsert, ModulesOrdered]
  | cons m rest ih =>
    obtain ⟨hx, hr⟩ := modulesOrdered_cons.mp hl
    unfold moduleInsert
    split_ifs with h1 h2
    · refine modulesOrdered_cons.mpr ⟨?_, hl⟩
      intro x hx2
      rcases List.mem_cons.mp hx2 with rfl | hx2
      · exact h1
      · exact Nat.lt_trans h1 (hx x hx2)
    · refine modulesOrdered_cons.mpr ⟨?_, ih hr⟩
      intro x hx2
      rcases mem_moduleInsert hx2 with rfl | hx2
      · exact h2
      · exact hx x hx2
    · exact hl

/-- The function `InsertMemoryRegion(address, size)` changes the Memory
Region Set only. -/
theorem insertMemoryRegionBytes_frame (pf : Platform) (ci : CrashInfo) (address size : Nat) :
    (InsertMemoryRegionBytes pf ci address size).2 =
      { ci with m_memoryRegions :=
          (InsertMemoryRegionBytes pf ci address size).2.m_memoryRegions } := rfl

theorem readMemory_frame {α : Type} (pf : Platform) (ci : CrashInfo) (address size : Nat)
    (data : Option α) :
    (ReadMemory pf ci address size data).1 = data ∧
    (ReadMemory pf ci address size data).2 =
      { ci with m_memoryRegions :=
          (ReadMemory pf ci address size data).2.m_memoryRegions } := by
  cases data <;> exact ⟨rfl, rfl⟩

/-- The header reads of `AddModuleInfo` change the Memory Region Set only. -/
theorem readImageHeader_frame (pf : Platform) (k : Constants) (img : ImageReader)
    (ci : CrashInfo) (baseAddress : Nat) :
    (readImageHeader pf k img ci baseAddress).2 =
      { ci with m_memoryRegions :=
          (readImageHeader pf k img ci baseAddress).2.m_memoryRegions } := by
  unfold readImageHeader
  cases img.dosHeader baseAddress with
  | none => rfl
  | some l =>
    simp only [ReadMemory]
    cases img.magic ((baseAddress + l + k.offsetofOptionalHeaderMagic) % U64) with
    | none => rfl
    | some m =>
      simp only
      split_ifs
      · cases img.ntHeaders32 ((baseAddress + l) % U64) <;> rfl
      · cases img.ntHeaders64 ((baseAddress + l) % U64) <;> rfl
      · rfl

/-- The `(timeStamp, imageSize)` that the header reads of `AddModuleInfo`
give are the fields of the image header. -/
theorem readImageHeader_fields (pf : Platform) (k : Constants) (img : ImageReader)
    (ci : CrashInfo) (baseAddress : Nat) :
    (readImageHeader pf k img ci baseAddress).1 = headerFields k img baseAddress := by
  unfold readImageHeader headerFields
  cases img.dosHeader baseAddress with
  | none => rfl
  | some l =>
    simp only [ReadMemory]
    cases img.magic ((baseAddress + l + k.offsetofOptionalHeaderMagic) % U64) with
    | none => rfl
    | some m =>
      simp only
      split_ifs
      · cases img.ntHeaders32 ((baseAddress + l) % U64) <;> rfl
      · cases img.ntHeaders64 ((baseAddress + l) % U64) <;> rfl
      · rfl

/-- C11. Registry idempotence: when the Module Registry (ordered by base
address, as the `std::set` keeps it) already holds a module with base
address `b`, `AddModuleInfo(isManaged, b, handle, name)` with any metadata
leaves the whole state unchanged: the entry for `b` keeps the values of its
first registration, no second entry for `b` is created, and the main-module
reference is unchanged. -/
theorem addModuleInfo_registered (pf : Platform) (k : Constants) (img : ImageReader)
    (ci : CrashInfo) (isManaged : Bool) (b : Nat) (pClrDataModule : Option DataModule)
    (moduleName : String) (hord : ModulesOrdered ci.m_moduleInfos)
    (hreg : ∃ m ∈ ci.m_moduleInfos, m.baseAddress = b) :
    AddModuleInfo pf k img ci isManaged b pClrDataModule moduleName = ci := by
  obtain ⟨m, hm, rfl⟩ := hreg
  unfold AddModuleInfo
  rw [moduleFind_of_mem hord hm]

theorem addModuleInfo_registered_witness :
    AddModuleInfo readablePlatform palConstants pe64Reader
      (addModuleInfos readablePlatform palConstants pe64Reader emptyState
        [⟨true, 0x10000, some mainHandle, "app.dll"⟩])
      false 0x10000 (some plainHandle) "again.dll" =
    addModuleInfos readablePlatform palConstants pe64Reader emptyState
      [⟨true, 0x10000, some mainHandle, "app.dll"⟩] :=
  addModuleInfo_registered readablePlatform palConstants pe64Reader _ false 0x10000
    (some plainHandle) "again.dll" (by decide) (by decide)

/-- What `AddModuleInfo` does for a base address that is not registered: the
new entry is inserted in the registry, and it becomes the main module exactly
when the call carries the main flag. -/
theorem addModuleInfo_new (pf : Platform) (k : Constants) (img : ImageReader)
    (ci : CrashInfo) (c : ModuleCall)
    (hnew : ∀ m ∈ ci.m_moduleInfos, m.baseAddress ≠ c.baseAddress) :
    (AddModuleInfo pf k img ci c.isManaged c.baseAddress c.pClrDataModule
        c.moduleName).m_moduleInfos = moduleInsert ci.m_moduleInfos (newModuleInfo k img c) ∧
    (AddModuleInfo pf k img ci c.isManaged c.baseAddress c.pClrDataModule
        c.moduleName).m_mainModule =
      (if carriesMain k c then some (newModuleInfo k img c) else ci.m_mainModule) := by
  have hfields := readImageHeader_fields pf k img ci c.baseAddress
  have hframe := readImageHeader_frame pf k img ci c.baseAddress
  have h1 : (readImageHeader pf k img ci c.baseAddress).2.m_moduleInfos = ci.m_moduleInfos := by
    rw [hframe]
  have h2 : (readImageHeader pf k img ci c.baseAddress).2.m_mainModule = ci.m_mainModule := by
    rw [hframe]
  unfold AddModuleInfo
  rw [moduleFind_none_of_absent hnew]
  unfold newModuleInfo carriesMain
  cases hm : c.isManaged
  · simp
  · simp only [if_true, hfields, h1, h2]
    cases c.pClrDataModule <;> simp

theorem addModuleInfo_modulesOrdered (pf : Platform) (k : Constants) (img : ImageReader)
    (ci : CrashInfo) (c : ModuleCall) (hord : ModulesOrdered ci.m_moduleInfos) :
    ModulesOrdered (AddModuleInfo pf k img ci c.isManaged c.baseAddress c.pClrDataModule
      c.moduleName).m_moduleInfos := by
  by_cases hreg : ∃ m ∈ ci.m_moduleInfos, m.baseAddress = c.baseAddress
  · rw [addModuleInfo_registered pf k img ci _ _ _ _ hord hreg]
    exact hord
  · have hnew : ∀ m ∈ ci.m_moduleInfos, m.baseAddress ≠ c.baseAddress :=
      fun m hm he => hreg ⟨m, hm, he⟩
    rw [(addModuleInfo_new pf k img ci c hnew).1]
    exact modulesOrdered_moduleInsert hord _

theorem addModuleInfos_nil (pf : Platform) (k : Constants) (img : ImageReader)
    (ci : CrashInfo) : addModuleInfos pf k img ci [] = ci := rfl

theorem addModuleInfos_cons (pf : Platform) (k : Constants) (img : ImageReader)
    (ci : CrashInfo) (c : ModuleCall) (rest : List ModuleCall) :
    addModuleInfos pf k img ci (c :: rest) =
      addModuleInfos pf k img
        (AddModuleInfo pf k img ci c.isManaged c.baseAddress c.pClrDataModule c.moduleName)
        rest := rfl

theorem addModuleInfos_append (pf : Platform) (k : Constants) (img : ImageReader)
    (ci : CrashInfo) (l1 l2 : List ModuleCall) :
    addModuleInfos pf k img ci (l1 ++ l2) =
      addModuleInfos pf k img (addModuleInfos pf k img ci l1) l2 := by
  unfold addModuleInfos
  rw [List.foldl_append]

theorem addModuleInfos_modulesOrdered (pf : Platform) (k : Constants) (img : ImageReader)
    (calls : List ModuleCall) :
    ∀ ci : CrashInfo, ModulesOrdered ci.m_moduleInfos →
      ModulesOrdered (addModuleInfos pf k img ci calls).m_moduleInfos := by
  induction calls with
  | nil => intro ci h; exact h
  | cons c rest ih =>
    intro ci h
    rw [addModuleInfos_cons]
    exact ih _ (addModuleInfo_modulesOrdered pf k img ci c h)

/-- One call of `AddModuleInfo` changes the main-module reference only when
it carries the main flag for a base address that is not registered. -/
theorem addModuleInfo_main_unchanged (pf : Platform) (k : Constants) (img : ImageReader)
    (ci : CrashInfo) (c : ModuleCall) (hord : ModulesOrdered ci.m_moduleInfos)
    (h : carriesMain k c = false ∨ ∃ m ∈ ci.m_moduleInfos, m.baseAddress = c.baseAddress) :
    (AddModuleInfo pf k img ci c.isManaged c.baseAddress c.pClrDataModule
      c.moduleName).m_mainModule = ci.m_mainModule := by
  by_cases hreg : ∃ m ∈ ci.m_moduleInfos, m.baseAddress = c.baseAddress
  · rw [addModuleInfo_registered pf k img ci _ _ _ _ hord hreg]
  · have hnew : ∀ m ∈ ci.m_moduleInfos, m.baseAddress ≠ c.baseAddress :=
      fun m hm he => hreg ⟨m, hm, he⟩
    rcases h with h | h
    · rw [(addModuleInfo_new pf k img ci c hnew).2, h]
      simp
    · exact absurd h hreg

/-- A registered base address stays registered. -/
theorem addModuleInfo_keeps_registered (pf : Platform) (k : Constants) (img : ImageReader)
    (ci : CrashInfo) (c : ModuleCall) (hord : ModulesOrdered ci.m_moduleInfos)
    {m : ModuleInfo} (hm : m ∈ ci.m_moduleInfos) :
    m ∈ (AddModuleInfo pf k img ci c.isManaged c.baseAddress c.pClrDataModule
      c.moduleName).m_moduleInfos := by
  by_cases hreg : ∃ x ∈ ci.m_moduleInfos, x.baseAddress = c.baseAddress
  · rw [addModuleInfo_registered pf k img ci _ _ _ _ hord hreg]
    exact hm
  · have hnew : ∀ x ∈ ci.m_moduleInfos, x.baseAddress ≠ c.baseAddress :=
      fun x hx he => hreg ⟨x, hx, he⟩
    rw [(addModuleInfo_new pf k img ci c hnew).1]
    exact subset_moduleInsert hm

/-- Calls that do not carry the main flag for a new base address leave the
main-module reference and the registered entries as they are. -/
theorem addModuleInfos_main_kept (pf : Platform) (k : Constants) (img : ImageReader)
    (calls : List ModuleCall) :
    ∀ ci : CrashInfo, ModulesOrdered ci.m_moduleInfos →
      (∀ q ∈ calls, carriesMain k q = false ∨
        ∃ m ∈ ci.m_moduleInfos, m.baseAddress = q.baseAddress) →
      (addModuleInfos pf k img ci calls).m_mainModule = ci.m_mainModule ∧
      ∀ m ∈ ci.m_moduleInfos, m ∈ (addModuleInfos pf k img ci calls).m_moduleInfos := by
  induction calls with
  | nil => intro ci _ _; exact ⟨rfl, fun m hm => hm⟩
  | cons c rest ih =>
    intro ci hord h
    rw [addModuleInfos_cons]
    have hstep := addModuleInfo_main_unchanged pf k img ci c hord
      (h c (List.mem_cons_self _ _))
    have hkeep : ∀ m ∈ ci.m_moduleInfos,
        m ∈ (AddModuleInfo pf k img ci c.isManaged c.baseAddress c.pClrDataModule
          c.moduleName).m_moduleInfos :=
      fun m hm => addModuleInfo_keeps_registered pf k img ci c hord hm
    obtain ⟨i1, i2⟩ := ih _ (addModuleInfo_modulesOrdered pf k img ci c hord) (by
      intro q hq
      rcases h q (List.mem_cons_of_mem _ hq) with h1 | ⟨m, hm, he⟩
      · exact Or.inl h1
      · exact Or.inr ⟨m, hkeep m hm, he⟩)
    exact ⟨by rw [i1, hstep], fun m hm => i2 m (hkeep m hm)⟩

/-- C12 (as stated, refuted). Two modules are registered in a fresh state,
both flagged as main module by the provider: `app.dll` at `0x10000`, then
`other.dll` at `0x20000`. The main-module reference ends at `other.dll`, the
last of them, not at the first. -/
theorem main_module_is_last_flagged :
    carriesMain palConstants ⟨true, 0x10000, some mainHandle, "app.dll"⟩ = true ∧
    carriesMain palConstants ⟨true, 0x20000, some mainHandle, "other.dll"⟩ = true ∧
    (addModuleInfos readablePlatform palConstants pe64Reader emptyState
      [⟨true, 0x10000, some mainHandle, "app.dll"⟩]).m_mainModule =
      some { isManaged := true, baseAddress := 0x10000, timeStamp := 0x5eadbeef,
             imageSize := 0x4000, versionId := 77, moduleName := "app.dll" } ∧
    (addModuleInfos readablePlatform palConstants pe64Reader emptyState
      [⟨true, 0x10000, some mainHandle, "app.dll"⟩,
       ⟨true, 0x20000, some mainHandle, "other.dll"⟩]).m_mainModule =
      some { isManaged := true, baseAddress := 0x20000, timeStamp := 0,
             imageSize := 0, versionId := 77, moduleName := "other.dll" } := by
  decide

/-- A registered entry stays registered through any sequence of calls. -/
theorem addModuleInfos_keeps_registered (pf : Platform) (k : Constants) (img : ImageReader)
    (calls : List ModuleCall) :
    ∀ ci : CrashInfo, ModulesOrdered ci.m_moduleInfos →
      ∀ m ∈ ci.m_moduleInfos, m ∈ (addModuleInfos pf k img ci calls).m_moduleInfos := by
  induction calls with
  | nil => intro ci _ m hm; exact hm
  | cons c rest ih =>
    intro ci hord m hm
    rw [addModuleInfos_cons]
    exact ih _ (addModuleInfo_modulesOrdered pf k img ci c hord) m
      (addModuleInfo_keeps_registered pf k img ci c hord hm)

/-- Calls each of which, when it carries the main flag, is for a base address
registered by the time it is made leave the main-module reference as it
is. -/
theorem addModuleInfos_main_kept_at (pf : Platform) (k : Constants) (img : ImageReader)
    (calls : List ModuleCall) :
    ∀ ci : CrashInfo, ModulesOrdered ci.m_moduleInfos →
      (∀ p1 q p2, calls = p1 ++ q :: p2 → carriesMain k q = true →
        ∃ m ∈ (addModuleInfos pf k img ci p1).m_moduleInfos,
          m.baseAddress = q.baseAddress) →
      (addModuleInfos pf k img ci calls).m_mainModule = ci.m_mainModule := by
  induction calls with
  | nil => intro ci _ _; rfl
  | cons c rest ih =>
    intro ci hord h
    rw [addModuleInfos_cons]
    have hstep : (AddModuleInfo pf k img ci c.isManaged c.baseAddress c.pClrDataModule
        c.moduleName).m_mainModule = ci.m_mainModule := by
      apply addModuleInfo_main_unchanged pf k img ci c hord
      by_cases hc : carriesMain k c = true
      · exact Or.inr (h [] c rest rfl hc)
      · exact Or.inl (by simpa using hc)
    rw [ih _ (addModuleInfo_modulesOrdered pf k img ci c hord) (by
      intro p1 q p2 hsplit hq
      have := h (c :: p1) q p2 (by rw [hsplit]; rfl) hq
      rw [addModuleInfos_cons] at this
      exact this), hstep]

/-- C12 (amended). The main module is fixed by the last main-flagged
registration of a new module: after any sequence of `AddModuleInfo` calls on
a state whose registry is ordered by base address,
* the main-module reference is what it was before the sequence (unset, for a
  fresh state) when every call that carries the main flag (a managed module
  with a provider handle whose flags have the main-module bit) is for a base
  address registered before that call, in particular when no call carries the
  flag;
* when a call of the sequence carries the main flag for a base address not
  registered before it, and every later call that carries the main flag is
  for a base address registered before that later call, the main-module
  reference designates the entry that this call registered: it is set when
  the module is registered and is not changed by the later calls. -/
theorem addModuleInfos_main (pf : Platform) (k : Constants) (img : ImageReader)
    (ci : CrashInfo) (calls : List ModuleCall) (hord : ModulesOrdered ci.m_moduleInfos) :
    ((∀ pre c post, calls = pre ++ c :: post → carriesMain k c = true →
        ∃ m ∈ (addModuleInfos pf k img ci pre).m_moduleInfos,
          m.baseAddress = c.baseAddress) →
      (addModuleInfos pf k img ci calls).m_mainModule = ci.m_mainModule) ∧
    (∀ pre c post, calls = pre ++ c :: post → carriesMain k c = true →
      (∀ m ∈ (addModuleInfos pf k img ci pre).m_moduleInfos,
        m.baseAddress ≠ c.baseAddress) →
      (∀ p1 q p2, post = p1 ++ q :: p2 → carriesMain k q = true →
        ∃ m ∈ (addModuleInfos pf k img ci (pre ++ c :: p1)).m_moduleInfos,
          m.baseAddress = q.baseAddress) →
      (addModuleInfos pf k img ci (pre ++ [c])).m_mainModule = some (newModuleInfo k img c) ∧
      (addModuleInfos pf k img ci calls).m_mainModule = some (newModuleInfo k img c) ∧
      newModuleInfo k img c ∈ (addModuleInfos pf k img ci calls).m_moduleInfos) := by
  constructor
  · intro h
    exact addModuleInfos_main_kept_at pf k img calls ci hord h
  · intro pre c post hcalls hmain hnew hpost
    have hstep := addModuleInfo_new pf k img (addModuleInfos pf k img ci pre) c hnew
    have hafter : addModuleInfos pf k img ci (pre ++ [c]) =
        AddModuleInfo pf k img (addModuleInfos pf k img ci pre) c.isManaged c.baseAddress
          c.pClrDataModule c.moduleName := by
      rw [addModuleInfos_append]; rfl
    have hmainAfter : (addModuleInfos pf k img ci (pre ++ [c])).m_mainModule =
        some (newModuleInfo k img c) := by
      rw [hafter, hstep.2, hmain]; simp
    have hmemAfter : newModuleInfo k img c ∈
        (addModuleInfos pf k img ci (pre ++ [c])).m_moduleInfos := by
      rw [hafter, hstep.1]
      exact mem_moduleInsert_self hnew
    have hordAfter : ModulesOrdered (addModuleInfos pf k img ci (pre ++ [c])).m_moduleInfos :=
      addModuleInfos_modulesOrdered pf k img (pre ++ [c]) ci hord
    have hsplit : calls = (pre ++ [c]) ++ post := by rw [hcalls]; simp
    have hkept := addModuleInfos_main_kept_at pf k img post
      (addModuleInfos pf k img ci (pre ++ [c])) hordAfter (by
        intro p1 q p2 hp hq
        have := hpost p1 q p2 hp hq
        have he : pre ++ c :: p1 = (pre ++ [c]) ++ p1 := by simp
        rw [he, addModuleInfos_append] at this
        exact this)
    refine ⟨hmainAfter, ?_, ?_⟩
    · rw [hsplit, addModuleInfos_append, hkept, hmainAfter]
    · rw [hsplit, addModuleInfos_append]
      exact addModuleInfos_keeps_registered pf k img post _ hordAfter _ hmemAfter

theorem addModuleInfos_main_witness :
    (addModuleInfos readablePlatform palConstants pe64Reader emptyState
        [⟨false, 0x30000, none, "libc.so"⟩]).m_mainModule = emptyState.m_mainModule ∧
    ((addModuleInfos readablePlatform palConstants pe64Reader emptyState
        ([⟨true, 0x20000, some plainHandle, "lib.dll"⟩] ++
          [⟨true, 0x10000, some mainHandle, "app.dll"⟩])).m_mainModule =
        some (newModuleInfo palConstants pe64Reader
          ⟨true, 0x10000, some mainHandle, "app.dll"⟩) ∧
      (addModuleInfos readablePlatform palConstants pe64Reader emptyState
        [⟨true, 0x20000, some plainHandle, "lib.dll"⟩,
         ⟨true, 0x10000, some mainHandle, "app.dll"⟩,
         ⟨true, 0x20000, some mainHandle, "other.dll"⟩]).m_mainModule =
        some (newModuleInfo palConstants pe64Reader
          ⟨true, 0x10000, some mainHandle, "app.dll"⟩) ∧
      newModuleInfo palConstants pe64Reader ⟨true, 0x10000, some mainHandle, "app.dll"⟩ ∈
        (addModuleInfos readablePlatform palConstants pe64Reader emptyState
          [⟨true, 0x20000, some plainHandle, "lib.dll"⟩,
           ⟨true, 0x10000, some mainHandle, "app.dll"⟩,
           ⟨true, 0x20000, some mainHandle, "other.dll"⟩]).m_moduleInfos) :=
  ⟨(addModuleInfos_main readablePlatform palConstants pe64Reader emptyState
      [⟨false, 0x30000, none, "libc.so"⟩] (by decide)).1 (by
        intro pre c post h hc
        cases pre with
        | nil =>
          simp only [List.nil_append, List.cons.injEq] at h
          rw [← h.1] at hc
          exact absurd hc (by decide)
        | cons x pre => simp at h),
   (addModuleInfos_main readablePlatform palConstants pe64Reader emptyState
      [⟨true, 0x20000, some plainHandle, "lib.dll"⟩,
       ⟨true, 0x10000, some mainHandle, "app.dll"⟩,
       ⟨true, 0x20000, some mainHandle, "other.dll"⟩] (by decide)).2
      [⟨true, 0x20000, some plainHandle, "lib.dll"⟩]
      ⟨true, 0x10000, some mainHandle, "app.dll"⟩
      [⟨true, 0x20000, some mainHandle, "other.dll"⟩] rfl (by decide) (by decide) (by
        intro p1 q p2 h _
        cases p1 with
        | nil =>
          simp only [List.nil_append, List.cons.injEq] at h
          rw [← h.1]
          decide
        | cons x p1 => simp at h)⟩

/-- The run of the witness: a module at `0x20000` is registered without the
main flag, then `app.dll` at `0x10000` with it, then `0x20000` is offered again
with the main flag: the reference stays at `app.dll`. -/
theorem main_module_kept_for_registered_base :
    (addModuleInfos readablePlatform palConstants pe64Reader emptyState
      [⟨true, 0x20000, some plainHandle, "lib.dll"⟩,
       ⟨true, 0x10000, some mainHandle, "app.dll"⟩,
       ⟨true, 0x20000, some mainHandle, "other.dll"⟩]).m_mainModule =
      some { isManaged := true, baseAddress := 0x10000, timeStamp := 0x5eadbeef,
             imageSize := 0x4000, versionId := 77, moduleName := "app.dll" } := by
  decide

/-- C16. Metadata read failures never fail registration: for every base
address not yet registered, `AddModuleInfo` adds exactly one module entry for
it in all cases. The entry's `timeStamp` and `imageSize` are both zero
whenever the module is not managed, the DOS-header read fails, the
magic-number read fails, the magic number is neither the 32-bit nor the
64-bit optional-header magic, or the read of the NT headers fails; when the
whole chain succeeds for a managed module with a recognised magic they are
the header's `TimeDateStamp` and `SizeOfImage`. -/
theorem addModuleInfo_metadata (pf : Platform) (k : Constants) (img : ImageReader)
    (ci : CrashInfo) (c : ModuleCall)
    (hk : k.IMAGE_NT_OPTIONAL_HDR64_MAGIC ≠ k.IMAGE_NT_OPTIONAL_HDR32_MAGIC)
    (hnew : ∀ m ∈ ci.m_moduleInfos, m.baseAddress ≠ c.baseAddress) :
    ∃ e : ModuleInfo,
      (∀ x, x ∈ (AddModuleInfo pf k img ci c.isManaged c.baseAddress c.pClrDataModule
          c.moduleName).m_moduleInfos ↔ x = e ∨ x ∈ ci.m_moduleInfos) ∧
      e.baseAddress = c.baseAddress ∧ e.isManaged = c.isManaged ∧
      e.moduleName = c.moduleName ∧
      (c.isManaged = false → e.timeStamp = 0 ∧ e.imageSize = 0) ∧
      (img.dosHeader c.baseAddress = none → e.timeStamp = 0 ∧ e.imageSize = 0) ∧
      (∀ l, img.dosHeader c.baseAddress = some l →
        img.magic ((c.baseAddress + l + k.offsetofOptionalHeaderMagic) % U64) = none →
        e.timeStamp = 0 ∧ e.imageSize = 0) ∧
      (∀ l m, img.dosHeader c.baseAddress = some l →
        img.magic ((c.baseAddress + l + k.offsetofOptionalHeaderMagic) % U64) = some m →
        m ≠ k.IMAGE_NT_OPTIONAL_HDR32_MAGIC → m ≠ k.IMAGE_NT_OPTIONAL_HDR64_MAGIC →
        e.timeStamp = 0 ∧ e.imageSize = 0) ∧
      (∀ l, img.dosHeader c.baseAddress = some l →
        img.magic ((c.baseAddress + l + k.offsetofOptionalHeaderMagic) % U64) =
          some k.IMAGE_NT_OPTIONAL_HDR32_MAGIC →
        img.ntHeaders32 ((c.baseAddress + l) % U64) = none →
        e.timeStamp = 0 ∧ e.imageSize = 0) ∧
      (∀ l, img.dosHeader c.baseAddress = some l →
        img.magic ((c.baseAddress + l + k.offsetofOptionalHeaderMagic) % U64) =
          some k.IMAGE_NT_OPTIONAL_HDR64_MAGIC →
        img.ntHeaders64 ((c.baseAddress + l) % U64) = none →
        e.timeStamp = 0 ∧ e.imageSize = 0) ∧
      (c.isManaged = true → ∀ l sizeOfImage timeDateStamp,
        img.dosHeader c.baseAddress = some l →
        img.magic ((c.baseAddress + l + k.offsetofOptionalHeaderMagic) % U64) =
          some k.IMAGE_NT_OPTIONAL_HDR32_MAGIC →
        img.ntHeaders32 ((c.baseAddress + l) % U64) = some (sizeOfImage, timeDateStamp) →
        e.timeStamp = timeDateStamp ∧ e.imageSize = sizeOfImage) ∧
      (c.isManaged = true → ∀ l sizeOfImage timeDateStamp,
        img.dosHeader c.baseAddress = some l →
        img.magic ((c.baseAddress + l + k.offsetofOptionalHeaderMagic) % U64) =
          some k.IMAGE_NT_OPTIONAL_HDR64_MAGIC →
        img.ntHeaders64 ((c.baseAddress + l) % U64) = some (sizeOfImage, timeDateStamp) →
        e.timeStamp = timeDateStamp ∧ e.imageSize = sizeOfImage) := by
  have hnewE : ∀ m ∈ ci.m_moduleInfos, m.baseAddress ≠ (newModuleInfo k img c).baseAddress :=
    hnew
  refine ⟨newModuleInfo k img c, ?_, rfl, rfl, rfl, ?_, ?_, ?_, ?_, ?_, ?_, ?_, ?_⟩
  · intro x
    rw [(addModuleInfo_new pf k img ci c hnew).1]
    constructor
    · exact mem_moduleInsert
    · rintro (rfl | hx)
      · exact mem_moduleInsert_self hnewE
      · exact subset_moduleInsert hx
  · intro h
    simp [newModuleInfo, h]
  · intro h
    simp [newModuleInfo, headerFields, h]
  · intro l h1 h2
    simp [newModuleInfo, headerFields, h1, h2]
  · intro l m h1 h2 h3 h4
    simp [newModuleInfo, headerFields, h1, h2, h3, h4]
  · intro l h1 h2 h3
    simp [newModuleInfo, headerFields, h1, h2, h3]
  · intro l h1 h2 h3
    simp [newModuleInfo, headerFields, h1, h2, h3, hk]
  · intro hm l sizeOfImage timeDateStamp h1 h2 h3
    simp [newModuleInfo, headerFields, hm, h1, h2, h3]
  · intro hm l sizeOfImage timeDateStamp h1 h2 h3
    simp [newModuleInfo, headerFields, hm, h1, h2, h3, hk]

theorem addModuleInfo_metadata_witness :
    ((AddModuleInfo readablePlatform palConstants pe64Reader emptyState true 0x10000
        (some mainHandle) "app.dll").m_moduleInfos =
      [{ isManaged := true, baseAddress := 0x10000, timeStamp := 0x5eadbeef,
         imageSize := 0x4000, versionId := 77, moduleName := "app.dll" }]) ∧
    ∃ e : ModuleInfo,
      (∀ x, x ∈ (AddModuleInfo readablePlatform palConstants blindReader emptyState true
          0x10000 (some mainHandle) "app.dll").m_moduleInfos ↔
        x = e ∨ x ∈ emptyState.m_moduleInfos) ∧
      e.baseAddress = 0x10000 ∧ e.timeStamp = 0 ∧ e.imageSize = 0 := by
  refine ⟨by decide, ?_⟩
  obtain ⟨e, h1, h2, _, _, _, h6, _⟩ :=
    addModuleInfo_metadata readablePlatform palConstants blindReader emptyState
      ⟨true, 0x10000, some mainHandle, "app.dll"⟩ (by decide) (by decide)
  exact ⟨e, h1, h2, (h6 rfl).1, (h6 rfl).2⟩

/-! ## Lookup by address -/

theorem setFindFrom_subset {s : RegionSet} {k x : MemoryRegion} (h : x ∈ setFindFrom s k) :
    x ∈ s := by
  induction s with
  | nil => simp [setFindFrom] at h
  | cons e rest ih =>
    unfold setFindFrom at h
    split_ifs at h with h1 h2
    · exact List.mem_cons_of_mem _ (ih h)
    · cases h
    · exact h

/-- On an ordered table, the search with a zero-length probe at an address
held by an entry starts at that entry. -/
theorem setFindFrom_of_holds {s : RegionSet} (hs : SetOrdered s) {e : MemoryRegion}
    (he : e ∈ s) (flags offset : Nat) {a : Nat} (h1 : e.startAddress ≤ a)
    (h2 : a < e.endAddress) :
    ∃ post, setFindFrom s (mkAddressRegion flags a a offset) = e :: post := by
  induction s with
  | nil => cases he
  | cons x rest ih =>
    obtain ⟨hx, hr⟩ := setOrdered_cons.mp hs
    unfold setFindFrom
    rcases List.mem_cons.mp he with rfl | he
    · have hl1 : e.lt (mkAddressRegion flags a a offset) = false := by
        rw [lt_false_iff]; simp only [mkAddressRegion]; omega
      have hl2 : (mkAddressRegion flags a a offset).lt e = false := by
        rw [lt_false_iff]; simp only [mkAddressRegion]; omega
      rw [hl1, hl2]
      exact ⟨rest, by simp⟩
    · have hlt : x.lt (mkAddressRegion flags a a offset) = true := by
        have := hx e he
        rw [lt_iff] at this ⊢
        simp only [mkAddressRegion]
        omega
      rw [hlt]
      simp only [if_true]
      exact ih hr he

theorem searchMemoryRegions_of_holds {s : RegionSet} (hs : SetOrdered s) {e : MemoryRegion}
    (he : e ∈ s) {a : Nat} (h1 : e.startAddress ≤ a) (h2 : a < e.endAddress) :
    SearchMemoryRegions s (mkAddressRegion 0 a a 0) = some e := by
  obtain ⟨post, hp⟩ := setFindFrom_of_holds hs he 0 0 h1 h2
  unfold SearchMemoryRegions
  rw [hp]
  simp [List.find?, mkAddressRegion, h1, h2]

theorem searchMemoryRegions_none {s : RegionSet} {a : Nat}
    (h : ∀ e ∈ s, ¬ (e.startAddress ≤ a ∧ a < e.endAddress)) :
    SearchMemoryRegions s (mkAddressRegion 0 a a 0) = none := by
  unfold SearchMemoryRegions
  rw [List.find?_eq_none]
  intro x hx
  have := h x (setFindFrom_subset hx)
  simpa [mkAddressRegion] using this

theorem setOrdered_addModuleAddressRanges (ranges : List (Nat × Nat × Nat)) :
    ∀ ci : CrashInfo, SetOrdered ci.m_moduleAddresses →
      SetOrdered (addModuleAddressRanges ci ranges).m_moduleAddresses := by
  induction ranges with
  | nil => intro ci h; exact h
  | cons r rest ih =>
    intro ci h
    exact ih _ (setOrdered_setInsert h _)

/-- C13. Lookup by address: on every module-address table built by
`AddModuleAddressRange` calls from an ordered table (the empty one, for a
fresh state), whose ranges are then pairwise non-overlapping, and for every
address `a`: when a range of the table holds `a` (`start <= a < end`),
`SearchMemoryRegions` with a zero-length probe at `a` returns that range and
`GetBaseAddressFromAddress(a)` returns the base address recorded in its
offset; when no range holds `a`, the search returns not-found and
`GetBaseAddressFromAddress(a)` returns 0. The range that holds `a` is
unique. -/
theorem getBaseAddressFromAddress_lookup (ci : CrashInfo) (ranges : List (Nat × Nat × Nat))
    (a : Nat) (hs : SetOrdered ci.m_moduleAddresses) :
    (∀ e ∈ (addModuleAddressRanges ci ranges).m_moduleAddresses,
      e.startAddress ≤ a → a < e.endAddress →
      SearchMemoryRegions (addModuleAddressRanges ci ranges).m_moduleAddresses
        (mkAddressRegion 0 a a 0) = some e ∧
      GetBaseAddressFromAddress (addModuleAddressRanges ci ranges) a = e.offset ∧
      ∀ e2 ∈ (addModuleAddressRanges ci ranges).m_moduleAddresses,
        e2.startAddress ≤ a → a < e2.endAddress → e2 = e) ∧
    ((∀ e ∈ (addModuleAddressRanges ci ranges).m_moduleAddresses,
        ¬ (e.startAddress ≤ a ∧ a < e.endAddress)) →
      SearchMemoryRegions (addModuleAddressRanges ci ranges).m_moduleAddresses
        (mkAddressRegion 0 a a 0) = none ∧
      GetBaseAddressFromAddress (addModuleAddressRanges ci ranges) a = 0) := by
  have hord := setOrdered_addModuleAddressRanges ranges ci hs
  constructor
  · intro e he h1 h2
    have hsearch := searchMemoryRegions_of_holds hord he h1 h2
    refine ⟨hsearch, ?_, ?_⟩
    · unfold GetBaseAddressFromAddress
      rw [hsearch]
    · intro e2 he2 h3 h4
      have := searchMemoryRegions_of_holds hord he2 h3 h4
      rw [hsearch] at this
      exact (Option.some.inj this).symm
  · intro h
    have hsearch := searchMemoryRegions_none h
    refine ⟨hsearch, ?_⟩
    unfold GetBaseAddressFromAddress
    rw [hsearch]

theorem getBaseAddressFromAddress_lookup_witness :
    GetBaseAddressFromAddress
        (addModuleAddressRanges emptyState
          [(0x7000, 0x7800, 0x7000), (0x4010, 0x5ff0, 0x4000), (0x7800, 0x9000, 0x7000)])
        0x5000 = 0x4000 ∧
    GetBaseAddressFromAddress
        (addModuleAddressRanges emptyState
          [(0x7000, 0x7800, 0x7000), (0x4010, 0x5ff0, 0x4000), (0x7800, 0x9000, 0x7000)])
        0x6000 = 0 :=
  ⟨((getBaseAddressFromAddress_lookup emptyState
      [(0x7000, 0x7800, 0x7000), (0x4010, 0x5ff0, 0x4000), (0x7800, 0x9000, 0x7000)]
      0x5000 (by decide)).1 (mkAddressRegion 0 0x4010 0x5ff0 0x4000) (by decide) (by decide)
      (by decide)).2.1,
   ((getBaseAddressFromAddress_lookup emptyState
      [(0x7000, 0x7800, 0x7000), (0x4010, 0x5ff0, 0x4000), (0x7800, 0x9000, 0x7000)]
      0x6000 (by decide)).2 (by decide)).2⟩

/-! ## The Page Interval invariant of stored entries -/

theorem insertPages_stores_pages (pf : Platform) (flags : Nat) :
    ∀ (n start : Nat) (s : RegionSet) (added : Nat),
      start % pf.PAGE_SIZE = 0 → start + n * pf.PAGE_SIZE < U64 →
      ∀ e ∈ (insertPages pf flags n start s added).2,
        e ∈ s ∨ (e.startAddress % pf.PAGE_SIZE = 0 ∧
          e.endAddress = e.startAddress + pf.PAGE_SIZE ∧ start ≤ e.startAddress) := by
  intro n
  induction n with
  | zero => intro start s added _ _ e he; exact Or.inl he
  | succ n ih =>
    intro start s added hst hb e he
    have hrange : start + (n + 1) * pf.PAGE_SIZE = start + pf.PAGE_SIZE + n * pf.PAGE_SIZE := by
      rw [Nat.succ_mul]; omega
    have hmod : (start + pf.PAGE_SIZE) % U64 = start + pf.PAGE_SIZE :=
      Nat.mod_eq_of_lt (by omega)
    have hst1 : (start + pf.PAGE_SIZE) % pf.PAGE_SIZE = 0 := by
      rw [Nat.add_mod, hst]; simp
    unfold insertPages at he
    simp only [hmod] at he
    have hrec : ∀ (t : RegionSet) (added2 : Nat),
        e ∈ (insertPages pf flags n (start + pf.PAGE_SIZE) t added2).2 →
        e ∈ t ∨ (e.startAddress % pf.PAGE_SIZE = 0 ∧
          e.endAddress = e.startAddress + pf.PAGE_SIZE ∧ start ≤ e.startAddress) := by
      intro t added2 h
      rcases ih (start + pf.PAGE_SIZE) t added2 hst1 (by omega) e h with h | ⟨h1, h2, h3⟩
      · exact Or.inl h
      · exact Or.inr ⟨h1, h2, by omega⟩
    split at he
    · split at he
      · rcases hrec _ _ he with h | h
        · rcases mem_setInsert h with rfl | h
          · exact Or.inr ⟨hst, rfl, Nat.le_refl _⟩
          · exact Or.inl h
        · exact Or.inr h
      · exact hrec _ _ he
    · exact hrec _ _ he

theorem pageFloor_add_page (pf : Platform) (hP : 0 < pf.PAGE_SIZE) (x : Nat) :
    pageFloor pf (x + pf.PAGE_SIZE) = pageFloor pf x + pf.PAGE_SIZE := by
  unfold pageFloor
  rw [Nat.add_div_right x hP, Nat.succ_mul]

/-- For a byte range of positive size that starts at or above the first page
boundary, every entry that `InsertMemoryRegion(address, size)` stores satisfies
the Page Interval invariant: non-empty, page-aligned, non-zero start. -/
theorem insertMemoryRegionBytes_stores_page_intervals (pf : Platform) (ci : CrashInfo)
    (address size : Nat) (hP : 0 < pf.PAGE_SIZE)
    (hb : address + size + (pf.PAGE_SIZE - 1) < U64) (hsize : 0 < size)
    (haddr : pf.PAGE_SIZE ≤ address) :
    ∀ e ∈ (InsertMemoryRegionBytes pf ci address size).2.m_memoryRegions,
      e ∈ ci.m_memoryRegions ∨
        (e.startAddress < e.endAddress ∧ e.startAddress % pf.PAGE_SIZE = 0 ∧
          e.endAddress % pf.PAGE_SIZE = 0 ∧ 0 < e.startAddress) := by
  intro e he
  have hw := bytes_wellFormed pf (pf.GetMemoryRegionFlags ci (pageFloor pf address)) address
    size hb
  have hstart : pf.PAGE_SIZE ≤ pageFloor pf address := by
    have h1 := pageFloor_mono pf haddr
    have h2 : pageFloor pf pf.PAGE_SIZE = pf.PAGE_SIZE := by
      unfold pageFloor
      rw [Nat.div_self hP, Nat.one_mul]
    omega
  have hstop : pageFloor pf address + pf.PAGE_SIZE ≤
      pageFloor pf ((address + size + (pf.PAGE_SIZE - 1)) % U64) := by
    rw [Nat.mod_eq_of_lt hb, ← pageFloor_add_page pf hP]
    exact pageFloor_mono pf (by omega)
  have hpages := insertPages_stores_pages pf (pf.GetMemoryRegionFlags ci (pageFloor pf address))
    ((mkRegion (pf.GetMemoryRegionFlags ci (pageFloor pf address)) (pageFloor pf address)
      (pageFloor pf ((address + size + (pf.PAGE_SIZE - 1)) % U64))).SizeInPages pf.PAGE_SIZE)
    (pageFloor pf address) ci.m_memoryRegions 0 (pageFloor_mod pf address)
    (lt_of_eq_of_lt (pages_tile hw) hw.2.2.2) e
  have hpage : e ∈ (insertPages pf (pf.GetMemoryRegionFlags ci (pageFloor pf address))
      ((mkRegion (pf.GetMemoryRegionFlags ci (pageFloor pf address)) (pageFloor pf address)
        (pageFloor pf ((address + size + (pf.PAGE_SIZE - 1)) % U64))).SizeInPages pf.PAGE_SIZE)
      (pageFloor pf address) ci.m_memoryRegions 0).2 →
      e ∈ ci.m_memoryRegions ∨
        (e.startAddress < e.endAddress ∧ e.startAddress % pf.PAGE_SIZE = 0 ∧
          e.endAddress % pf.PAGE_SIZE = 0 ∧ 0 < e.startAddress) := by
    intro h
    rcases hpages h with h | ⟨h1, h2, h3⟩
    · exact Or.inl h
    · refine Or.inr ⟨by omega, h1, ?_, by omega⟩
      rw [h2, Nat.add_mod, h1]; simp
  unfold InsertMemoryRegionBytes InsertMemoryRegion insertRegion at he
  simp only at he
  split at he
  · split at he
    · rcases mem_setInsert he with rfl | h
      · exact Or.inr ⟨by simp only [mkRegion]; omega, hw.1, hw.2.1,
          by simp only [mkRegion]; omega⟩
      · exact Or.inl h
    · exact hpage he
  · split at he
    · exact Or.inl he
    · exact hpage he

/-- C14 (the code at the failing input). On a fresh state of a target with
4 KiB pages, all readable, `InsertMemoryRegion(0x1000, 0)` stores the entry
`[0x1000, 0x1000)`, whose start is not below its end. On that set the scan of
`CombineMemoryRegions` ends with an accumulator whose start equals its end,
which its assertion `start != end` excludes, and a later
`InsertMemoryRegion(0x1000, 0x1000)` adds nothing, so the readable page at
`0x1000` stays uncovered. -/
theorem zero_size_insert_stores_empty_entry :
    readablePlatform.PAGE_SIZE ≤ 0x1000 ∧
    (InsertMemoryRegionBytes readablePlatform emptyState 0x1000 0).2.m_memoryRegions =
      [mkRegion 5 0x1000 0x1000] ∧
    ¬ ((mkRegion 5 0x1000 0x1000).startAddress < (mkRegion 5 0x1000 0x1000).endAddress) ∧
    (combineLoop 7 [mkRegion 5 0x1000 0x1000] 5 0x1000 0x1000 []).1 = (5, 0x1000, 0x1000) ∧
    (InsertMemoryRegionBytes readablePlatform
      (InsertMemoryRegionBytes readablePlatform emptyState 0x1000 0).2 0x1000 0x1000).1 = 0 ∧
    ¬ Covered (InsertMemoryRegionBytes readablePlatform
      (InsertMemoryRegionBytes readablePlatform emptyState 0x1000 0).2
        0x1000 0x1000).2.m_memoryRegions 0x1000 := by
  decide

/-! ## Module mapping resolution: the not-found case -/

/-- C15 (as stated, refuted). The table holds `[0x6000, 0x7000)`; no entry
overlaps the header page `[0x5000, 0x6000)` of base `0x5000`. With size
`0x1800` the page-rounded range is `[0x5000, 0x7000)`, which collides with the
stored entry: the table is left as it was, no entry is added, and the byte
total still grows by `0x2000`. -/
theorem not_found_insert_refused :
    (∀ e ∈ neighbourState.m_moduleMappings,
      ¬ e.Collides (headerPage readablePlatform 0 0x5000)) ∧
    moduleRange readablePlatform 5 0x5000 0x1800 "lib.dll" =
      { flags := 5, startAddress := 0x5000, endAddress := 0x7000, fileName := "lib.dll" } ∧
    (AddOrReplaceModuleMapping readablePlatform neighbourState 0x5000 0x1800
      "lib.dll").m_moduleMappings = neighbourState.m_moduleMappings ∧
    (AddOrReplaceModuleMapping readablePlatform neighbourState 0x5000 0x1800
      "lib.dll").m_cbModuleMappings = neighbourState.m_cbModuleMappings + 0x2000 := by
  decide

theorem addOrReplaceModuleMapping_cb_none (pf : Platform) (ci : CrashInfo)
    (baseAddress size : Nat) (name : String)
    (h : setFind ci.m_moduleMappings (headerPage pf 0 baseAddress) = none) :
    (AddOrReplaceModuleMapping pf ci baseAddress size name).m_cbModuleMappings =
      (ci.m_cbModuleMappings +
        (moduleRange pf (pf.GetMemoryRegionFlags ci baseAddress) baseAddress size name).Size)
        % U64 := by
  have hc : setFind ci.m_moduleMappings
      (mkRegion (pf.GetMemoryRegionFlags ci baseAddress) (pageFloor pf baseAddress)
        ((pageFloor pf baseAddress + pf.PAGE_SIZE) % U64)) =
      setFind ci.m_moduleMappings (headerPage pf 0 baseAddress) :=
    setFind_congr _ rfl rfl
  unfold AddOrReplaceModuleMapping
  simp only [insertMemoryRegion_moduleMappings, hc, h]
  rfl

/-- C15 (amended). Not-found case of mapping resolution: for every Module
Mapping Table with no entry colliding with the header page of `base` nor with
the page-rounded range
`[base & PAGE_MASK, (base+size+PAGE_SIZE-1) & PAGE_MASK)`,
`AddOrReplaceModuleMapping(base, size, name)` adds exactly one entry, spanning
that range and carrying `name`, leaves the other entries as they are, and
increases the module-mapping byte total by that entry's size (in 64 bits). -/
theorem addOrReplaceModuleMapping_not_found (pf : Platform) (ci : CrashInfo)
    (baseAddress size : Nat) (name : String)
    (hfreeH : ∀ e ∈ ci.m_moduleMappings, ¬ e.Collides (headerPage pf 0 baseAddress))
    (hfreeR : ∀ e ∈ ci.m_moduleMappings,
      ¬ e.Collides (moduleRange pf 0 baseAddress size "")) :
    ∃ pre post, ci.m_moduleMappings = pre ++ post ∧
      (AddOrReplaceModuleMapping pf ci baseAddress size name).m_moduleMappings =
        pre ++ moduleRange pf (pf.GetMemoryRegionFlags ci baseAddress) baseAddress size name
          :: post ∧
      (AddOrReplaceModuleMapping pf ci baseAddress size name).m_cbModuleMappings =
        (ci.m_cbModuleMappings +
          (moduleRange pf (pf.GetMemoryRegionFlags ci baseAddress) baseAddress size
            name).Size) % U64 := by
  have hnone : setFind ci.m_moduleMappings (headerPage pf 0 baseAddress) = none :=
    setFind_none_of_free (fun e he => (not_collides_iff _ _).mp (hfreeH e he))
  have hfree : ∀ e ∈ ci.m_moduleMappings,
      e.lt (moduleRange pf (pf.GetMemoryRegionFlags ci baseAddress) baseAddress size name)
        = true ∨
      (moduleRange pf (pf.GetMemoryRegionFlags ci baseAddress) baseAddress size name).lt e
        = true := by
    intro e he
    have := (not_collides_iff _ _).mp (hfreeR e he)
    simp only [lt_iff, moduleRange] at this ⊢
    exact this
  obtain ⟨pre, post, hsplit, hins, _⟩ := setInsert_split_below hfree
  refine ⟨pre, post, hsplit, ?_, addOrReplaceModuleMapping_cb_none pf ci baseAddress size name
    hnone⟩
  rw [addOrReplaceModuleMapping_moduleMappings, hnone]
  exact hins

theorem addOrReplaceModuleMapping_not_found_witness :
    (AddOrReplaceModuleMapping readablePlatform emptyState 0x5000 0x800
      "lib.dll").m_moduleMappings =
      [{ flags := 5, startAddress := 0x5000, endAddress := 0x6000, fileName := "lib.dll" }] ∧
    (AddOrReplaceModuleMapping readablePlatform emptyState 0x5000 0x800
      "lib.dll").m_cbModuleMappings = 0x1000 := by
  obtain ⟨pre, post, hp, hq, hr⟩ := addOrReplaceModuleMapping_not_found readablePlatform
    emptyState 0x5000 0x800 "lib.dll" (by decide) (by decide)
  have hnil : pre = [] ∧ post = [] := by
    have : pre ++ post = [] := hp.symm
    simpa using this
  obtain ⟨rfl, rfl⟩ := hnil
  rw [hq, hr]
  decide

/-! ## Coalescing: permissions per address -/

/-- Two entries of an ordered set are equal or one is below the other. -/
theorem setOrdered_trichotomy {s : RegionSet} (hs : SetOrdered s) {x y : MemoryRegion}
    (hx : x ∈ s) (hy : y ∈ s) : x = y ∨ x.lt y = true ∨ y.lt x = true := by
  have hp : s.Pairwise (fun a b => a = b ∨ a.lt b = true ∨ b.lt a = true) :=
    List.Pairwise.imp (fun h => Or.inr (Or.inl h)) hs
  have hsym : Symmetric (fun a b : MemoryRegion => a = b ∨ a.lt b = true ∨ b.lt a = true) := by
    intro a b h
    rcases h with h | h | h
    · exact Or.inl h.symm
    · exact Or.inr (Or.inr h)
    · exact Or.inr (Or.inl h)
  exact List.Pairwise.forall_of_forall hsym (fun a _ => Or.inl rfl) hp hx hy

/-- In an ordered set at most one entry holds a given address. -/
theorem setOrdered_holds_unique {s : RegionSet} (hs : SetOrdered s) {x y : MemoryRegion}
    (hx : x ∈ s) (hy : y ∈ s) {a : Nat} (h1 : x.startAddress ≤ a ∧ a < x.endAddress)
    (h2 : y.startAddress ≤ a ∧ a < y.endAddress) : x = y := by
  rcases setOrdered_trichotomy hs hx hy with h | h | h
  · exact h
  · rw [lt_iff] at h; omega
  · rw [lt_iff] at h; omega

/-- What the scan of `CombineMemoryRegions` keeps: the entries already
committed, an output entry that starts with the accumulator, holds it and has
its flags, and for each remaining region an output entry that holds it and
has its masked flags. -/
theorem combineOut_contains (mask : Nat) :
    ∀ (rest : List MemoryRegion) (flags start stop : Nat) (new : RegionSet),
      CombineInv mask new flags start stop rest →
      (∀ x ∈ new, x ∈ combineOut mask rest flags start stop new) ∧
      (∃ o ∈ combineOut mask rest flags start stop new,
        o.startAddress = start ∧ stop ≤ o.endAddress ∧ o.flags = flags) ∧
      (∀ e ∈ rest, ∃ o ∈ combineOut mask rest flags start stop new,
        o.startAddress ≤ e.startAddress ∧ e.endAddress ≤ o.endAddress ∧
          o.flags = e.flags &&& mask) := by
  intro rest
  induction rest with
  | nil =>
    intro flags start stop new ⟨_, _, _, h4, _, h6, _, _, _, _, _⟩
    rw [combineOut_nil]
    have hfree : ∀ e ∈ new, e.lt (mkRegion flags start stop) = true ∨
        (mkRegion flags start stop).lt e = true := by
      intro e he
      left
      rw [lt_iff]
      have := h6 e he
      have := h4 e he
      simp only [mkRegion]
      omega
    refine ⟨fun x hx => subset_setInsert hx, ?_, ?_⟩
    · exact ⟨mkRegion flags start stop, (mem_setInsert_iff hfree _).mpr (Or.inl rfl), rfl,
        Nat.le_refl _, rfl⟩
    · intro e he; cases he
  | cons r rest ih =>
    intro flags start stop new ⟨h1, h2, h3, h4, h5, h6, h7, h8, h9, h10, h11⟩
    obtain ⟨hr1, hr2⟩ := setOrdered_cons.mp h9
    have hrne : r.startAddress < r.endAddress := h10 r (List.mem_cons_self _ _)
    have hrb : stop ≤ r.startAddress := h11 r (List.mem_cons_self _ _)
    have hrest_ne : NonEmptyEntries rest := fun e he => h10 e (List.mem_cons_of_mem _ he)
    have hrest_above : ∀ e ∈ rest, r.endAddress ≤ e.startAddress := by
      intro e he
      have := hr1 e he
      rw [lt_iff] at this
      exact this.2
    rw [combineOut_cons]
    by_cases hc : stop = r.startAddress ∧ flags = r.flags &&& mask
    · rw [if_pos hc]
      have hinv : CombineInv mask new flags start r.endAddress rest :=
        ⟨by omega, h2, h3, h4, h5, h6, h7, h8, hr2, hrest_ne, hrest_above⟩
      obtain ⟨i1, ⟨o, ho, ho1, ho2, ho3⟩, i3⟩ := ih flags start r.endAddress new hinv
      refine ⟨i1, ⟨o, ho, ho1, by omega, ho3⟩, ?_⟩
      intro e he
      rcases List.mem_cons.mp he with rfl | he
      · exact ⟨o, ho, by omega, ho2, by rw [ho3, hc.2]⟩
      · exact i3 e he
    · rw [if_neg hc]
      have hfree : ∀ e ∈ new, e.lt (mkRegion flags start stop) = true ∨
          (mkRegion flags start stop).lt e = true := by
        intro e he
        left
        rw [lt_iff]
        have := h6 e he
        have := h4 e he
        simp only [mkRegion]
        omega
      have hmem := mem_setInsert_iff hfree
      have hinv : CombineInv mask (setInsert new (mkRegion flags start stop))
          (r.flags &&& mask) r.startAddress r.endAddress rest := by
        refine ⟨hrne, land_mask_idem _ _, setOrdered_setInsert h3 _, ?_, ?_, ?_, ?_, ?_,
          hr2, hrest_ne, hrest_above⟩
        · intro e he
          rcases (hmem e).mp he with rfl | he
          · exact h1
          · exact h4 e he
        · intro e he
          rcases (hmem e).mp he with rfl | he
          · exact h2
          · exact h5 e he
        · intro e he
          rcases (hmem e).mp he with rfl | he
          · exact hrb
          · have := h6 e he
            omega
        · intro x hx y hy
          rcases (hmem x).mp hx with rfl | hx <;> rcases (hmem y).mp hy with rfl | hy
          · simp only [Mergeable, mkRegion]; omega
          · have := h6 y hy
            have := h4 y hy
            simp only [Mergeable, mkRegion]; omega
          · intro hm
            apply h8 x hx
            simp only [Mergeable, mkRegion] at hm
            rw [h5 x hx, h2] at hm
            exact hm
          · exact h7 x hx y hy
        · intro e he
          rcases (hmem e).mp he with rfl | he
          · simp only [mkRegion]
            exact hc
          · have := h6 e he
            omega
      obtain ⟨i1, ⟨o, ho, ho1, ho2, ho3⟩, i3⟩ := ih _ _ _ _ hinv
      refine ⟨fun x hx => i1 x (subset_setInsert hx), ?_, ?_⟩
      · exact ⟨mkRegion flags start stop, i1 _ ((hmem _).mpr (Or.inl rfl)), rfl,
          Nat.le_refl _, rfl⟩
      · intro e he
        rcases List.mem_cons.mp he with rfl | he
        · exact ⟨o, ho, by omega, ho2, ho3⟩
        · exact i3 e he

/-- Every entry of the set given to `CombineMemoryRegions` lies inside an
entry of the result that has its masked flags. -/
theorem combineRegions_contains (mask : Nat) {s : RegionSet} (hs : SetOrdered s)
    (hn : NonEmptyEntries s) {out : RegionSet} (hout : combineRegions mask s = some out) :
    ∀ e ∈ s, ∃ o ∈ out, o.startAddress ≤ e.startAddress ∧ e.endAddress ≤ o.endAddress ∧
      o.flags = e.flags &&& mask := by
  cases s with
  | nil => simp [combineRegions] at hout
  | cons first rest =>
    obtain ⟨hr1, hr2⟩ := setOrdered_cons.mp hs
    have hinv : CombineInv mask [] (first.flags &&& mask) first.startAddress
        first.endAddress rest := by
      refine ⟨hn first (List.mem_cons_self _ _), land_mask_idem _ _, ?_, ?_, ?_, ?_, ?_, ?_,
        hr2, fun e he => hn e (List.mem_cons_of_mem _ he), ?_⟩
      · simp [SetOrdered]
      · intro e he; cases he
      · intro e he; cases he
      · intro e he; cases he
      · intro e he; cases he
      · intro e he; cases he
      · intro e he
        have := hr1 e he
        rw [lt_iff] at this
        exact this.2
    rw [combineRegions_cons] at hout
    cases hout
    obtain ⟨_, ⟨o, ho, ho1, ho2, ho3⟩, i3⟩ := combineOut_contains mask rest _ _ _ _ hinv
    intro e he
    rcases List.mem_cons.mp he with rfl | he
    · exact ⟨o, ho, by omega, ho2, ho3⟩
    · exact i3 e he

/-- C20. Coalescing keeps permissions per address: on every non-empty Memory
Region Set of non-empty entries ordered without collision (pairwise
non-overlapping), `CombineMemoryRegions` returns a set such that
* for every address held by an entry before, exactly one entry holds it
  after, and its flags are the flags of the entry before masked to the
  permission bits;
* two adjacent entries (the end of one is the start of the other) lie in the
  same output entry, that is are merged, exactly when their masked flags are
  identical, whatever their internal-only bits;
* every output entry carries no bit outside the permission mask. -/
theorem combineMemoryRegions_keeps_permissions (pf : Platform) (ci : CrashInfo)
    (hne : ci.m_memoryRegions ≠ []) (hs : SetOrdered ci.m_memoryRegions)
    (hn : NonEmptyEntries ci.m_memoryRegions) :
    ∃ ci2, CombineMemoryRegions pf ci = some ci2 ∧
      (∀ a, ∀ e ∈ ci.m_memoryRegions, e.startAddress ≤ a → a < e.endAddress →
        ∃ o ∈ ci2.m_memoryRegions, o.startAddress ≤ a ∧ a < o.endAddress ∧
          o.flags = e.flags &&& pf.MEMORY_REGION_FLAG_PERMISSIONS_MASK ∧
          ∀ o2 ∈ ci2.m_memoryRegions, o2.startAddress ≤ a → a < o2.endAddress → o2 = o) ∧
      (∀ e1 ∈ ci.m_memoryRegions, ∀ e2 ∈ ci.m_memoryRegions,
        e1.endAddress = e2.startAddress →
        ((∃ o ∈ ci2.m_memoryRegions,
            o.startAddress ≤ e1.startAddress ∧ e1.endAddress ≤ o.endAddress ∧
            o.startAddress ≤ e2.startAddress ∧ e2.endAddress ≤ o.endAddress) ↔
          e1.flags &&& pf.MEMORY_REGION_FLAG_PERMISSIONS_MASK =
            e2.flags &&& pf.MEMORY_REGION_FLAG_PERMISSIONS_MASK)) ∧
      (∀ o ∈ ci2.m_memoryRegions,
        o.flags &&& pf.MEMORY_REGION_FLAG_PERMISSIONS_MASK = o.flags) := by
  obtain ⟨out, h1, h2, _, h4, h5, _⟩ :=
    combineRegions_spec pf.MEMORY_REGION_FLAG_PERMISSIONS_MASK hne hs hn
  have hcont := combineRegions_contains pf.MEMORY_REGION_FLAG_PERMISSIONS_MASK hs hn h1
  refine ⟨{ ci with m_memoryRegions := out }, by simp [CombineMemoryRegions, h1], ?_, ?_, h4⟩
  · intro a e he ha1 ha2
    obtain ⟨o, ho, ho1, ho2, ho3⟩ := hcont e he
    refine ⟨o, ho, by omega, by omega, ho3, ?_⟩
    intro o2 ho2m h3 h4
    exact setOrdered_holds_unique h2 ho2m ho ⟨h3, h4⟩ ⟨by omega, by omega⟩
  · intro e1 he1 e2 he2 hadj
    have hne1 := hn e1 he1
    have hne2 := hn e2 he2
    obtain ⟨o1, ho1, a1, a2, a3⟩ := hcont e1 he1
    obtain ⟨o2, ho2, b1, b2, b3⟩ := hcont e2 he2
    constructor
    · rintro ⟨o, ho, c1, c2, c3, c4⟩
      have e1o : o = o1 := setOrdered_holds_unique h2 ho ho1
        (a := e1.startAddress) ⟨c1, by omega⟩ ⟨a1, by omega⟩
      have e2o : o = o2 := setOrdered_holds_unique h2 ho ho2
        (a := e2.startAddress) ⟨c3, by omega⟩ ⟨b1, by omega⟩
      rw [← a3, ← b3, ← e1o, ← e2o]
    · intro hflags
      rcases setOrdered_trichotomy h2 ho1 ho2 with h | h | h
      · subst h
        exact ⟨o1, ho1, a1, a2, b1, b2⟩
      · exfalso
        rw [lt_iff] at h
        apply h5 o1 ho1 o2 ho2
        refine ⟨by omega, ?_⟩
        rw [a3, b3, land_mask_idem, land_mask_idem]
        exact hflags
      · exfalso
        rw [lt_iff] at h
        omega

theorem combineMemoryRegions_keeps_permissions_witness :
    ∃ ci2, CombineMemoryRegions readablePlatform threePageState = some ci2 ∧
      (∀ a, ∀ e ∈ threePageState.m_memoryRegions, e.startAddress ≤ a → a < e.endAddress →
        ∃ o ∈ ci2.m_memoryRegions, o.startAddress ≤ a ∧ a < o.endAddress ∧
          o.flags = e.flags &&& readablePlatform.MEMORY_REGION_FLAG_PERMISSIONS_MASK ∧
          ∀ o2 ∈ ci2.m_memoryRegions, o2.startAddress ≤ a → a < o2.endAddress → o2 = o) ∧
      (∀ e1 ∈ threePageState.m_memoryRegions, ∀ e2 ∈ threePageState.m_memoryRegions,
        e1.endAddress = e2.startAddress →
        ((∃ o ∈ ci2.m_memoryRegions,
            o.startAddress ≤ e1.startAddress ∧ e1.endAddress ≤ o.endAddress ∧
            o.startAddress ≤ e2.startAddress ∧ e2.endAddress ≤ o.endAddress) ↔
          e1.flags &&& readablePlatform.MEMORY_REGION_FLAG_PERMISSIONS_MASK =
            e2.flags &&& readablePlatform.MEMORY_REGION_FLAG_PERMISSIONS_MASK)) ∧
      (∀ o ∈ ci2.m_memoryRegions,
        o.flags &&& readablePlatform.MEMORY_REGION_FLAG_PERMISSIONS_MASK = o.flags) :=
  combineMemoryRegions_keeps_permissions readablePlatform threePageState (by decide)
    (by decide) (by decide)

/-! ## The orchestrator: stages -/

theorem block_runStage (s : Stage) (f : CrashInfo → Bool × CrashInfo) :
    Block [s] (runStage s f) := by
  intro st
  refine ⟨[(s, (f st.ci).1)], rfl, ?_⟩
  cases h : (f st.ci).1
  · right
    refine ⟨by simp [runStage, h], [], s, by simp, by simp, ?_⟩
    simp
  · left
    refine ⟨by simp [runStage, h], by simp, by simp⟩

theorem block_nil : Block [] (fun st => (true, st)) := by
  intro st
  refine ⟨[], ?_, ?_⟩
  · simp
  · simp

theorem block_andThen {p q : List Stage} {f g : Run → Bool × Run} (hf : Block p f)
    (hg : Block q g) : Block (p ++ q) (andThen f g) := by
  intro st
  obtain ⟨d1, ht1, h1⟩ := hf st
  unfold andThen
  rcases h1 with ⟨hok, hp, hall⟩ | ⟨hfail, pre, s, hd, hall, hpre⟩
  · obtain ⟨d2, ht2, h2⟩ := hg (f st).2
    rw [hok]
    simp only [if_true]
    refine ⟨d1 ++ d2, by rw [ht2, ht1, List.append_assoc], ?_⟩
    rcases h2 with ⟨hok2, hq, hall2⟩ | ⟨hfail2, pre2, s2, hd2, hall2, hpre2⟩
    · left
      refine ⟨hok2, by rw [List.map_append, hp, hq], ?_⟩
      intro e he
      rcases List.mem_append.mp he with he | he
      · exact hall e he
      · exact hall2 e he
    · right
      refine ⟨hfail2, d1 ++ pre2, s2, by rw [hd2, List.append_assoc], ?_, ?_⟩
      · intro e he
        rcases List.mem_append.mp he with he | he
        · exact hall e he
        · exact hall2 e he
      · rw [List.map_append, hp, List.append_assoc]
        exact (List.prefix_append_right_inj p).mpr hpre2
  · rw [hfail, if_neg Bool.false_ne_true]
    refine ⟨d1, ht1, Or.inr ⟨rfl, pre, s, hd, hall, ?_⟩⟩
    exact hpre.trans (List.prefix_append p q)

theorem block_congr {p : List Stage} {f g : Run → Bool × Run} (h : ∀ st, f st = g st)
    (hg : Block p g) : Block p f := by
  intro st
  rw [h st]
  exact hg st

theorem initializeThreads_cons (c : Collaborators) (tid : Nat) (rest : List Nat) (st : Run) :
    initializeThreads c (tid :: rest) st =
      andThen (runStage (.ThreadInitialize tid) (c.ThreadInitialize tid))
        (initializeThreads c rest) st := by
  unfold andThen
  conv_lhs => unfold initializeThreads
  cases (runStage (.ThreadInitialize tid) (c.ThreadInitialize tid) st).1 <;> rfl

theorem block_initializeThreads (c : Collaborators) (threads : List Nat) :
    Block (threads.map Stage.ThreadInitialize) (initializeThreads c threads) := by
  induction threads with
  | nil => exact block_congr (fun st => rfl) block_nil
  | cons tid rest ih =>
    exact block_congr (initializeThreads_cons c tid rest)
      (block_andThen (block_runStage _ _) ih)

theorem unwindAllThreads_cons (c : Collaborators) (tid : Nat) (rest : List Nat) (st : Run) :
    UnwindAllThreads c (tid :: rest) st =
      andThen (runStage (.UnwindThread tid) (c.UnwindThread tid))
        (UnwindAllThreads c rest) st := by
  unfold andThen
  conv_lhs => unfold UnwindAllThreads
  cases (runStage (.UnwindThread tid) (c.UnwindThread tid) st).1 <;> rfl

theorem block_unwindAllThreads (c : Collaborators) (threads : List Nat) :
    Block (threads.map Stage.UnwindThread) (UnwindAllThreads c threads) := by
  induction threads with
  | nil => exact block_congr (fun st => rfl) block_nil
  | cons tid rest ih =>
    exact block_congr (unwindAllThreads_cons c tid rest)
      (block_andThen (block_runStage _ _) ih)

theorem block_enumerateTarget (c : Collaborators) :
    Block (if c.isApple then [Stage.EnumerateMemoryRegions]
      else [Stage.GetAuxvEntries, Stage.EnumerateMemoryRegions, Stage.GetDSOInfo])
      (enumerateTarget c) := by
  cases h : c.isApple
  · have hb := block_andThen (block_runStage .GetAuxvEntries c.GetAuxvEntries)
      (block_andThen (block_runStage .EnumerateMemoryRegions c.EnumerateMemoryRegions)
        (block_runStage .GetDSOInfo c.GetDSOInfo))
    refine block_congr ?_ hb
    intro st
    unfold enumerateTarget andThen
    rw [h]
    simp only [Bool.false_eq_true, if_false]
    cases (runStage .GetAuxvEntries c.GetAuxvEntries st).1
    · rfl
    · simp only [Bool.not_true, Bool.false_eq_true, if_false, if_true]
      cases (runStage .EnumerateMemoryRegions c.EnumerateMemoryRegions
        (runStage .GetAuxvEntries c.GetAuxvEntries st).2).1 <;> rfl
  · refine block_congr ?_ (block_runStage .EnumerateMemoryRegions c.EnumerateMemoryRegions)
    intro st
    unfold enumerateTarget
    rw [h]
    rfl

theorem block_otherMappingsStep (c : Collaborators) :
    Block (if c.isApple then [Stage.InitializeOtherMappings] else [])
      (fun st => (true, otherMappingsStep c st)) := by
  cases h : c.isApple
  · refine block_congr ?_ block_nil
    intro st
    simp [otherMappingsStep, h]
  · intro st
    refine ⟨[(Stage.InitializeOtherMappings, true)], ?_, Or.inl ⟨rfl, by simp, by simp⟩⟩
    simp [otherMappingsStep, h, runVoid]

/-- The part of `GatherCrashInfo` before the region selection is the
sequence of its stages, left at the first failure. -/
theorem block_gatherStages (pf : Platform) (k : Constants) (img : ImageReader)
    (c : Collaborators) (threads : List Nat) :
    Block (stagePlan c.isApple threads) (gatherStages pf k img c threads) := by
  have hb := block_andThen (block_initializeThreads c threads)
    (block_andThen (block_enumerateTarget c)
      (block_andThen (block_runStage .InitializeDAC (InitializeDAC k c))
        (block_andThen
          (block_runStage .EnumerateManagedModules (EnumerateManagedModules pf k img))
          (block_andThen (block_otherMappingsStep c) (block_unwindAllThreads c threads)))))
  have hplan : stagePlan c.isApple threads =
      threads.map Stage.ThreadInitialize ++
        ((if c.isApple then [Stage.EnumerateMemoryRegions]
          else [Stage.GetAuxvEntries, Stage.EnumerateMemoryRegions, Stage.GetDSOInfo]) ++
          ([Stage.InitializeDAC] ++ ([Stage.EnumerateManagedModules] ++
            ((if c.isApple then [Stage.InitializeOtherMappings] else []) ++
              threads.map Stage.UnwindThread)))) := by
    unfold stagePlan
    simp [List.append_assoc]
  rw [hplan]
  refine block_congr ?_ hb
  intro st
  unfold gatherStages
  simp only [andThen]
  cases (initializeThreads c threads st).1
  · rfl
  · simp only [Bool.not_true, Bool.false_eq_true, if_false, if_true]
    cases (enumerateTarget c (initializeThreads c threads st).2).1
    · rfl
    · simp only [Bool.not_true, Bool.false_eq_true, if_false, if_true]
      cases (runStage .InitializeDAC (InitializeDAC k c)
        (enumerateTarget c (initializeThreads c threads st).2).2).1
      · rfl
      · simp only [Bool.not_true, Bool.false_eq_true, if_false, if_true]
        cases (runStage .EnumerateManagedModules (EnumerateManagedModules pf k img)
          (runStage .InitializeDAC (InitializeDAC k c)
            (enumerateTarget c (initializeThreads c threads st).2).2).2).1 <;> rfl

theorem regionSelection_not_mem_stagePlan (isApple : Bool) (threads : List Nat) :
    Stage.RegionSelection ∉ stagePlan isApple threads := by
  cases isApple <;> simp [stagePlan]

/-- C17. Stage-level fail-fast: with every external stage returning success
or failure, a run of `GatherCrashInfo` extends the record of stages by `d`,
and
* it returns true exactly when `d` is every stage of the plan in order
  (initialization of every thread, auxv collection, base mapping enumeration
  and shared-module info as the platform has them, debug-provider
  initialization, managed-module enumeration, the other mappings of the
  `__APPLE__` build, unwinding of every thread), each successful, followed by
  the region selection;
* otherwise it returns false and `d` is the stages of the plan up to the
  first failing one, which is its last entry: no later stage is entered and
  the region selection is not performed. -/
theorem gatherCrashInfo_fail_fast (pf : Platform) (k : Constants) (img : ImageReader)
    (c : Collaborators) (threads : List Nat) (minidumpType : Nat) (st : Run) :
    ∃ d, (GatherCrashInfo pf k img c threads minidumpType st).2.trace = st.trace ++ d ∧
      ((GatherCrashInfo pf k img c threads minidumpType st).1 = true ↔
        (d.map Prod.fst = stagePlan c.isApple threads ++ [Stage.RegionSelection] ∧
          ∀ e ∈ d, e.2 = true)) ∧
      ((GatherCrashInfo pf k img c threads minidumpType st).1 = false →
        ∃ pre s, d = pre ++ [(s, false)] ∧ (∀ e ∈ pre, e.2 = true) ∧
          (pre.map Prod.fst ++ [s]) <+: stagePlan c.isApple threads ∧
          Stage.RegionSelection ∉ d.map Prod.fst) := by
  obtain ⟨d, ht, h⟩ := block_gatherStages pf k img c threads st
  unfold GatherCrashInfo
  rcases h with ⟨hok, hp, hall⟩ | ⟨hfail, pre, s, hd, hall, hpre⟩
  · rw [hok]
    simp only [Bool.not_true, Bool.false_eq_true, if_false]
    refine ⟨d ++ [(Stage.RegionSelection, true)], ?_, ?_, ?_⟩
    · simp only [runVoid, ht, List.append_assoc]
    · simp only [true_iff]
      refine ⟨by rw [List.map_append, hp]; rfl, ?_⟩
      intro e he
      rcases List.mem_append.mp he with he | he
      · exact hall e he
      · simp only [List.mem_singleton] at he
        rw [he]
    · intro hcontra
      cases hcontra
  · rw [hfail]
    simp only [Bool.not_false, if_true]
    have hnot : Stage.RegionSelection ∉ d.map Prod.fst := by
      intro hm
      apply regionSelection_not_mem_stagePlan c.isApple threads
      apply hpre.subset
      rw [hd, List.map_append] at hm
      exact hm
    refine ⟨d, ht, ?_, ?_⟩
    · constructor
      · intro hcontra
        cases hcontra
      · rintro ⟨_, hall2⟩
        have := hall2 (s, false) (by rw [hd]; simp)
        cases this
    · intro _
      exact ⟨pre, s, hd, hall, hpre, hnot⟩

theorem gatherCrashInfo_fail_fast_witness :
    ∃ d, (GatherCrashInfo readablePlatform palConstants blindReader failingDsoCollaborators
        [11, 12] 2 ⟨emptyState, []⟩).2.trace = [] ++ d ∧
      ((GatherCrashInfo readablePlatform palConstants blindReader failingDsoCollaborators
          [11, 12] 2 ⟨emptyState, []⟩).1 = true ↔
        (d.map Prod.fst =
            stagePlan failingDsoCollaborators.isApple [11, 12] ++ [Stage.RegionSelection] ∧
          ∀ e ∈ d, e.2 = true)) ∧
      ((GatherCrashInfo readablePlatform palConstants blindReader failingDsoCollaborators
          [11, 12] 2 ⟨emptyState, []⟩).1 = false →
        ∃ pre s, d = pre ++ [(s, false)] ∧ (∀ e ∈ pre, e.2 = true) ∧
          (pre.map Prod.fst ++ [s]) <+: stagePlan failingDsoCollaborators.isApple [11, 12] ∧
          Stage.RegionSelection ∉ d.map Prod.fst) :=
  gatherCrashInfo_fail_fast readablePlatform palConstants blindReader failingDsoCollaborators
    [11, 12] 2 ⟨emptyState, []⟩

/-- A run in which the shared module info cannot be collected: the record
ends there. -/
theorem gatherCrashInfo_stops_at_failing_stage :
    (GatherCrashInfo readablePlatform palConstants blindReader failingDsoCollaborators
      [11, 12] 2 ⟨emptyState, []⟩).1 = false ∧
    (GatherCrashInfo readablePlatform palConstants blindReader failingDsoCollaborators
      [11, 12] 2 ⟨emptyState, []⟩).2.trace =
      [(Stage.ThreadInitialize 11, true), (Stage.ThreadInitialize 12, true),
       (Stage.GetAuxvEntries, true), (Stage.EnumerateMemoryRegions, true),
       (Stage.GetDSOInfo, false)] := by
  decide

/-! ## The orchestrator: the debug-data provider -/

/-- C18 (as stated, refuted). The runtime directory is known and loading the
provider library fails: `InitializeDAC` reports failure, and the run of
`GatherCrashInfo`, all of whose other stages succeed, returns false with
`InitializeDAC` as its last, failing stage. -/
theorem initializeDAC_fails_when_load_fails :
    noProviderCollaborators.LoadLibraryA ("/usr/share/dotnet/" ++ palConstants.dacLibraryName)
      = none ∧
    (InitializeDAC palConstants noProviderCollaborators
      { m_coreclrPath := "/usr/share/dotnet/" }).1 = false ∧
    (GatherCrashInfo readablePlatform palConstants blindReader noProviderCollaborators
      [11, 12] 2 ⟨emptyState, []⟩).1 = false ∧
    (GatherCrashInfo readablePlatform palConstants blindReader noProviderCollaborators
      [11, 12] 2 ⟨emptyState, []⟩).2.trace =
      [(Stage.ThreadInitialize 11, true), (Stage.ThreadInitialize 12, true),
       (Stage.GetAuxvEntries, true), (Stage.EnumerateMemoryRegions, true),
       (Stage.GetDSOInfo, true), (Stage.InitializeDAC, false)] := by
  decide

/-- A run of `GatherCrashInfo` whose `InitializeDAC` stage fails, or is not
reached, returns false. -/
theorem gatherCrashInfo_false_of_initializeDAC (pf : Platform) (k : Constants)
    (img : ImageReader) (c : Collaborators) (threads : List Nat) (minidumpType : Nat)
    (st : Run)
    (h : (InitializeDAC k c
      (enumerateTarget c (initializeThreads c threads st).2).2.ci).1 = false) :
    (GatherCrashInfo pf k img c threads minidumpType st).1 = false ∧
    ((initializeThreads c threads st).1 = true →
      (enumerateTarget c (initializeThreads c threads st).2).1 = true →
      (GatherCrashInfo pf k img c threads minidumpType st).2.trace =
        (enumerateTarget c (initializeThreads c threads st).2).2.trace ++
          [(Stage.InitializeDAC, false)]) := by
  have hg : (gatherStages pf k img c threads st).1 = false ∧
      ((initializeThreads c threads st).1 = true →
        (enumerateTarget c (initializeThreads c threads st).2).1 = true →
        (gatherStages pf k img c threads st).2.trace =
          (enumerateTarget c (initializeThreads c threads st).2).2.trace ++
            [(Stage.InitializeDAC, false)]) := by
    unfold gatherStages
    by_cases h1 : (initializeThreads c threads st).1 = true
    · by_cases h2 : (enumerateTarget c (initializeThreads c threads st).2).1 = true
      · simp [h1, h2, runStage, h]
      · simp [h1, h2]
    · simp [h1]
  unfold GatherCrashInfo
  rw [hg.1]
  exact ⟨rfl, hg.2⟩

/-- C18 (amended). Graceful degradation without the debug-data provider:
* when the provider cannot be located (no runtime path is known),
  `InitializeDAC` reports success and leaves the state, hence both provider
  interfaces, as they were, so that the stage does not abort
  `GatherCrashInfo`;
* with the process interface unset, `EnumerateManagedModules` succeeds
  without changing the state (Module Registry, Module Mapping Table and all);
* with the region interface unset, `EnumerateMemoryRegionsWithDAC` succeeds
  for every dump type without changing the state (no region is inserted);
* when the runtime path is known and loading the provider library fails,
  `InitializeDAC` reports failure and leaves both interfaces as they were;
* and every run of `GatherCrashInfo` in which the runtime path is known when
  `InitializeDAC` is due and loading the provider library fails returns
  false, with `InitializeDAC` as the last, failing stage of its record when
  the stages before it succeed. -/
theorem initializeDAC_degrades (pf : Platform) (k : Constants) (img : ImageReader)
    (c : Collaborators) (ci : CrashInfo) (trace : List (Stage × Bool)) :
    (ci.m_coreclrPath = "" →
      InitializeDAC k c ci = (true, ci) ∧
      runStage .InitializeDAC (InitializeDAC k c) { ci := ci, trace := trace } =
        (true, { ci := ci, trace := trace ++ [(Stage.InitializeDAC, true)] })) ∧
    (ci.m_pClrDataProcess = none → EnumerateManagedModules pf k img ci = (true, ci)) ∧
    (ci.m_pClrDataEnumRegions = none →
      ∀ minidumpType, EnumerateMemoryRegionsWithDAC pf k c ci minidumpType = (true, ci)) ∧
    (ci.m_coreclrPath ≠ "" →
      c.LoadLibraryA (ci.m_coreclrPath ++ k.dacLibraryName) = none →
      (InitializeDAC k c ci).1 = false ∧
      (InitializeDAC k c ci).2.m_pClrDataEnumRegions = ci.m_pClrDataEnumRegions ∧
      (InitializeDAC k c ci).2.m_pClrDataProcess = ci.m_pClrDataProcess) ∧
    (∀ (threads : List Nat) (minidumpType : Nat) (st : Run),
      (enumerateTarget c (initializeThreads c threads st).2).2.ci.m_coreclrPath ≠ "" →
      c.LoadLibraryA
        ((enumerateTarget c (initializeThreads c threads st).2).2.ci.m_coreclrPath ++
          k.dacLibraryName) = none →
      (GatherCrashInfo pf k img c threads minidumpType st).1 = false ∧
      ((initializeThreads c threads st).1 = true →
        (enumerateTarget c (initializeThreads c threads st).2).1 = true →
        (GatherCrashInfo pf k img c threads minidumpType st).2.trace =
          (enumerateTarget c (initializeThreads c threads st).2).2.trace ++
            [(Stage.InitializeDAC, false)])) := by
  have hfail : ∀ ci2 : CrashInfo, ci2.m_coreclrPath ≠ "" →
      c.LoadLibraryA (ci2.m_coreclrPath ++ k.dacLibraryName) = none →
      (InitializeDAC k c ci2).1 = false ∧
      (InitializeDAC k c ci2).2.m_pClrDataEnumRegions = ci2.m_pClrDataEnumRegions ∧
      (InitializeDAC k c ci2).2.m_pClrDataProcess = ci2.m_pClrDataProcess := by
    intro ci2 h1 h2
    unfold InitializeDAC
    rw [if_pos h1, h2]
    exact ⟨rfl, rfl, rfl⟩
  refine ⟨?_, ?_, ?_, hfail ci, ?_⟩
  · intro h
    have h1 : InitializeDAC k c ci = (true, ci) := by
      unfold InitializeDAC
      simp [h]
    exact ⟨h1, by simp [runStage, h1]⟩
  · intro h
    unfold EnumerateManagedModules
    rw [h]
  · intro h minidumpType
    unfold EnumerateMemoryRegionsWithDAC
    rw [h]
  · intro threads minidumpType st h1 h2
    exact gatherCrashInfo_false_of_initializeDAC pf k img c threads minidumpType st
      (hfail _ h1 h2).1

theorem initializeDAC_degrades_witness :
    (InitializeDAC palConstants noRuntimeCollaborators emptyState = (true, emptyState) ∧
      runStage .InitializeDAC (InitializeDAC palConstants noRuntimeCollaborators)
          { ci := emptyState, trace := [] } =
        (true, { ci := emptyState, trace := [] ++ [(Stage.InitializeDAC, true)] })) ∧
    EnumerateManagedModules readablePlatform palConstants blindReader emptyState =
      (true, emptyState) ∧
    EnumerateMemoryRegionsWithDAC readablePlatform palConstants noRuntimeCollaborators
      emptyState 0 = (true, emptyState) ∧
    (InitializeDAC palConstants noProviderCollaborators
      { m_coreclrPath := "/usr/share/dotnet/" }).1 = false ∧
    (GatherCrashInfo readablePlatform palConstants blindReader noProviderCollaborators
      [11, 12] 2 ⟨emptyState, []⟩).1 = false :=
  ⟨(initializeDAC_degrades readablePlatform palConstants blindReader noRuntimeCollaborators
      emptyState []).1 (by decide),
   (initializeDAC_degrades readablePlatform palConstants blindReader noRuntimeCollaborators
      emptyState []).2.1 (by decide),
   (initializeDAC_degrades readablePlatform palConstants blindReader noRuntimeCollaborators
      emptyState []).2.2.1 rfl 0,
   ((initializeDAC_degrades readablePlatform palConstants blindReader noProviderCollaborators
      { m_coreclrPath := "/usr/share/dotnet/" } []).2.2.2.1 (by decide) (by decide)).1,
   ((initializeDAC_degrades readablePlatform palConstants blindReader noProviderCollaborators
      emptyState []).2.2.2.2 [11, 12] 2 ⟨emptyState, []⟩ (by decide) (by decide)).1⟩

/-! ## The orchestrator: full-fidelity selection -/

/-- A loop of insertions on a Memory Region Set of ordered, aligned,
non-empty entries, over well-formed non-empty regions: the invariants are
kept, coverage grows by exactly the readable pages of the regions that pass
the test, and only the Memory Region Set changes. -/
theorem insertRegionsIf_spec (pf : Platform) (hP : 0 < pf.PAGE_SIZE)
    (test : MemoryRegion → Bool) :
    ∀ (regions : List MemoryRegion) (ci : CrashInfo), PageSet pf ci.m_memoryRegions →
      (∀ r ∈ regions, test r = true → WellFormed pf r ∧ r.startAddress < r.endAddress) →
      PageSet pf (insertRegionsIf pf test ci regions).m_memoryRegions ∧
      (∀ a, Covered (insertRegionsIf pf test ci regions).m_memoryRegions a ↔
        Covered ci.m_memoryRegions a ∨
          ∃ r ∈ regions, test r = true ∧ r.startAddress ≤ a ∧ a < r.endAddress ∧
            pf.ReadProcessMemory (pageFloor pf a) = true) ∧
      insertRegionsIf pf test ci regions =
        { ci with m_memoryRegions := (insertRegionsIf pf test ci regions).m_memoryRegions } := by
  intro regions
  induction regions with
  | nil =>
    intro ci hs _
    refine ⟨hs, ?_, rfl⟩
    intro a
    simp [insertRegionsIf]
  | cons r rest ih =>
    intro ci hs hwf
    have hrest : ∀ x ∈ rest, test x = true →
        WellFormed pf x ∧ x.startAddress < x.endAddress :=
      fun x hx => hwf x (List.mem_cons_of_mem _ hx)
    have hcons : insertRegionsIf pf test ci (r :: rest) =
        insertRegionsIf pf test
          (if test r then (InsertMemoryRegion pf ci r).2 else ci) rest := rfl
    rw [hcons]
    by_cases ht : test r = true
    · simp only [ht, if_true]
      obtain ⟨hw, hne⟩ := hwf r (List.mem_cons_self _ _) ht
      have hs1 : PageSet pf (InsertMemoryRegion pf ci r).2.m_memoryRegions :=
        pageSet_insertRegion pf hP hs hw hne
      have hcov := (insertRegion_spec pf hP hs hw).1
      obtain ⟨i1, i2, i3⟩ := ih (InsertMemoryRegion pf ci r).2 hs1 hrest
      refine ⟨i1, ?_, ?_⟩
      · intro a
        rw [i2 a]
        have hc : Covered (InsertMemoryRegion pf ci r).2.m_memoryRegions a ↔
            Covered ci.m_memoryRegions a ∨ (r.startAddress ≤ a ∧ a < r.endAddress ∧
              pf.ReadProcessMemory (pageFloor pf a) = true) := hcov a
        rw [hc]
        constructor
        · rintro ((h | h) | ⟨x, hx, h⟩)
          · exact Or.inl h
          · exact Or.inr ⟨r, List.mem_cons_self _ _, ht, h⟩
          · exact Or.inr ⟨x, List.mem_cons_of_mem _ hx, h⟩
        · rintro (h | ⟨x, hx, h⟩)
          · exact Or.inl (Or.inl h)
          · rcases List.mem_cons.mp hx with rfl | hx
            · exact Or.inl (Or.inr h.2)
            · exact Or.inr ⟨x, hx, h⟩
      · exact i3.trans rfl
    · have htf : test r = false := by simpa using ht
      simp only [htf, Bool.false_eq_true, if_false]
      obtain ⟨i1, i2, i3⟩ := ih ci hs hrest
      refine ⟨i1, ?_, i3⟩
      intro a
      rw [i2 a]
      constructor
      · rintro (h | ⟨x, hx, h⟩)
        · exact Or.inl h
        · exact Or.inr ⟨x, List.mem_cons_of_mem _ hx, h⟩
      · rintro (h | ⟨x, hx, h⟩)
        · exact Or.inl h
        · rcases List.mem_cons.mp hx with rfl | hx
          · rw [htf] at h
            exact absurd h.1 Bool.false_ne_true
          · exact Or.inr ⟨x, hx, h⟩

/-- With the full-memory tier `EnumerateMemoryRegionsWithDAC` returns success
and the state it was given, whatever the provider. -/
theorem enumerateMemoryRegionsWithDAC_full (pf : Platform) (k : Constants)
    (c : Collaborators) (ci : CrashInfo) (minidumpType : Nat)
    (hfull : minidumpType &&& k.MiniDumpWithFullMemory ≠ 0) :
    EnumerateMemoryRegionsWithDAC pf k c ci minidumpType = (true, ci) := by
  unfold EnumerateMemoryRegionsWithDAC
  cases ci.m_pClrDataEnumRegions with
  | none => rfl
  | some regions => simp [hfull]

/-- C19 (the code at the failing input). A Linux run for two threads in which
every stage succeeds: the mapping enumeration records the module mapping
`[0x1000, 0x3000)` and the unwinding of a thread reads zero bytes at `0x1000`,
which stores the empty entry `[0x1000, 0x1000)` in the Memory Region Set.
With the full-memory tier `GatherCrashInfo` returns true, and the page at
`0x1000`, a readable page of the module mapping, is not covered by the Memory
Region Set: the insertion of the mapping finds the empty entry, goes page by
page and skips the page that the empty entry collides with. -/
theorem full_memory_misses_page_after_zero_read :
    (GatherCrashInfo readablePlatform palConstants blindReader zeroReadCollaborators
      [11, 12] 2 ⟨emptyState, []⟩).1 = true ∧
    (∀ e ∈ (GatherCrashInfo readablePlatform palConstants blindReader zeroReadCollaborators
      [11, 12] 2 ⟨emptyState, []⟩).2.trace, e.2 = true) ∧
    (gatherStages readablePlatform palConstants blindReader zeroReadCollaborators
      [11, 12] ⟨emptyState, []⟩).2.ci.m_memoryRegions = [mkRegion 5 0x1000 0x1000] ∧
    mkRegion 5 0x1000 0x3000 ∈
      (GatherCrashInfo readablePlatform palConstants blindReader zeroReadCollaborators
        [11, 12] 2 ⟨emptyState, []⟩).2.ci.m_moduleMappings ∧
    readablePlatform.ReadProcessMemory 0x1000 = true ∧
    ¬ Covered (GatherCrashInfo readablePlatform palConstants blindReader
      zeroReadCollaborators [11, 12] 2 ⟨emptyState, []⟩).2.ci.m_memoryRegions 0x1000 ∧
    (GatherCrashInfo readablePlatform palConstants blindReader zeroReadCollaborators
      [11, 12] 2 ⟨emptyState, []⟩).2.ci.m_memoryRegions =
      [mkRegion 5 0x1000 0x1000, mkRegion 5 0x2000 0x3000, mkRegion 6 0x5000 0x6000] := by
  decide

/-- Where the full-fidelity selection covers every readable page: when all
stages succeed and the full-memory tier is requested, and the state the stages
leave has a Memory Region Set of
ordered, page-aligned, non-empty entries and well-formed, non-empty mappings,
`GatherCrashInfo` returns true, leaves both mapping tables as they are, and the
addresses covered by the Memory Region Set afterwards are exactly those
covered before the selection, the readable pages of every base (module)
mapping, and the readable pages of every other tracked mapping that has at
least one of the R/W/X permission bits set: every such page is covered, and
the other mappings with no permission bit set add nothing. With the
full-memory tier `EnumerateMemoryRegionsWithDAC` returns success and the state
it was given, whatever the provider: the provider's region enumeration is not
invoked. -/
theorem gatherCrashInfo_full_memory (pf : Platform) (k : Constants) (img : ImageReader)
    (c : Collaborators) (threads : List Nat) (minidumpType : Nat) (st : Run)
    (hP : 0 < pf.PAGE_SIZE)
    (hok : (gatherStages pf k img c threads st).1 = true)
    (hfull : minidumpType &&& k.MiniDumpWithFullMemory ≠ 0)
    (hset : PageSet pf (gatherStages pf k img c threads st).2.ci.m_memoryRegions)
    (hmod : ∀ r ∈ (gatherStages pf k img c threads st).2.ci.m_moduleMappings,
      WellFormed pf r ∧ r.startAddress < r.endAddress)
    (hoth : ∀ r ∈ (gatherStages pf k img c threads st).2.ci.m_otherMappings,
      hasPermission pf k r = true → WellFormed pf r ∧ r.startAddress < r.endAddress) :
    (GatherCrashInfo pf k img c threads minidumpType st).1 = true ∧
    (GatherCrashInfo pf k img c threads minidumpType st).2.ci.m_moduleMappings =
      (gatherStages pf k img c threads st).2.ci.m_moduleMappings ∧
    (GatherCrashInfo pf k img c threads minidumpType st).2.ci.m_otherMappings =
      (gatherStages pf k img c threads st).2.ci.m_otherMappings ∧
    (∀ a, Covered (GatherCrashInfo pf k img c threads minidumpType st).2.ci.m_memoryRegions a ↔
      Covered (gatherStages pf k img c threads st).2.ci.m_memoryRegions a ∨
      (∃ r ∈ (gatherStages pf k img c threads st).2.ci.m_moduleMappings,
        r.startAddress ≤ a ∧ a < r.endAddress ∧
          pf.ReadProcessMemory (pageFloor pf a) = true) ∨
      (∃ r ∈ (gatherStages pf k img c threads st).2.ci.m_otherMappings,
        hasPermission pf k r = true ∧ r.startAddress ≤ a ∧ a < r.endAddress ∧
          pf.ReadProcessMemory (pageFloor pf a) = true)) ∧
    (∀ ci2, EnumerateMemoryRegionsWithDAC pf k c ci2 minidumpType = (true, ci2)) := by
  obtain ⟨m1, m2, m3⟩ := insertRegionsIf_spec pf hP (fun _ => true)
    (gatherStages pf k img c threads st).2.ci.m_moduleMappings
    (gatherStages pf k img c threads st).2.ci hset (fun r hr _ => hmod r hr)
  obtain ⟨o1, o2, o3⟩ := insertRegionsIf_spec pf hP (hasPermission pf k)
    (gatherStages pf k img c threads st).2.ci.m_otherMappings
    (insertRegionsIf pf (fun _ => true) (gatherStages pf k img c threads st).2.ci
      (gatherStages pf k img c threads st).2.ci.m_moduleMappings) m1 hoth
  have hfin : (GatherCrashInfo pf k img c threads minidumpType st).2.ci =
      insertRegionsIf pf (hasPermission pf k)
        (insertRegionsIf pf (fun _ => true) (gatherStages pf k img c threads st).2.ci
          (gatherStages pf k img c threads st).2.ci.m_moduleMappings)
        (gatherStages pf k img c threads st).2.ci.m_otherMappings := by
    unfold GatherCrashInfo
    rw [hok]
    simp only [Bool.not_true, Bool.false_eq_true, if_false, runVoid, regionSelection, hfull,
      ne_eq, not_false_eq_true, if_true]
  refine ⟨?_, ?_, ?_, ?_, fun ci2 => enumerateMemoryRegionsWithDAC_full pf k c ci2 _ hfull⟩
  · unfold GatherCrashInfo
    rw [hok]
    rfl
  · rw [hfin, o3]
    show (insertRegionsIf pf (fun _ => true) (gatherStages pf k img c threads st).2.ci
      (gatherStages pf k img c threads st).2.ci.m_moduleMappings).m_moduleMappings = _
    rw [m3]
  · rw [hfin, o3]
    show (insertRegionsIf pf (fun _ => true) (gatherStages pf k img c threads st).2.ci
      (gatherStages pf k img c threads st).2.ci.m_moduleMappings).m_otherMappings = _
    rw [m3]
  · intro a
    rw [hfin, o2 a, m2 a]
    constructor
    · rintro ((h | ⟨r, hr, _, h⟩) | h)
      · exact Or.inl h
      · exact Or.inr (Or.inl ⟨r, hr, h⟩)
      · exact Or.inr (Or.inr h)
    · rintro (h | ⟨r, hr, h⟩ | h)
      · exact Or.inl (Or.inl h)
      · exact Or.inl (Or.inr ⟨r, hr, rfl, h⟩)
      · exact Or.inr h

theorem gatherCrashInfo_full_memory_witness :
    (GatherCrashInfo readablePlatform palConstants blindReader noRuntimeCollaborators
      [11, 12] 2 ⟨emptyState, []⟩).1 = true ∧
    (GatherCrashInfo readablePlatform palConstants blindReader noRuntimeCollaborators
      [11, 12] 2 ⟨emptyState, []⟩).2.ci.m_moduleMappings =
      (gatherStages readablePlatform palConstants blindReader noRuntimeCollaborators
        [11, 12] ⟨emptyState, []⟩).2.ci.m_moduleMappings ∧
    (GatherCrashInfo readablePlatform palConstants blindReader noRuntimeCollaborators
      [11, 12] 2 ⟨emptyState, []⟩).2.ci.m_otherMappings =
      (gatherStages readablePlatform palConstants blindReader noRuntimeCollaborators
        [11, 12] ⟨emptyState, []⟩).2.ci.m_otherMappings ∧
    (∀ a, Covered (GatherCrashInfo readablePlatform palConstants blindReader
        noRuntimeCollaborators [11, 12] 2 ⟨emptyState, []⟩).2.ci.m_memoryRegions a ↔
      Covered (gatherStages readablePlatform palConstants blindReader noRuntimeCollaborators
        [11, 12] ⟨emptyState, []⟩).2.ci.m_memoryRegions a ∨
      (∃ r ∈ (gatherStages readablePlatform palConstants blindReader noRuntimeCollaborators
          [11, 12] ⟨emptyState, []⟩).2.ci.m_moduleMappings,
        r.startAddress ≤ a ∧ a < r.endAddress ∧
          readablePlatform.ReadProcessMemory (pageFloor readablePlatform a) = true) ∨
      (∃ r ∈ (gatherStages readablePlatform palConstants blindReader noRuntimeCollaborators
          [11, 12] ⟨emptyState, []⟩).2.ci.m_otherMappings,
        hasPermission readablePlatform palConstants r = true ∧
          r.startAddress ≤ a ∧ a < r.endAddress ∧
          readablePlatform.ReadProcessMemory (pageFloor readablePlatform a) = true)) ∧
    (∀ ci2, EnumerateMemoryRegionsWithDAC readablePlatform palConstants
      noRuntimeCollaborators ci2 2 = (true, ci2)) :=
  gatherCrashInfo_full_memory readablePlatform palConstants blindReader
    noRuntimeCollaborators [11, 12] 2 ⟨emptyState, []⟩ (by decide) (by decide) (by decide)
    (by decide) (by decide) (by decide)

/-- The selection of the witness run: the module mapping and the readable
mapping with permissions are in the Memory Region Set, the mapping without
permission bits is not. -/
theorem gatherCrashInfo_full_memory_example :
    (GatherCrashInfo readablePlatform palConstants blindReader noRuntimeCollaborators
      [11, 12] 2 ⟨emptyState, []⟩).2.ci.m_memoryRegions =
      [mkRegion 5 0x1000 0x3000, mkRegion 6 0x5000 0x6000] := by
  decide

/-! ## Module mapping resolution: the found case -/

theorem size_lt_U64 (r : MemoryRegion) : r.Size < U64 :=
  Nat.mod_lt _ (by decide)

/-- The byte total after the found branch of `AddOrReplaceModuleMapping`:
unchanged when the entry has the name already; otherwise what is read through
the erased iterator is taken off and the size of the renamed entry, which is
the size of the entry found, is added, in 64 bits. -/
theorem addOrReplaceModuleMapping_cb_found (pf : Platform) (ci : CrashInfo)
    (baseAddress size : Nat) (name : String) {E : MemoryRegion}
    (h : setFind ci.m_moduleMappings (headerPage pf 0 baseAddress) = some E) :
    (AddOrReplaceModuleMapping pf ci baseAddress size name).m_cbModuleMappings =
      if E.fileName = name then ci.m_cbModuleMappings
      else ((ci.m_cbModuleMappings + U64 - pf.erasedSize E % U64) % U64 + E.Size) % U64 := by
  have hc : setFind ci.m_moduleMappings
      (mkRegion (pf.GetMemoryRegionFlags ci baseAddress) (pageFloor pf baseAddress)
        ((pageFloor pf baseAddress + pf.PAGE_SIZE) % U64)) =
      setFind ci.m_moduleMappings (headerPage pf 0 baseAddress) :=
    setFind_congr _ rfl rfl
  unfold AddOrReplaceModuleMapping
  simp only [insertMemoryRegion_moduleMappings, hc, h]
  by_cases hn : E.fileName = name
  · simp only [hn, ne_eq, not_true_eq_false, if_false, if_true]
    rfl
  · simp only [hn, ne_eq, not_false_eq_true, if_true, if_false]
    rfl

/-- The byte total is unchanged by the found branch when the entry has the
name already or the read through the erased iterator still yields the size of
the entry. -/
theorem addOrReplaceModuleMapping_cb_some (pf : Platform) (ci : CrashInfo)
    (baseAddress size : Nat) (name : String) {E : MemoryRegion}
    (h : setFind ci.m_moduleMappings (headerPage pf 0 baseAddress) = some E)
    (hcb : ci.m_cbModuleMappings < U64)
    (hread : E.fileName = name ∨ pf.erasedSize E = E.Size) :
    (AddOrReplaceModuleMapping pf ci baseAddress size name).m_cbModuleMappings =
      ci.m_cbModuleMappings := by
  rw [addOrReplaceModuleMapping_cb_found pf ci baseAddress size name h]
  by_cases hn : E.fileName = name
  · rw [if_pos hn]
  · rw [if_neg hn]
    rcases hread with hr | hr
    · exact absurd hr hn
    · rw [hr]
      have hlt := size_lt_U64 E
      unfold U64 at hcb hlt ⊢
      omega

/-- In a page-aligned table, the lookup of the header page finds the entry
whose range overlaps that page. -/
theorem setFind_headerPage_of_overlap (pf : Platform) {s : RegionSet} {E : MemoryRegion}
    (baseAddress : Nat) (hs : SetOrdered s) (ha : PageAligned pf s) (hE : E ∈ s)
    (ho : RangesOverlap E (headerPage pf 0 baseAddress)) :
    setFind s (headerPage pf 0 baseAddress) = some E := by
  obtain ⟨x, ⟨hx1, hx2⟩, hx3, hx4⟩ := ho
  simp only [headerPage, mkRegion] at hx3 hx4
  have hle : (pageFloor pf baseAddress + pf.PAGE_SIZE) % U64 ≤
      pageFloor pf baseAddress + pf.PAGE_SIZE := Nat.mod_le _ _
  have hfl := pageFloor_mod pf baseAddress
  obtain ⟨ha1, _⟩ := ha E hE
  have hstart : E.startAddress ≤ pageFloor pf baseAddress := by
    by_contra hc
    have := aligned_next hfl ha1 (Nat.lt_of_not_le hc)
    omega
  obtain ⟨pre, post, hsplit⟩ := List.append_of_mem hE
  subst hsplit
  unfold SetOrdered at hs
  rw [List.pairwise_append] at hs
  obtain ⟨_, _, h3⟩ := hs
  apply setFind_at
  · intro y hy
    have := h3 y hy E (List.mem_cons_self _ _)
    rw [lt_iff] at this ⊢
    simp only [headerPage, mkRegion]
    omega
  · rw [lt_false_iff]
    simp only [headerPage, mkRegion]
    omega
  · rw [lt_false_iff]
    simp only [headerPage, mkRegion]
    omega

/-- C21 (the code at the failing input). The table holds `[0x5000, 0x9000)`
named `/dev/zero` and the byte total is `0x4000`, the size of that entry; the
heap clears an erased entry. The module at base `0x5800` is registered as
`lib.dll`: the entry, which holds the header page `[0x5000, 0x6000)`, is
replaced by one with the same flags, range and offset and the new name, and
the byte total, from which the size read through the erased iterator (zero)
is taken off and to which `0x4000` is added, ends at `0x8000`, twice the
bytes of the table. -/
theorem found_rename_reads_erased_size :
    SetOrdered devZeroTotalState.m_moduleMappings ∧
    PageAligned scrubbingPlatform devZeroTotalState.m_moduleMappings ∧
    headerPage scrubbingPlatform 0 0x5800 = mkRegion 0 0x5000 0x6000 ∧
    devZeroTotalState.m_cbModuleMappings = mappingBytes devZeroTotalState.m_moduleMappings ∧
    (AddOrReplaceModuleMapping scrubbingPlatform devZeroTotalState 0x5800 0x800
      "lib.dll").m_moduleMappings =
      [{ flags := 5, startAddress := 0x5000, endAddress := 0x9000, offset := 0,
         fileName := "lib.dll" }] ∧
    mappingBytes (AddOrReplaceModuleMapping scrubbingPlatform devZeroTotalState 0x5800 0x800
      "lib.dll").m_moduleMappings = 0x4000 ∧
    (AddOrReplaceModuleMapping scrubbingPlatform devZeroTotalState 0x5800 0x800
      "lib.dll").m_cbModuleMappings = 0x8000 := by
  decide

/-- What the found case of mapping resolution does for every heap: on a
Module Mapping Table of page-aligned entries ordered without collision
(pairwise non-overlapping) in which an entry E overlaps the header page of
`base`, after `AddOrReplaceModuleMapping(base, size, name)` the table is the
table before with E replaced, in its place, by the entry with E's flags,
start, end and offset and the file name `name` (the table is unchanged when E
already had that name); every other entry is as before, none is added or
removed. The byte total, a 64-bit value, is unchanged when E already had the
name or when the read through the erased iterator yields the size of E. -/
theorem addOrReplaceModuleMapping_found_renames_only (pf : Platform) (ci : CrashInfo)
    (baseAddress size : Nat) (name : String) (E : MemoryRegion)
    (hs : SetOrdered ci.m_moduleMappings) (ha : PageAligned pf ci.m_moduleMappings)
    (hE : E ∈ ci.m_moduleMappings) (ho : RangesOverlap E (headerPage pf 0 baseAddress))
    (hcb : ci.m_cbModuleMappings < U64) :
    ∃ pre post, ci.m_moduleMappings = pre ++ E :: post ∧
      (AddOrReplaceModuleMapping pf ci baseAddress size name).m_moduleMappings =
        pre ++ ({ flags := E.flags, startAddress := E.startAddress,
                  endAddress := E.endAddress, offset := E.offset, fileName := name }
                : MemoryRegion) :: post ∧
      (E.fileName = name →
        (AddOrReplaceModuleMapping pf ci baseAddress size name).m_moduleMappings =
          ci.m_moduleMappings) ∧
      (E.fileName = name ∨ pf.erasedSize E = E.Size →
        (AddOrReplaceModuleMapping pf ci baseAddress size name).m_cbModuleMappings =
          ci.m_cbModuleMappings) := by
  have hfind := setFind_headerPage_of_overlap pf baseAddress hs ha hE ho
  obtain ⟨pre, post, hsplit, _⟩ := setFind_some_split hfind
  have hnew := addOrReplaceModuleMapping_found pf ci baseAddress size name hs hsplit hfind
  refine ⟨pre, post, hsplit, hnew, ?_,
    addOrReplaceModuleMapping_cb_some pf ci baseAddress size name hfind hcb⟩
  intro hn
  rw [hnew, hsplit, ← hn]

theorem addOrReplaceModuleMapping_found_renames_only_witness :
    (AddOrReplaceModuleMapping readablePlatform devZeroState 0x5800 0x800
      "lib.dll").m_moduleMappings =
      [{ flags := 5, startAddress := 0x5000, endAddress := 0x9000, offset := 0,
         fileName := "lib.dll" }] ∧
    (AddOrReplaceModuleMapping readablePlatform devZeroState 0x5800 0x800
      "lib.dll").m_cbModuleMappings = devZeroState.m_cbModuleMappings := by
  obtain ⟨pre, post, hp, hq, _, hr⟩ :=
    addOrReplaceModuleMapping_found_renames_only readablePlatform devZeroState 0x5800 0x800
      "lib.dll" { flags := 5, startAddress := 0x5000, endAddress := 0x9000,
                  fileName := "/dev/zero" }
      (by decide) (by decide) (by decide) ⟨0x5000, by decide⟩ (by decide)
  have hnil : pre = [] ∧ post = [] := by
    have hlen := congrArg List.length hp
    simp only [devZeroState, List.length_append, List.length_cons, List.length_nil] at hlen
    have h1 : pre.length = 0 := by omega
    have h2 : post.length = 0 := by omega
    exact ⟨List.length_eq_zero.mp h1, List.length_eq_zero.mp h2⟩
  obtain ⟨rfl, rfl⟩ := hnil
  exact ⟨hq, hr (Or.inr rfl)⟩

/-! ## Coalescing: the assertions -/

/-- The new set with which the scan ends is the new set it starts from with
the committed regions inserted in order. -/
theorem combineCommits_foldl (mask : Nat) :
    ∀ (rest : List MemoryRegion) (flags start stop : Nat) (new : RegionSet),
      ((combineCommits mask rest flags start stop new).map Prod.fst).foldl setInsert new =
        combineOut mask rest flags start stop new := by
  intro rest
  induction rest with
  | nil => intro flags start stop new; rfl
  | cons r rest ih =>
    intro flags start stop new
    rw [combineOut_cons]
    unfold combineCommits
    by_cases hc : stop = r.startAddress ∧ flags = r.flags &&& mask
    · rw [if_pos hc, if_pos hc]
      exact ih _ _ _ _
    · rw [if_neg hc, if_neg hc]
      simp only [List.map_cons, List.foldl_cons]
      exact ih _ _ _ _

/-- The set recorded with a commit is the new set the scan starts from with
the regions committed before it inserted in order. -/
theorem combineCommits_snapshot (mask : Nat) :
    ∀ (rest : List MemoryRegion) (flags start stop : Nat) (new : RegionSet)
      (pre post : List (MemoryRegion × RegionSet)) (c : MemoryRegion × RegionSet),
      combineCommits mask rest flags start stop new = pre ++ c :: post →
      c.2 = (pre.map Prod.fst).foldl setInsert new := by
  intro rest
  induction rest with
  | nil =>
    intro flags start stop new pre post c h
    unfold combineCommits at h
    cases pre with
    | nil =>
      simp only [List.nil_append, List.cons.injEq] at h
      rw [← h.1]
      rfl
    | cons p pre =>
      have hlen := congrArg List.length h
      simp at hlen
  | cons r rest ih =>
    intro flags start stop new pre post c h
    unfold combineCommits at h
    by_cases hc : stop = r.startAddress ∧ flags = r.flags &&& mask
    · rw [if_pos hc] at h
      exact ih _ _ _ _ pre post c h
    · rw [if_neg hc] at h
      cases pre with
      | nil =>
        simp only [List.nil_append, List.cons.injEq] at h
        rw [← h.1]
        rfl
      | cons p pre =>
        simp only [List.cons_append, List.cons.injEq] at h
        obtain ⟨hp, hrest⟩ := h
        rw [← hp]
        simp only [List.map_cons, List.foldl_cons]
        exact ih _ _ _ _ pre post c hrest

/-- The scan always ends with a commit, that of the final accumulator. -/
theorem combineCommits_ne_nil (mask : Nat) :
    ∀ (rest : List MemoryRegion) (flags start stop : Nat) (new : RegionSet),
      combineCommits mask rest flags start stop new ≠ [] := by
  intro rest
  induction rest with
  | nil => intro flags start stop new; simp [combineCommits]
  | cons r rest ih =>
    intro flags start stop new
    unfold combineCommits
    by_cases hc : stop = r.startAddress ∧ flags = r.flags &&& mask
    · rw [if_pos hc]
      exact ih _ _ _ _
    · rw [if_neg hc]
      simp

/-- From a state of the scan with a non-empty accumulator above the new set
and below the regions still to visit, every commit is of a non-empty region
that no entry of the new set collides with. -/
theorem combineCommits_asserts (mask : Nat) :
    ∀ (rest : List MemoryRegion) (flags start stop : Nat) (new : RegionSet),
      start < stop → SetOrdered new →
      (∀ x ∈ new, x.startAddress < x.endAddress ∧ x.endAddress ≤ start) →
      SetOrdered rest → NonEmptyEntries rest → (∀ r ∈ rest, stop ≤ r.startAddress) →
      ∀ c ∈ combineCommits mask rest flags start stop new, CommitAsserts c := by
  intro rest
  induction rest with
  | nil =>
    intro flags start stop new h1 _ h3 _ _ _ c hc
    unfold combineCommits at hc
    rw [List.mem_singleton] at hc
    subst hc
    have hbelow : ∀ e ∈ new, e.lt (mkRegion flags start stop) = true := by
      intro e he
      rw [lt_iff]
      have := h3 e he
      simp only [mkRegion]
      omega
    refine ⟨?_, setFind_none_of_free (fun e he => Or.inl (hbelow e he)), ?_⟩
    · simp only [mkRegion]; omega
    · intro e he hcol
      have h := hbelow e he
      rw [hcol.1] at h
      cases h
  | cons r rest ih =>
    intro flags start stop new h1 h2 h3 h4 h5 h6 c hc
    obtain ⟨hr1, hr2⟩ := setOrdered_cons.mp h4
    have hrne : r.startAddress < r.endAddress := h5 r (List.mem_cons_self _ _)
    have hrb : stop ≤ r.startAddress := h6 r (List.mem_cons_self _ _)
    have hrest_ne : NonEmptyEntries rest := fun e he => h5 e (List.mem_cons_of_mem _ he)
    have hrest_above : ∀ e ∈ rest, r.endAddress ≤ e.startAddress := by
      intro e he
      have := hr1 e he
      rw [lt_iff] at this
      exact this.2
    have hbelow : ∀ e ∈ new, e.lt (mkRegion flags start stop) = true := by
      intro e he
      rw [lt_iff]
      have := h3 e he
      simp only [mkRegion]
      omega
    unfold combineCommits at hc
    by_cases hcond : stop = r.startAddress ∧ flags = r.flags &&& mask
    · rw [if_pos hcond] at hc
      exact ih flags start r.endAddress new (by omega) h2 h3 hr2 hrest_ne hrest_above c hc
    · rw [if_neg hcond] at hc
      rcases List.mem_cons.mp hc with rfl | hc
      · refine ⟨?_, setFind_none_of_free (fun e he => Or.inl (hbelow e he)), ?_⟩
        · simp only [mkRegion]; omega
        · intro e he hcol
          have h := hbelow e he
          rw [hcol.1] at h
          cases h
      · refine ih _ _ _ _ hrne (setOrdered_setInsert h2 _) ?_ hr2 hrest_ne hrest_above c hc
        intro x hx
        rcases mem_setInsert hx with rfl | hx
        · simp only [mkRegion]
          omega
        · have := h3 x hx
          omega

/-- C22. The assertions inside `CombineMemoryRegions` cannot fail under its
precondition: on every non-empty Memory Region Set of non-empty entries
ordered by start address without collision (pairwise non-overlapping), the
function returns a set, which is the empty set with the committed regions
inserted in order; at least one region is committed; and each region
committed during the scan, as well as the final one, has `start != end`, is
not found in the new set at that point, and collides with no entry already
placed in it. -/
theorem combineMemoryRegions_assertions_hold (pf : Platform) (ci : CrashInfo)
    (hne : ci.m_memoryRegions ≠ []) (hs : SetOrdered ci.m_memoryRegions)
    (hn : NonEmptyEntries ci.m_memoryRegions) :
    (∃ ci2, CombineMemoryRegions pf ci = some ci2 ∧
      ci2.m_memoryRegions =
        ((combineMemoryRegionsCommits pf.MEMORY_REGION_FLAG_PERMISSIONS_MASK
          ci.m_memoryRegions).map Prod.fst).foldl setInsert []) ∧
    combineMemoryRegionsCommits pf.MEMORY_REGION_FLAG_PERMISSIONS_MASK ci.m_memoryRegions
      ≠ [] ∧
    ∀ c ∈ combineMemoryRegionsCommits pf.MEMORY_REGION_FLAG_PERMISSIONS_MASK
        ci.m_memoryRegions,
      c.1.startAddress ≠ c.1.endAddress ∧ setFind c.2 c.1 = none ∧
        ∀ r ∈ c.2, ¬ r.Collides c.1 := by
  cases hm : ci.m_memoryRegions with
  | nil => exact absurd hm hne
  | cons first rest =>
    rw [hm] at hs hn
    obtain ⟨hr1, hr2⟩ := setOrdered_cons.mp hs
    have hstep : combineMemoryRegionsCommits pf.MEMORY_REGION_FLAG_PERMISSIONS_MASK
        (first :: rest) =
        combineCommits pf.MEMORY_REGION_FLAG_PERMISSIONS_MASK rest
          (first.flags &&& pf.MEMORY_REGION_FLAG_PERMISSIONS_MASK) first.startAddress
          first.endAddress [] := by
      simp [combineMemoryRegionsCommits, combineCommits]
    rw [hstep]
    refine ⟨⟨{ ci with m_memoryRegions := _ }, ?_, rfl⟩, ?_, ?_⟩
    · rw [combineCommits_foldl]
      simp [CombineMemoryRegions, hm, combineRegions_cons]
    · exact combineCommits_ne_nil _ _ _ _ _ _
    · exact combineCommits_asserts pf.MEMORY_REGION_FLAG_PERMISSIONS_MASK rest _ _ _ []
        (hn first (List.mem_cons_self _ _)) (by simp [SetOrdered])
        (fun x hx => by cases hx) hr2
        (fun e he => hn e (List.mem_cons_of_mem _ he))
        (fun e he => by
          have := hr1 e he
          rw [lt_iff] at this
          exact this.2)

theorem combineMemoryRegions_assertions_hold_witness :
    (∃ ci2, CombineMemoryRegions readablePlatform threePageState = some ci2 ∧
      ci2.m_memoryRegions =
        ((combineMemoryRegionsCommits readablePlatform.MEMORY_REGION_FLAG_PERMISSIONS_MASK
          threePageState.m_memoryRegions).map Prod.fst).foldl setInsert []) ∧
    combineMemoryRegionsCommits readablePlatform.MEMORY_REGION_FLAG_PERMISSIONS_MASK
      threePageState.m_memoryRegions ≠ [] ∧
    ∀ c ∈ combineMemoryRegionsCommits readablePlatform.MEMORY_REGION_FLAG_PERMISSIONS_MASK
        threePageState.m_memoryRegions,
      c.1.startAddress ≠ c.1.endAddress ∧ setFind c.2 c.1 = none ∧
        ∀ r ∈ c.2, ¬ r.Collides c.1 :=
  combineMemoryRegions_assertions_hold readablePlatform threePageState (by decide)
    (by decide) (by decide)

/-- The commits of `CombineMemoryRegions` on three adjacent pages of which the
first two have equal permission bits: `[0x1000, 0x3000)` into the empty set,
then `[0x3000, 0x4000)` into the set holding the first. -/
theorem combineMemoryRegionsCommits_example :
    combineMemoryRegionsCommits 7 threePageState.m_memoryRegions =
      [(mkRegion 5 0x1000 0x3000, []),
       (mkRegion 6 0x3000 0x4000, [mkRegion 5 0x1000 0x3000])] := by
  decide

/-! ## Coalescing: idempotence -/

/-- Every entry the scan of `CombineMemoryRegions` produces is built by the
three-argument constructor: no offset, no file name. -/
theorem combineOut_constructed (mask : Nat) :
    ∀ (rest : List MemoryRegion) (flags start stop : Nat) (new : RegionSet),
      (∀ x ∈ new, x = mkRegion x.flags x.startAddress x.endAddress) →
      ∀ x ∈ combineOut mask rest flags start stop new,
        x = mkRegion x.flags x.startAddress x.endAddress := by
  intro rest
  induction rest with
  | nil =>
    intro flags start stop new h x hx
    rw [combineOut_nil] at hx
    rcases mem_setInsert hx with rfl | hx
    · rfl
    · exact h x hx
  | cons r rest ih =>
    intro flags start stop new h x hx
    rw [combineOut_cons] at hx
    by_cases hc : stop = r.startAddress ∧ flags = r.flags &&& mask
    · rw [if_pos hc] at hx
      exact ih _ _ _ _ h x hx
    · rw [if_neg hc] at hx
      refine ih _ _ _ _ ?_ x hx
      intro y hy
      rcases mem_setInsert hy with rfl | hy
      · rfl
      · exact h y hy

/-- On an ordered list of constructed entries with masked flags no two of
which can be merged, the scan of `CombineMemoryRegions` commits every entry as
it is. -/
theorem combineOut_fixed (mask : Nat) :
    ∀ (rest : List MemoryRegion) (a : MemoryRegion) (pre : RegionSet),
      SetOrdered (pre ++ a :: rest) →
      (∀ x ∈ pre ++ a :: rest, x.flags &&& mask = x.flags) →
      (∀ x ∈ pre ++ a :: rest, x = mkRegion x.flags x.startAddress x.endAddress) →
      (∀ x ∈ pre ++ a :: rest, ∀ y ∈ pre ++ a :: rest, ¬ Mergeable mask x y) →
      combineOut mask rest a.flags a.startAddress a.endAddress pre = pre ++ a :: rest := by
  intro rest
  induction rest with
  | nil =>
    intro a pre hs _ hc _
    rw [combineOut_nil, ← hc a (by simp)]
    unfold SetOrdered at hs
    rw [List.pairwise_append] at hs
    have := @setInsert_between pre [] a
      (fun x hx => hs.2.2 x hx a (List.mem_cons_self _ _)) (fun y hy => by cases hy)
    rw [List.append_nil] at this
    exact this
  | cons r rest ih =>
    intro a pre hs hm hc hmerge
    have ha : a ∈ pre ++ a :: r :: rest := by simp
    have hr : r ∈ pre ++ a :: r :: rest := by simp
    rw [combineOut_cons]
    have hcond : ¬ (a.endAddress = r.startAddress ∧ a.flags = r.flags &&& mask) := by
      rintro ⟨h1, h2⟩
      apply hmerge a ha r hr
      refine ⟨h1, ?_⟩
      rw [hm a ha]
      exact h2
    rw [if_neg hcond, ← hc a ha, hm r hr]
    have hins : setInsert pre a = pre ++ [a] := by
      unfold SetOrdered at hs
      rw [List.pairwise_append] at hs
      have := @setInsert_between pre [] a
        (fun x hx => hs.2.2 x hx a (List.mem_cons_self _ _)) (fun y hy => by cases hy)
      rw [List.append_nil] at this
      exact this
    rw [hins]
    have heq : (pre ++ [a]) ++ r :: rest = pre ++ a :: r :: rest := by simp
    rw [← heq] at hs hm hc hmerge ⊢
    exact ih r (pre ++ [a]) hs hm hc hmerge

/-- C23. `CombineMemoryRegions` is idempotent: on every non-empty Memory Region
Set of non-empty entries ordered without collision (pairwise non-overlapping),
the function returns a set, and applied to the state it returns it returns
that same state: the same entries, with the same ranges and flags. -/
theorem combineMemoryRegions_idempotent (pf : Platform) (ci : CrashInfo)
    (hne : ci.m_memoryRegions ≠ []) (hs : SetOrdered ci.m_memoryRegions)
    (hn : NonEmptyEntries ci.m_memoryRegions) :
    ∃ ci2, CombineMemoryRegions pf ci = some ci2 ∧
      CombineMemoryRegions pf ci2 = some ci2 := by
  obtain ⟨out, h1, h2, h3, h4, h5, h6⟩ :=
    combineRegions_spec pf.MEMORY_REGION_FLAG_PERMISSIONS_MASK hne hs hn
  refine ⟨{ ci with m_memoryRegions := out }, by simp [CombineMemoryRegions, h1], ?_⟩
  have hcons : ∀ x ∈ out, x = mkRegion x.flags x.startAddress x.endAddress := by
    cases hm : ci.m_memoryRegions with
    | nil => exact absurd hm hne
    | cons first rest =>
      rw [hm, combineRegions_cons] at h1
      cases h1
      exact combineOut_constructed _ rest _ _ _ [] (fun x hx => by cases hx)
  have hfix : combineRegions pf.MEMORY_REGION_FLAG_PERMISSIONS_MASK out = some out := by
    cases hout : out with
    | nil =>
      exfalso
      cases hm : ci.m_memoryRegions with
      | nil => exact absurd hm hne
      | cons first rest =>
        have hcov : Covered ci.m_memoryRegions first.startAddress := by
          rw [hm]
          exact ⟨first, List.mem_cons_self _ _, le_refl _,
            hn first (by rw [hm]; exact List.mem_cons_self _ _)⟩
        obtain ⟨e, he, _⟩ := (h6 _).mpr hcov
        rw [hout] at he
        cases he
    | cons a rest =>
      rw [hout] at h2 h4 h5 hcons
      rw [combineRegions_cons, h4 a (List.mem_cons_self _ _)]
      exact congrArg some (combineOut_fixed _ rest a [] h2 h4 hcons h5)
  simp [CombineMemoryRegions, hfix]

theorem combineMemoryRegions_idempotent_witness :
    ∃ ci2, CombineMemoryRegions readablePlatform threePageState = some ci2 ∧
      CombineMemoryRegions readablePlatform ci2 = some ci2 :=
  combineMemoryRegions_idempotent readablePlatform threePageState (by decide) (by decide)
    (by decide)

/-- The fixed point that `CombineMemoryRegions` reaches on three adjacent
pages of which the first two have equal permission bits. -/
theorem combineMemoryRegions_idempotent_example :
    combineRegions 7 threePageState.m_memoryRegions =
      some [mkRegion 5 0x1000 0x3000, mkRegion 6 0x3000 0x4000] ∧
    combineRegions 7 [mkRegion 5 0x1000 0x3000, mkRegion 6 0x3000 0x4000] =
      some [mkRegion 5 0x1000 0x3000, mkRegion 6 0x3000 0x4000] := by
  decide

/-! ## Module mapping resolution: the byte total -/

theorem mappingBytes_split (pre post : RegionSet) (e : MemoryRegion) :
    mappingBytes (pre ++ e :: post) = mappingBytes pre + e.Size + mappingBytes post := by
  simp [mappingBytes, List.sum_append, Nat.add_assoc]

theorem mappingBytes_append (pre post : RegionSet) :
    mappingBytes (pre ++ post) = mappingBytes pre + mappingBytes post := by
  simp [mappingBytes, List.sum_append]

/-- C24 (the code at the failing input). The table holds `[0x6000, 0x7000)`
and the byte total is `0x1000`, the size of that entry. The module at base
`0x5000` of size `0x1800` has the header page `[0x5000, 0x6000)`, which no
entry collides with, and the page-rounded range `[0x5000, 0x7000)`, which
collides with the stored entry: `AddOrReplaceModuleMapping` leaves the table
as it was, with `0x1000` bytes of entries, and sets the byte total to
`0x3000`. -/
theorem byte_total_counts_refused_mapping :
    SetOrdered neighbourTotalState.m_moduleMappings ∧
    neighbourTotalState.m_cbModuleMappings =
      mappingBytes neighbourTotalState.m_moduleMappings ∧
    (∀ e ∈ neighbourTotalState.m_moduleMappings,
      ¬ e.Collides (headerPage readablePlatform 0 0x5000)) ∧
    (AddOrReplaceModuleMapping readablePlatform neighbourTotalState 0x5000 0x1800
      "lib.dll").m_moduleMappings = neighbourTotalState.m_moduleMappings ∧
    mappingBytes (AddOrReplaceModuleMapping readablePlatform neighbourTotalState 0x5000
      0x1800 "lib.dll").m_moduleMappings = 0x1000 ∧
    (AddOrReplaceModuleMapping readablePlatform neighbourTotalState 0x5000 0x1800
      "lib.dll").m_cbModuleMappings = 0x3000 := by
  decide

/-- Where the byte total stays the sum of the sizes of the entries: on a table
ordered without collision whose entries and the new range together take less
than `2^64` bytes, on a heap that keeps the content of an erased entry, when
the lookup of the header page finds an entry, or no entry collides with the
page-rounded range of the module. -/
theorem addOrReplaceModuleMapping_byte_total (pf : Platform) (ci : CrashInfo)
    (baseAddress size : Nat) (name : String) (hs : SetOrdered ci.m_moduleMappings)
    (hcb : ci.m_cbModuleMappings = mappingBytes ci.m_moduleMappings)
    (hfit : mappingBytes ci.m_moduleMappings +
      (moduleRange pf 0 baseAddress size "").Size < U64)
    (hfree : (∃ e ∈ ci.m_moduleMappings, e.Collides (headerPage pf 0 baseAddress)) ∨
      ∀ e ∈ ci.m_moduleMappings, ¬ e.Collides (moduleRange pf 0 baseAddress size ""))
    (hheap : ∀ r, pf.erasedSize r = r.Size) :
    (AddOrReplaceModuleMapping pf ci baseAddress size name).m_cbModuleMappings =
      mappingBytes (AddOrReplaceModuleMapping pf ci baseAddress size name).m_moduleMappings := by
  cases hfind : setFind ci.m_moduleMappings (headerPage pf 0 baseAddress) with
  | some E =>
    obtain ⟨pre, post, hsplit, _⟩ := setFind_some_split hfind
    rw [addOrReplaceModuleMapping_found pf ci baseAddress size name hs hsplit hfind,
      addOrReplaceModuleMapping_cb_some pf ci baseAddress size name hfind (by omega)
        (Or.inr (hheap E)),
      hcb, hsplit, mappingBytes_split, mappingBytes_split]
    rfl
  | none =>
    have hfreeR : ∀ e ∈ ci.m_moduleMappings,
        ¬ e.Collides (moduleRange pf 0 baseAddress size "") := by
      rcases hfree with ⟨e, he, hc⟩ | h
      · exfalso
        obtain ⟨f, hf⟩ := (setFind_isSome_iff hs _).mpr ⟨e, he, hc⟩
        rw [hfind] at hf
        cases hf
      · exact h
    have hfree2 : ∀ e ∈ ci.m_moduleMappings,
        e.lt (moduleRange pf (pf.GetMemoryRegionFlags ci baseAddress) baseAddress size name)
          = true ∨
        (moduleRange pf (pf.GetMemoryRegionFlags ci baseAddress) baseAddress size name).lt e
          = true := by
      intro e he
      have := (not_collides_iff _ _).mp (hfreeR e he)
      simp only [lt_iff, moduleRange] at this ⊢
      exact this
    obtain ⟨pre, post, hsplit, hins, _⟩ := setInsert_split_below hfree2
    have hsz : (moduleRange pf (pf.GetMemoryRegionFlags ci baseAddress) baseAddress size
        name).Size = (moduleRange pf 0 baseAddress size "").Size := rfl
    rw [addOrReplaceModuleMapping_cb_none pf ci baseAddress size name hfind,
      addOrReplaceModuleMapping_moduleMappings, hfind]
    simp only
    rw [hins, mappingBytes_split, hcb, hsz, Nat.mod_eq_of_lt hfit, hsplit, mappingBytes_append]
    omega

theorem addOrReplaceModuleMapping_byte_total_example :
    (AddOrReplaceModuleMapping readablePlatform neighbourTotalState 0x5000 0x800
      "lib.dll").m_cbModuleMappings =
      mappingBytes (AddOrReplaceModuleMapping readablePlatform neighbourTotalState 0x5000
        0x800 "lib.dll").m_moduleMappings :=
  addOrReplaceModuleMapping_byte_total readablePlatform neighbourTotalState 0x5000 0x800
    "lib.dll" (by decide) (by decide) (by decide) (Or.inr (by decide)) (fun _ => rfl)

/-! ## Path split -/

theorem rfindFrom_some {s str : List Char} :
    ∀ {n i : Nat}, rfindFrom s str n = some i →
      i ≤ n ∧ str <+: s.drop i ∧ ∀ j, i < j → j ≤ n → ¬ str <+: s.drop j := by
  intro n
  induction n with
  | zero =>
    intro i h
    unfold rfindFrom at h
    split_ifs at h with hp
    cases h
    refine ⟨le_refl _, ?_, fun j h1 h2 => by omega⟩
    rw [List.drop_zero]
    exact List.isPrefixOf_iff_prefix.mp hp
  | succ n ih =>
    intro i h
    unfold rfindFrom at h
    split_ifs at h with hp
    · cases h
      exact ⟨le_refl _, List.isPrefixOf_iff_prefix.mp hp, fun j h1 h2 => by omega⟩
    · obtain ⟨h1, h2, h3⟩ := ih h
      refine ⟨by omega, h2, ?_⟩
      intro j hj1 hj2
      by_cases hj : j = n + 1
      · subst hj
        intro hpre
        exact hp (List.isPrefixOf_iff_prefix.mpr hpre)
      · exact h3 j hj1 (by omega)

theorem rfindFrom_none {s str : List Char} :
    ∀ {n : Nat}, rfindFrom s str n = none → ∀ j, j ≤ n → ¬ str <+: s.drop j := by
  intro n
  induction n with
  | zero =>
    intro h j hj
    unfold rfindFrom at h
    split_ifs at h with hp
    have : j = 0 := by omega
    subst this
    rw [List.drop_zero]
    intro hpre
    exact hp (List.isPrefixOf_iff_prefix.mpr hpre)
  | succ n ih =>
    intro h j hj
    unfold rfindFrom at h
    split_ifs at h with hp
    by_cases hj2 : j = n + 1
    · subst hj2
      intro hpre
      exact hp (List.isPrefixOf_iff_prefix.mpr hpre)
    · exact ih h j (by omega)

/-- An occurrence of a string inside another starts at a position that leaves
room for it. -/
theorem infix_iff_prefix_drop {s str : List Char} :
    str <:+: s ↔ ∃ j, j + str.length ≤ s.length ∧ str <+: s.drop j := by
  constructor
  · rintro ⟨a, b, rfl⟩
    refine ⟨a.length, by simp, ?_⟩
    rw [List.append_assoc, List.drop_left]
    exact List.prefix_append _ _
  · rintro ⟨j, _, b, hb⟩
    refine ⟨s.take j, b, ?_⟩
    rw [List.append_assoc, hb, List.take_append_drop]

theorem substr_none_of_le {s : String} {pos : Nat} (h : pos ≤ s.length) :
    substr s pos none = some ⟨s.data.drop pos⟩ := by
  unfold substr
  rw [if_neg (by omega)]

theorem substr_some_zero (s : String) (n : Nat) :
    substr s 0 (some n) = some ⟨s.data.take n⟩ := by
  unfold substr
  rw [if_neg (by omega)]
  simp

/-- C25. Path split is lossless: for a separator string of one character and
every path string `p`, `GetDirectory(p)` and `GetFileName(p)` return strings
whose concatenation is exactly `p`; the file name contains no separator; and
the directory is empty when `p` contains no separator and otherwise ends with
the separator. -/
theorem path_split_lossless (DIRECTORY_SEPARATOR_STR_A p : String)
    (hsep : DIRECTORY_SEPARATOR_STR_A.length = 1) :
    ∃ d f, GetDirectory DIRECTORY_SEPARATOR_STR_A p = some d ∧
      GetFileName DIRECTORY_SEPARATOR_STR_A p = some f ∧
      d ++ f = p ∧
      ¬ DIRECTORY_SEPARATOR_STR_A.data <:+: f.data ∧
      (¬ DIRECTORY_SEPARATOR_STR_A.data <:+: p.data → d = "") ∧
      (DIRECTORY_SEPARATOR_STR_A.data <:+: p.data →
        DIRECTORY_SEPARATOR_STR_A.data <:+ d.data) := by
  have hlen : DIRECTORY_SEPARATOR_STR_A.data.length = 1 := hsep
  cases hr : rfind p DIRECTORY_SEPARATOR_STR_A with
  | none =>
    have hno : ¬ DIRECTORY_SEPARATOR_STR_A.data <:+: p.data := by
      rw [infix_iff_prefix_drop]
      rintro ⟨j, hj1, hj2⟩
      unfold rfind at hr
      have hle : DIRECTORY_SEPARATOR_STR_A.length ≤ p.length := by
        show DIRECTORY_SEPARATOR_STR_A.data.length ≤ p.data.length
        omega
      rw [if_pos hle] at hr
      refine rfindFrom_none hr j ?_ hj2
      show j ≤ p.data.length - DIRECTORY_SEPARATOR_STR_A.data.length
      omega
    refine ⟨"", p, ?_, ?_, ?_, hno, fun _ => rfl, fun h => absurd h hno⟩
    · simp only [GetDirectory, hr, substr_some_zero]
      rfl
    · simp only [GetFileName, hr]
      rw [substr_none_of_le (Nat.zero_le _)]
      rfl
    · apply String.ext
      simp
  | some i =>
    unfold rfind at hr
    split_ifs at hr with hle
    obtain ⟨h1, h2, h3⟩ := rfindFrom_some hr
    have hle2 : DIRECTORY_SEPARATOR_STR_A.data.length ≤ p.data.length := hle
    have h1b : i ≤ p.data.length - DIRECTORY_SEPARATOR_STR_A.data.length := h1
    have hi : i + 1 ≤ p.length := by
      show i + 1 ≤ p.data.length
      omega
    refine ⟨⟨p.data.take (i + 1)⟩, ⟨p.data.drop (i + 1)⟩, ?_, ?_, ?_, ?_, ?_, ?_⟩
    · simp only [GetDirectory, rfind, if_pos hle, hr, substr_some_zero]
    · simp only [GetFileName, rfind, if_pos hle, hr]
      exact substr_none_of_le hi
    · apply String.ext
      simp
    · show ¬ DIRECTORY_SEPARATOR_STR_A.data <:+: p.data.drop (i + 1)
      rw [infix_iff_prefix_drop]
      rintro ⟨j, hj1, hj2⟩
      rw [List.drop_drop] at hj2
      rw [List.length_drop] at hj1
      refine h3 (i + 1 + j) (by omega) ?_ ?_
      · show i + 1 + j ≤ p.data.length - DIRECTORY_SEPARATOR_STR_A.data.length
        omega
      · exact hj2
    · intro hno
      exfalso
      apply hno
      rw [infix_iff_prefix_drop]
      exact ⟨i, by omega, h2⟩
    · intro _
      show DIRECTORY_SEPARATOR_STR_A.data <:+ p.data.take (i + 1)
      obtain ⟨b, hb⟩ := h2
      refine ⟨p.data.take i, ?_⟩
      rw [List.take_add, ← hb, ← hlen, List.take_left]

theorem path_split_lossless_witness :
    ∃ d f, GetDirectory "/" "/usr/lib/libcoreclr.so" = some d ∧
      GetFileName "/" "/usr/lib/libcoreclr.so" = some f ∧
      d ++ f = "/usr/lib/libcoreclr.so" ∧
      ¬ ("/" : String).data <:+: f.data ∧
      (¬ ("/" : String).data <:+: ("/usr/lib/libcoreclr.so" : String).data → d = "") ∧
      (("/" : String).data <:+: ("/usr/lib/libcoreclr.so" : String).data →
        ("/" : String).data <:+ d.data) :=
  path_split_lossless "/" "/usr/lib/libcoreclr.so" (by decide)

/-- The split of a path with directories and of a bare file name. -/
theorem path_split_example :
    GetDirectory "/" "/usr/lib/libcoreclr.so" = some "/usr/lib/" ∧
    GetFileName "/" "/usr/lib/libcoreclr.so" = some "libcoreclr.so" ∧
    GetDirectory "/" "createdump" = some "" ∧
    GetFileName "/" "createdump" = some "createdump" := by
  decide

/-- Why the separator is taken to be one character: with an empty separator
string `rfind` answers the length of the path and `substr` is called beyond
the end of the string; with a separator of two characters the split is after
the first of them. -/
theorem path_split_other_separators :
    GetFileName "" "abc" = none ∧
    GetDirectory "//" "a//b" = some "a/" ∧
    GetFileName "//" "a//b" = some "/b" := by
  decide

end CreateDump
